import Mathlib

/-!
WebBubble: evaluator, route matcher, request dispatch and scanner.

A shallow embedding of `src/interpreter.c`, `src/http_server.c` and `src/lexer.c`.

* A C string is the list of its bytes before the terminating NUL (`CStr`).
* `double` arithmetic is a parameter (`DoubleOps`): the definitions use the
  C operators only through it, so every general theorem holds for whatever the
  platform computes. `wholeOps` runs the definitions on whole numbers,
  `decimalOps` on decimal numbers.
* `stderr` is modelled by the list of the texts written to it, in order; the
  stream `interp->output` by the text written to it.
* The loops of the scanner run on a step budget (`Scan.out_of_steps` when it is used
  up); the budget given is shown to suffice on every well-formed lexer.
-/

namespace WebBubble

/-! ## C strings -/

/-- The bytes of a C string, terminator excluded; each `Char` stands for one byte. -/
abbrev CStr := List Char

/-- The text read back from `dst` after `strncpy(dst, src, n)`: the first `n` bytes of
`src`. When `src` has `n` bytes or more C writes no terminator; the destination
buffers of `route_matches` have `n + 1` bytes and the model reads them as ending
there. Statements that depend on it assume sources shorter than `n`. -/
def strncpy (src : CStr) (n : Nat) : CStr :=
  src.take n

/-- One `strtok` call on the remaining text `s`: skip leading delimiters; the token is
the longest run of non-delimiters, and scanning resumes after the delimiter that ends
it. `none` is the NULL result. -/
def strtok (delims : List Char) (s : CStr) : Option (CStr × CStr) :=
  match s.dropWhile (fun c => decide (c ∈ delims)) with
  | [] => none
  | c :: cs =>
    some ((c :: cs).takeWhile (fun d => !decide (d ∈ delims)),
          ((c :: cs).dropWhile (fun d => !decide (d ∈ delims))).drop 1)

/-- The loop `p = strtok(copy, "/"); while (p && count < limit) parts[count++] = p, p = strtok(NULL, "/")`
of `route_matches`: the first `limit` tokens. -/
def split_parts (delims : List Char) : Nat → CStr → List CStr
  | 0, _ => []
  | limit + 1, s =>
    match strtok delims s with
    | none => []
    | some (tok, rest) => tok :: split_parts delims limit rest

/-- `strstr(hay, needle)`: the tail of `hay` that starts at the first occurrence of
`needle`, or `none` (NULL). -/
def strstr : CStr → CStr → Option CStr
  | [], needle => if needle = [] then some [] else none
  | c :: cs, needle =>
    if (c :: cs).take needle.length = needle then some (c :: cs) else strstr cs needle

/-- `isspace` in the C locale. -/
def isspace (c : Char) : Bool :=
  c = ' ' || c = '\t' || c = '\n' || c = '\x0b' || c = '\x0c' || c = '\r'

/-- One `%<width>s` conversion of `sscanf`: skip white space, then take at most `width`
bytes that are not white space; the conversion fails when there is none. Returns the
word and the unread input. -/
def scan_word (width : Nat) (s : CStr) : Option (CStr × CStr) :=
  let s1 := s.dropWhile isspace
  let w := (s1.takeWhile (fun c => !isspace c)).take width
  if w = [] then none else some (w, s1.drop w.length)

/-! ## Numbers -/

/-- The operations of C on `double` that the evaluator uses. `fmt_g` is the text
`printf("%g")` produces. `a != b` is `!(a == b)` (C11 6.5.9p3). -/
structure DoubleOps (F : Type) where
  zero : F
  add : F → F → F
  sub : F → F → F
  mul : F → F → F
  div : F → F → F
  lt : F → F → Bool
  gt : F → F → Bool
  le : F → F → Bool
  ge : F → F → Bool
  eq : F → F → Bool
  fmt_g : F → CStr

/-- Drop the zeros that end a digit string. -/
def strip_zeros (ds : List Char) : List Char :=
  (ds.reverse.dropWhile (fun c => c = '0')).reverse

/-- What `printf("%g")` prints for a double that holds the whole number `x`: the decimal
digits when there are at most six, otherwise six significant digits (ties to even)
in exponent form with the zeros that end the mantissa removed. -/
def fmt_g_whole (x : Int) : CStr :=
  let sign : CStr := if x < 0 then ['-'] else []
  let n := x.natAbs
  let ds := Nat.toDigits 10 n
  if ds.length ≤ 6 then sign ++ ds
  else
    let k := ds.length - 6
    let q := n / 10 ^ k
    let r := n % 10 ^ k
    let half := 10 ^ k / 2
    let q1 := if r > half || (r = half && q % 2 = 1) then q + 1 else q
    let m := if q1 = 1000000 then 100000 else q1
    let e := if q1 = 1000000 then ds.length else ds.length - 1
    let md := Nat.toDigits 10 m
    let frac := strip_zeros (md.drop 1)
    let mant := md.take 1 ++ (if frac = [] then [] else '.' :: frac)
    let ed := Nat.toDigits 10 e
    sign ++ mant ++ ['e', '+'] ++ (if ed.length < 2 then '0' :: ed else ed)

/-- Whole numbers, to run the definitions on concrete inputs. Sums, differences,
products and comparisons of doubles that hold whole numbers below 2^53 are the
integer ones; `div` is the C quotient only where the division is exact. -/
def wholeOps : DoubleOps Int where
  zero := 0
  add := fun a b => a + b
  sub := fun a b => a - b
  mul := fun a b => a * b
  div := fun a b => a / b
  lt := fun a b => decide (a < b)
  gt := fun a b => decide (a > b)
  le := fun a b => decide (a ≤ b)
  ge := fun a b => decide (a ≥ b)
  eq := fun a b => decide (a = b)
  fmt_g := fmt_g_whole

/-- A finite decimal number, `mant * 10 ^ exp`. Every finite double is one: it is a whole
number times a power of two, and `2 ^ (-k) = 5 ^ k * 10 ^ (-k)`. -/
structure Decimal where
  mant : Int
  exp : Int
deriving DecidableEq

/-- The significant digits of a decimal that is not zero: the digits of its mantissa
without the zeros that end them. -/
def significant_digits (x : Decimal) : CStr :=
  strip_zeros (Nat.toDigits 10 x.mant.natAbs)

/-- The decimal exponent of the first significant digit of a decimal that is not zero. -/
def leading_exponent (x : Decimal) : Int :=
  ((Nat.toDigits 10 x.mant.natAbs).length : Int) - 1 + x.exp

/-- The whole number `n` to six significant digits, ties to even: `(m, k)` stands for
`m * 10 ^ k`. -/
def round_six (n : Nat) : Nat × Nat :=
  let ds := Nat.toDigits 10 n
  if ds.length ≤ 6 then (n, 0)
  else
    let k := ds.length - 6
    let q := n / 10 ^ k
    let r := n % 10 ^ k
    let half := 10 ^ k / 2
    (if r > half || (r = half && q % 2 = 1) then q + 1 else q, k)

/-- The digits `printf("%g")` prints for a decimal that is not zero, without the zeros that
end them, and the decimal exponent of the first: the significant digits themselves when
there are at most six, otherwise the value rounded to six significant digits. -/
def g_digits (x : Decimal) : CStr × Int :=
  if (significant_digits x).length ≤ 6 then (significant_digits x, leading_exponent x)
  else
    let r := round_six x.mant.natAbs
    let md := Nat.toDigits 10 r.1
    (strip_zeros md, (md.length : Int) - 1 + r.2 + x.exp)

/-- The exponent part of the style `e` of `printf`: a sign and at least two digits. -/
def exponent_text (e : Int) : CStr :=
  ['e', if e < 0 then '-' else '+'] ++
    (if (Nat.toDigits 10 e.natAbs).length < 2 then '0' :: Nat.toDigits 10 e.natAbs
     else Nat.toDigits 10 e.natAbs)

/-- What `printf("%g")` prints for a double that holds the decimal `x` (C11 7.21.6.1p8,
precision 6): with `X` the decimal exponent of the value rounded to six significant
digits, style `e` when `X < -4` or `X >= 6` and style `f` otherwise, in both without the
zeros that end the fraction and without the point when no fraction is left. -/
def fmt_g_decimal (x : Decimal) : CStr :=
  if x.mant = 0 then ['0']
  else
    let sign : CStr := if x.mant < 0 then ['-'] else []
    let digits := (g_digits x).1
    let X := (g_digits x).2
    if X < -4 ∨ 6 ≤ X then
      sign ++ digits.take 1 ++ (if digits.drop 1 = [] then [] else '.' :: digits.drop 1) ++
        exponent_text X
    else if X < 0 then
      sign ++ ['0', '.'] ++ List.replicate (-X - 1).toNat '0' ++ digits
    else
      sign ++ (digits.take (X.toNat + 1) ++
          List.replicate (X.toNat + 1 - digits.length) '0') ++
        (if digits.drop (X.toNat + 1) = [] then [] else '.' :: digits.drop (X.toNat + 1))

/-- `ASTNode`: one constructor per `ASTNodeType`, with the payload of its union member. -/
inductive ASTNode (F : Type) where
  | program (routes : List (ASTNode F))
  | route (path : CStr) (body : ASTNode F)
  | response (value : ASTNode F) (is_html : Bool)
  | assignment (name : CStr) (value : ASTNode F)
  | identifier (name : CStr)
  | string (value : CStr)
  | number (value : F)
  | block (statements : List (ASTNode F))
  | binary_op (operator : CStr) (left right : ASTNode F)
  | if_stmt (condition then_branch : ASTNode F) (else_branch : Option (ASTNode F))
  | while_stmt (condition body : ASTNode F)
  | function (name : CStr) (params : List CStr) (body : ASTNode F)
  | function_call (name : CStr) (args : List (ASTNode F))
  | return_stmt (value : ASTNode F)

/-! ## Runtime values and the environment (`include/interpreter.h`) -/

/-- `Value`: `VAL_NULL`, `VAL_STRING`, `VAL_NUMBER`, `VAL_BOOL`. -/
inductive Value (F : Type) where
  | null
  | string (s : CStr)
  | number (x : F)
  | bool (b : Bool)
deriving DecidableEq

/-- One cell of the linked list of variables. -/
structure Variable (F : Type) where
  name : CStr
  value : Value F
deriving DecidableEq

/-- `Interpreter`: the list `variables` (field `vars`), head first, and the text written so far to the
stream `output` points at. -/
structure Interpreter (F : Type) where
  vars : List (Variable F)
  output : CStr
deriving DecidableEq

variable {F : Type}

def value_create_string (str : CStr) : Value F :=
  Value.string str

def value_create_number (num : F) : Value F :=
  Value.number num

def value_create_null : Value F :=
  Value.null

/-- `value_print`: the text written to the stream. -/
def value_print (ops : DoubleOps F) : Value F → CStr
  | .string s => s
  | .number x => ops.fmt_g x
  | .bool b => if b then "true".toList else "false".toList
  | .null => "null".toList

/-- `value_to_string`; the number goes through a 256-byte `snprintf` buffer. -/
def value_to_string (ops : DoubleOps F) : Value F → CStr
  | .string s => s
  | .number x => (ops.fmt_g x).take 255
  | .bool b => if b then "true".toList else "false".toList
  | .null => "null".toList

/-- The `while` loop of `set_variable`: overwrite the value of the first cell named
`name`; `none` when the loop reaches the end of the list. -/
def update_existing (name : CStr) (value : Value F) : List (Variable F) → Option (List (Variable F))
  | [] => none
  | var :: rest =>
    if var.name = name then some ({ var with value := value } :: rest)
    else (update_existing name value rest).map (fun vs => var :: vs)

/-- `set_variable`: update in place, else push a new cell at the head. -/
def set_variable (interp : Interpreter F) (name : CStr) (value : Value F) : Interpreter F :=
  match update_existing name value interp.vars with
  | some vars => { interp with vars := vars }
  | none => { interp with vars := { name := name, value := value } :: interp.vars }

/-- The list walk of `get_variable`. -/
def lookup (name : CStr) : List (Variable F) → Option (Value F)
  | [] => none
  | var :: rest => if var.name = name then some var.value else lookup name rest

/-- `get_variable`: the value of the first cell named `name`, `none` for NULL. -/
def get_variable (interp : Interpreter F) (name : CStr) : Option (Value F) :=
  lookup name interp.vars

/-- `interpreter_init`: no variables, nothing written. -/
def interpreter_init : Interpreter F :=
  { vars := [], output := [] }

/-! ## Evaluator (`src/interpreter.c`) -/

/-- The text of `fprintf(stderr, "Runtime error: Undefined variable '%s'\n", name)`. -/
def undefined_variable_message (name : CStr) : CStr :=
  "Runtime error: Undefined variable '".toList ++ name ++ "'\n".toList

/-- The text of `fprintf(stderr, "Runtime error: Division by zero\n")`. -/
def division_by_zero_message : CStr :=
  "Runtime error: Division by zero\n".toList

/-- The `for` loop of the `AST_BLOCK` case of `eval_expression`: for each statement that
is an identifier naming a bound variable, append `value_to_string` of its value to
`result`. The statements themselves are not evaluated. -/
def html_block_concat (ops : DoubleOps F) (interp : Interpreter F) :
    List (ASTNode F) → CStr → CStr
  | [], result => result
  | stmt :: rest, result =>
    match stmt with
    | .identifier name =>
      match get_variable interp name with
      | some var => html_block_concat ops interp rest (result ++ value_to_string ops var)
      | none => html_block_concat ops interp rest result
    | _ => html_block_concat ops interp rest result

/-- The test `val.type == VAL_STRING`. -/
def is_string : Value F → Bool
  | .string _ => true
  | _ => false

/-- The test `left.type == VAL_NUMBER && right.type == VAL_NUMBER`, with the two numbers. -/
def number_operands : Value F → Value F → Option (F × F)
  | .number a, .number b => some (a, b)
  | _, _ => none

/-- The test `left.type == VAL_STRING && right.type == VAL_STRING`, with the two strings. -/
def string_operands : Value F → Value F → Option (CStr × CStr)
  | .string a, .string b => some (a, b)
  | _, _ => none

/-- The branches `-`, `*`, `/`, `<`, `>`, `<=`, `>=` of the operator chain, which are guarded
by both operands being numbers `a`, `b`; `none` when `op` is none of them. -/
def numeric_branch (ops : DoubleOps F) (op : CStr) (a b : F) : Option (Value F × List CStr) :=
  if op = "-".toList then some (value_create_number (ops.sub a b), [])
  else if op = "*".toList then some (value_create_number (ops.mul a b), [])
  else if op = "/".toList then
    if !ops.eq b ops.zero then some (value_create_number (ops.div a b), [])
    else some (value_create_null, [division_by_zero_message])
  else if op = "<".toList then some (Value.bool (ops.lt a b), [])
  else if op = ">".toList then some (Value.bool (ops.gt a b), [])
  else if op = "<=".toList then some (Value.bool (ops.le a b), [])
  else if op = ">=".toList then some (Value.bool (ops.ge a b), [])
  else none

/-- The branches `==` and `!=` of the operator chain, and its final `else`. -/
def equality_branch (ops : DoubleOps F) (op : CStr) (left right : Value F) : Value F :=
  if op = "==".toList then
    match number_operands left right with
    | some (a, b) => Value.bool (ops.eq a b)
    | none =>
      match string_operands left right with
      | some (a, b) => Value.bool (decide (a = b))
      | none => Value.bool false
  else if op = "!=".toList then
    match number_operands left right with
    | some (a, b) => Value.bool (!ops.eq a b)
    | none =>
      match string_operands left right with
      | some (a, b) => Value.bool (decide (a ≠ b))
      | none => Value.bool true
  else value_create_null

/-- The operator chain of the `AST_BINARY_OP` case of `eval_expression`, applied to the
values of the two operands: the result and what is written to `stderr`. The branches
are tried in the order of the source: `+`, then the numeric operators when both operands
are numbers, then `==`, `!=` and the final `else`. -/
def binary_op_result (ops : DoubleOps F) (op : CStr) (left right : Value F) :
    Value F × List CStr :=
  if op = "+".toList then
    if is_string left || is_string right then
      (value_create_string (value_to_string ops left ++ value_to_string ops right), [])
    else
      match number_operands left right with
      | some (a, b) => (value_create_number (ops.add a b), [])
      | none => (value_create_null, [])
  else
    match (number_operands left right).bind (fun ab => numeric_branch ops op ab.1 ab.2) with
    | some result => result
    | none => (equality_branch ops op left right, [])

/-- `eval_expression`: the value of the node and the texts written to `stderr`, in order.
The environment is only read. -/
def eval_expression (ops : DoubleOps F) (interp : Interpreter F) :
    ASTNode F → Value F × List CStr
  | .string value => (value_create_string value, [])
  | .number value => (value_create_number value, [])
  | .identifier name =>
    match get_variable interp name with
    | some (.string s) => (value_create_string s, [])
    | some (.number x) => (value_create_number x, [])
    | _ => (value_create_null, [undefined_variable_message name])
  | .block statements =>
    (Value.string (html_block_concat ops interp statements []), [])
  | .binary_op op left right =>
    let l := eval_expression ops interp left
    let r := eval_expression ops interp right
    let res := binary_op_result ops op l.1 r.1
    (res.1, l.2 ++ r.2 ++ res.2)
  | _ => (value_create_null, [])

/-- The text a `Response` statement writes to `interp->output`. -/
def response_text (ops : DoubleOps F) (is_html : Bool) (value : Value F) : CStr :=
  if is_html then
    "Content-Type: text/html\n\n".toList ++ "<html><body>".toList ++ value_print ops value
      ++ "</body></html>\n".toList
  else
    "Content-Type: text/plain\n\n".toList ++ value_print ops value ++ "\n".toList

mutual
/-- `execute_statement`: the interpreter afterwards and the texts written to `stderr`. -/
def execute_statement (ops : DoubleOps F) :
    Interpreter F → ASTNode F → Interpreter F × List CStr
  | interp, .assignment name value =>
    let v := eval_expression ops interp value
    (set_variable interp name v.1, v.2)
  | interp, .response value is_html =>
    let v := eval_expression ops interp value
    ({ interp with output := interp.output ++ response_text ops is_html v.1 }, v.2)
  | interp, .block statements => execute_statements ops interp statements
  | interp, _ => (interp, [])
/-- The `for` loop of the `AST_BLOCK` case of `execute_statement`. -/
def execute_statements (ops : DoubleOps F) :
    Interpreter F → List (ASTNode F) → Interpreter F × List CStr
  | interp, [] => (interp, [])
  | interp, stmt :: rest =>
    let r1 := execute_statement ops interp stmt
    let r2 := execute_statements ops r1.1 rest
    (r2.1, r1.2 ++ r2.2)
end

/-! ## Route matching (`src/http_server.c`) -/

/-- The `for` loop of `route_matches` over the paired parts: a pattern part that starts
with `:` records (name, value), any other part must equal the path part. Returns the
result and the pairs recorded so far (on failure the pairs recorded before the
mismatch, as `*param_count` is left in C). -/
def match_parts : List (CStr × CStr) → List (CStr × CStr) → Bool × List (CStr × CStr)
  | [], params => (true, params)
  | (pattern_part, path_part) :: rest, params =>
    if pattern_part.head? = some ':' then
      match_parts rest (params ++ [(strncpy (pattern_part.drop 1) 255, strncpy path_part 255)])
    else if pattern_part = path_part then match_parts rest params
    else (false, params)

/-- `route_matches`: the returned flag and the recorded (name, value) pairs, in the order
they were written to `params[]` and `values[]`. The caller's arrays have 8 entries and
the loop does not test `*param_count` against that: a ninth pair is written past their
end in C; the model keeps every pair. -/
def route_matches (route_pattern request_path : CStr) : Bool × List (CStr × CStr) :=
  let pattern_copy := strncpy route_pattern 255
  let path_copy := strncpy request_path 255
  let pattern_parts := split_parts ['/'] 32 pattern_copy
  let path_parts := split_parts ['/'] 32 path_copy
  if pattern_parts.length ≠ path_parts.length then (false, [])
  else match_parts (pattern_parts.zip path_parts) []

/-- The loop `for (j = 0; j < param_count; j++) set_variable(interp, params[j], value_create_string(values[j]))`. -/
def bind_params (interp : Interpreter F) : List (CStr × CStr) → Interpreter F
  | [] => interp
  | (name, value) :: rest => bind_params (set_variable interp name (value_create_string value)) rest

/-- The `for` loop of `find_matching_route` over `program->data.program.routes`. The parser
stores only Route nodes there (`parse_program`); for a node of another kind C would read
the wrong union member, and the model passes over it. -/
def find_in_routes (path : CStr) :
    List (ASTNode F) → Interpreter F → Option (ASTNode F) × Interpreter F
  | [], interp => (none, interp)
  | route :: rest, interp =>
    match route with
    | .route route_path _ =>
      if route_path = path then (some route, interp)
      else if (route_matches route_path path).1 then
        (some route, bind_params interp (route_matches route_path path).2)
      else find_in_routes path rest interp
    | _ => find_in_routes path rest interp

/-- `find_matching_route`: the selected route (`none` for NULL) and the interpreter with the
path parameters bound. -/
def find_matching_route (program : ASTNode F) (path : CStr) (interp : Interpreter F) :
    Option (ASTNode F) × Interpreter F :=
  match program with
  | .program routes => find_in_routes path routes interp
  | _ => (none, interp)

/-! ## Requests, responses and the dispatcher (`src/http_server.c`) -/

/-- `HTTPRequest`; a field is `none` when `http_request_parse` leaves it unassigned. -/
structure HTTPRequest where
  method : Option CStr
  path : Option CStr
  version : Option CStr
  headers : Option CStr
  body : Option CStr
deriving DecidableEq

/-- `HTTPResponse`. -/
structure HTTPResponse where
  status_code : Int
  status_text : CStr
  content_type : CStr
  body : CStr
deriving DecidableEq

/-- `HTTPServer`. -/
structure HTTPServer (F : Type) where
  port : Int
  socket_fd : Int
  program : ASTNode F
  interpreter : Interpreter F

/-- `sscanf(line, "%15s %255s %15s", method, path, version)`: the three words when all
three conversions succeed (return value 3). -/
def scan_request_line (line : CStr) : Option (CStr × CStr × CStr) :=
  match scan_word 15 line with
  | none => none
  | some (method, rest1) =>
    match scan_word 255 rest1 with
    | none => none
    | some (path, rest2) =>
      match scan_word 15 rest2 with
      | none => none
      | some (version, _) => some (method, path, version)

/-- `http_request_parse`. `line` is the first `strtok` token of the text on `"\r\n"`; when
there is none the fields are left unassigned. -/
def http_request_parse (raw_request : CStr) : HTTPRequest :=
  match strtok ['\r', '\n'] raw_request with
  | none => { method := none, path := none, version := none, headers := none, body := none }
  | some (line, _) =>
    match scan_request_line line with
    | some (method, path, version) =>
      { method := some method, path := some path, version := some version,
        headers := some [], body := some [] }
    | none =>
      { method := some "GET".toList, path := some "/".toList, version := some "HTTP/1.1".toList,
        headers := some [], body := some [] }

/-- `http_response_create`. -/
def http_response_create (status_code : Int) (content_type body : CStr) : HTTPResponse :=
  { status_code := status_code,
    status_text :=
      if status_code = 200 then "OK".toList
      else if status_code = 404 then "Not Found".toList
      else if status_code = 500 then "Internal Server Error".toList
      else "Unknown".toList,
    content_type := content_type,
    body := body }

/-- The text `printf("%d")` produces for an `int`. -/
def fmt_d (n : Int) : CStr :=
  if n < 0 then '-' :: Nat.toDigits 10 n.natAbs else Nat.toDigits 10 n.toNat

/-- The text `printf("%zu")` produces for a `size_t`. -/
def fmt_zu (n : Nat) : CStr :=
  Nat.toDigits 10 n

/-- `http_response_to_string`: `snprintf` into a buffer of `512 + strlen(body)` bytes, which
keeps the first `511 + strlen(body)` bytes of the formatted text. -/
def http_response_to_string (response : HTTPResponse) : CStr :=
  ("HTTP/1.1 ".toList ++ fmt_d response.status_code ++ " ".toList ++ response.status_text
    ++ "\r\n".toList
    ++ "Content-Type: ".toList ++ response.content_type ++ "\r\n".toList
    ++ "Content-Length: ".toList ++ fmt_zu response.body.length ++ "\r\n".toList
    ++ "Connection: close\r\n".toList
    ++ "\r\n".toList
    ++ response.body).take (512 + response.body.length - 1)

/-- `http_server_create`. -/
def http_server_create (port : Int) (program : ASTNode F) : HTTPServer F :=
  { port := port, socket_fd := -1, program := program, interpreter := interpreter_init }

/-- What one accepted connection brings: the bytes `read` delivers (none when it returns
zero or an error) and whether `fmemopen` yields a stream. -/
structure Connection where
  received : List Char
  mem_stream_ok : Bool
deriving DecidableEq

/-- The body of a route node (`route->data.route.body`); `find_matching_route` returns
Route nodes only. -/
def route_body : ASTNode F → ASTNode F
  | .route _ body => body
  | node => node

/-- The 200 response built from the captured output: content type from the marker line,
body after the first blank line when a marker is present and a blank line exists. -/
def response_of_output (output_buffer : CStr) : HTTPResponse :=
  if (strstr output_buffer "Content-Type: text/html".toList).isSome then
    http_response_create 200 "text/html".toList
      (match strstr output_buffer "\n\n".toList with
       | some body_start => body_start.drop 2
       | none => output_buffer)
  else if (strstr output_buffer "Content-Type: text/plain".toList).isSome then
    http_response_create 200 "text/plain".toList
      (match strstr output_buffer "\n\n".toList with
       | some body_start => body_start.drop 2
       | none => output_buffer)
  else http_response_create 200 "text/plain".toList output_buffer

/-- Result of `handle_client`: the server afterwards, the response sent (none when the
connection is closed unanswered) and the texts written to `stderr`. -/
structure Handled (F : Type) where
  server : HTTPServer F
  response : Option HTTPResponse
  diagnostics : List CStr

/-- `handle_client`. `read` takes at most `BUFFER_SIZE - 1` = 4095 bytes and the buffer is
read as a C string. The memory stream over the 4096-byte `output_buffer` keeps a
terminating NUL, so the text read back is the first 4095 bytes written. The result is
`none` where C is undefined: the request line is missing and `request->path` is read
unassigned. Writes to `stdout` are not modelled. -/
def handle_client (ops : DoubleOps F) (server : HTTPServer F) (conn : Connection) :
    Option (Handled F) :=
  let buffer := (conn.received.take 4095).takeWhile (fun c => c ≠ '\x00')
  if conn.received.take 4095 = [] then
    some { server := server, response := none, diagnostics := [] }
  else
    match (http_request_parse buffer).path with
    | none => none
    | some path =>
      let found := find_matching_route server.program path server.interpreter
      match found.1 with
      | some route =>
        if conn.mem_stream_ok then
          let ran := execute_statement ops { found.2 with output := [] } (route_body route)
          some { server := { server with interpreter := interpreter_init },
                 response := some (response_of_output (ran.1.output.take 4095)),
                 diagnostics := ran.2 }
        else
          some { server := { server with interpreter := interpreter_init },
                 response := some (http_response_create 500 "text/plain".toList
                   "Internal Server Error".toList),
                 diagnostics := [] }
      | none =>
        some { server := { server with interpreter := found.2 },
               response := some (http_response_create 404 "text/plain".toList
                 (("404 Not Found - Route '".toList ++ path ++ "' not defined".toList).take 255)),
               diagnostics := [] }

/-- The accept loop of `http_server_start` over the connections accepted so far: the server
after `handle_client` has run on each, in order. -/
def serve (ops : DoubleOps F) : HTTPServer F → List Connection → Option (HTTPServer F)
  | server, [] => some server
  | server, conn :: rest =>
    match handle_client ops server conn with
    | none => none
    | some handled => serve ops handled.server rest

/-! ## Scanner (`include/lexer.h`, `src/lexer.c`) -/

/-- `TokenType`. -/
inductive TokenType where
  | TOKEN_EOF
  | TOKEN_ROUTE
  | TOKEN_RESPONSE
  | TOKEN_HTML
  | TOKEN_IF
  | TOKEN_ELSE
  | TOKEN_WHILE
  | TOKEN_FOR
  | TOKEN_FUNCTION
  | TOKEN_RETURN
  | TOKEN_IDENTIFIER
  | TOKEN_STRING
  | TOKEN_NUMBER
  | TOKEN_LBRACE
  | TOKEN_RBRACE
  | TOKEN_LPAREN
  | TOKEN_RPAREN
  | TOKEN_EQUALS
  | TOKEN_PLUS
  | TOKEN_MINUS
  | TOKEN_STAR
  | TOKEN_SLASH
  | TOKEN_DOT
  | TOKEN_COMMA
  | TOKEN_COLON
  | TOKEN_SEMICOLON
  | TOKEN_LT
  | TOKEN_GT
  | TOKEN_LTE
  | TOKEN_GTE
  | TOKEN_EQ
  | TOKEN_NEQ
  | TOKEN_AND
  | TOKEN_OR
  | TOKEN_UNKNOWN
deriving DecidableEq

/-- `Token`; `value` is `none` for the NULL lexeme of EOF and UNKNOWN. -/
structure Token where
  type : TokenType
  value : Option CStr
  line : Nat
  column : Nat
deriving DecidableEq

/-- `Lexer`; `current_char` is NUL at the end of the source. -/
structure Lexer where
  source : CStr
  position : Nat
  line : Nat
  column : Nat
  current_char : Char
deriving DecidableEq

/-- The fatal errors of the scanner: a message on `stderr` with the line, then `exit(1)`. -/
inductive ScanError where
  | string_too_long (line : Nat)
  | unterminated_string (line : Nat)
  | number_too_long (line : Nat)
  | identifier_too_long (line : Nat)
deriving DecidableEq

/-- Outcome of a scanner function: it returns, it ends the process with a fatal error, or
the step budget given to the model of one of its loops is used up. -/
inductive Scan (α : Type) where
  | ok (value : α)
  | fatal (error : ScanError)
  | out_of_steps

/-- Continue with `next` when the first part returned. -/
def Scan.and_then {α β : Type} (first : Scan α) (next : α → Scan β) : Scan β :=
  match first with
  | Scan.ok value => next value
  | Scan.fatal error => Scan.fatal error
  | Scan.out_of_steps => Scan.out_of_steps

/-- `isdigit` in the C locale. -/
def isdigit (c : Char) : Bool :=
  c.isDigit

/-- `isalpha` in the C locale. -/
def isalpha (c : Char) : Bool :=
  c.isAlpha

/-- `isalnum` in the C locale. -/
def isalnum (c : Char) : Bool :=
  c.isAlpha || c.isDigit

/-- `advance` of `lexer.c`. -/
def Lexer.advance (lexer : Lexer) : Lexer :=
  { source := lexer.source,
    position := lexer.position + 1,
    line := if lexer.current_char = '\n' then lexer.line + 1 else lexer.line,
    column := if lexer.current_char = '\n' then 0 else lexer.column + 1,
    current_char :=
      if lexer.position + 1 < lexer.source.length then lexer.source.getD (lexer.position + 1) '\x00'
      else '\x00' }

/-- `token_create`. -/
def token_create (type : TokenType) (value : Option CStr) (line column : Nat) : Token :=
  { type := type, value := value, line := line, column := column }

/-- `lexer_init`: `source[0]` is the terminator when the source is empty. -/
def lexer_init (source : CStr) : Lexer :=
  { source := source, position := 0, line := 1, column := 0,
    current_char := source.getD 0 '\x00' }

/-- The step budget given to a loop that starts at `lexer`: one more than the number of
bytes from the cursor to the end of the source. -/
def steps_left (lexer : Lexer) : Nat :=
  lexer.source.length - lexer.position + 1

/-- The loops of `skip_whitespace`, `skip_comment`, `read_string`, `read_number` and
`read_identifier` have one shape:
`while (current_char != '\0' && test(current_char)) { if (i >= limit) fatal; buffer[i++] =
current_char; advance(lexer); }` (the two skip loops have neither buffer nor limit).
Returns the lexer and the buffer when the loop ends. -/
def scan_loop (test : Char → Bool) (limit : Option (Nat × ScanError)) :
    Nat → Lexer → CStr → Scan (Lexer × CStr)
  | 0, _, _ => Scan.out_of_steps
  | steps + 1, lexer, buffer =>
    if lexer.current_char ≠ '\x00' ∧ test lexer.current_char = true then
      match limit with
      | some (size, error) =>
        if buffer.length ≥ size then Scan.fatal error
        else scan_loop test limit steps lexer.advance (buffer ++ [lexer.current_char])
      | none => scan_loop test limit steps lexer.advance (buffer ++ [lexer.current_char])
    else Scan.ok (lexer, buffer)

/-- `skip_whitespace`. -/
def skip_whitespace (lexer : Lexer) : Scan Lexer :=
  (scan_loop isspace none (steps_left lexer) lexer []).and_then (fun r => Scan.ok r.1)

/-- The test `current_char == '/' && position + 1 < strlen(source) && source[position + 1] == '/'`. -/
def at_comment (lexer : Lexer) : Bool :=
  lexer.current_char = '/' && decide (lexer.position + 1 < lexer.source.length) &&
    lexer.source.getD (lexer.position + 1) '\x00' = '/'

/-- `skip_comment`. -/
def skip_comment (lexer : Lexer) : Scan Lexer :=
  if at_comment lexer then
    (scan_loop (fun c => c ≠ '\n') none (steps_left lexer) lexer []).and_then
      (fun r => Scan.ok r.1)
  else Scan.ok lexer

/-- `read_string`. -/
def read_string (lexer : Lexer) : Scan (Token × Lexer) :=
  (scan_loop (fun c => c ≠ '"') (some (1023, ScanError.string_too_long lexer.line))
      (steps_left lexer.advance) lexer.advance []).and_then
    (fun r =>
      if r.1.current_char = '"' then
        Scan.ok (token_create TokenType.TOKEN_STRING (some r.2) lexer.line lexer.column,
          r.1.advance)
      else Scan.fatal (ScanError.unterminated_string lexer.line))

/-- `read_number`. -/
def read_number (lexer : Lexer) : Scan (Token × Lexer) :=
  (scan_loop (fun c => isdigit c || c = '.') (some (255, ScanError.number_too_long lexer.line))
      (steps_left lexer) lexer []).and_then
    (fun r => Scan.ok (token_create TokenType.TOKEN_NUMBER (some r.2) lexer.line lexer.column, r.1))

/-- The keyword table of `read_identifier`. -/
def keyword_type (buffer : CStr) : TokenType :=
  if buffer = "route".toList then TokenType.TOKEN_ROUTE
  else if buffer = "response".toList then TokenType.TOKEN_RESPONSE
  else if buffer = "html".toList then TokenType.TOKEN_HTML
  else if buffer = "if".toList then TokenType.TOKEN_IF
  else if buffer = "else".toList then TokenType.TOKEN_ELSE
  else if buffer = "while".toList then TokenType.TOKEN_WHILE
  else if buffer = "for".toList then TokenType.TOKEN_FOR
  else if buffer = "function".toList then TokenType.TOKEN_FUNCTION
  else if buffer = "return".toList then TokenType.TOKEN_RETURN
  else TokenType.TOKEN_IDENTIFIER

/-- `read_identifier`. -/
def read_identifier (lexer : Lexer) : Scan (Token × Lexer) :=
  (scan_loop (fun c => isalnum c || c = '_')
      (some (255, ScanError.identifier_too_long lexer.line)) (steps_left lexer) lexer []).and_then
    (fun r => Scan.ok (token_create (keyword_type r.2) (some r.2) lexer.line lexer.column, r.1))

/-- The `switch` of `lexer_next_token` on a single character. -/
def single_char_type (current : Char) : TokenType × Option CStr :=
  if current = '{' then (TokenType.TOKEN_LBRACE, some ['{'])
  else if current = '}' then (TokenType.TOKEN_RBRACE, some ['}'])
  else if current = '(' then (TokenType.TOKEN_LPAREN, some ['('])
  else if current = ')' then (TokenType.TOKEN_RPAREN, some [')'])
  else if current = '=' then (TokenType.TOKEN_EQUALS, some ['='])
  else if current = '+' then (TokenType.TOKEN_PLUS, some ['+'])
  else if current = '-' then (TokenType.TOKEN_MINUS, some ['-'])
  else if current = '*' then (TokenType.TOKEN_STAR, some ['*'])
  else if current = '/' then (TokenType.TOKEN_SLASH, some ['/'])
  else if current = '.' then (TokenType.TOKEN_DOT, some ['.'])
  else if current = ',' then (TokenType.TOKEN_COMMA, some [','])
  else if current = ':' then (TokenType.TOKEN_COLON, some [':'])
  else if current = ';' then (TokenType.TOKEN_SEMICOLON, some [';'])
  else if current = '<' then (TokenType.TOKEN_LT, some ['<'])
  else if current = '>' then (TokenType.TOKEN_GT, some ['>'])
  else (TokenType.TOKEN_UNKNOWN, none)

/-- The part of `lexer_next_token` after the three `return read_...` tests: the character
is consumed, then the two-character operators are tried, then the `switch`. The message
written to `stderr` for an unknown character is not modelled. -/
def operator_token (lexer : Lexer) : Token × Lexer :=
  let current := lexer.current_char
  let next := lexer.advance
  if current = '=' ∧ next.current_char = '=' then
    (token_create TokenType.TOKEN_EQ (some "==".toList) lexer.line lexer.column, next.advance)
  else if current = '!' ∧ next.current_char = '=' then
    (token_create TokenType.TOKEN_NEQ (some "!=".toList) lexer.line lexer.column, next.advance)
  else if current = '<' ∧ next.current_char = '=' then
    (token_create TokenType.TOKEN_LTE (some "<=".toList) lexer.line lexer.column, next.advance)
  else if current = '>' ∧ next.current_char = '=' then
    (token_create TokenType.TOKEN_GTE (some ">=".toList) lexer.line lexer.column, next.advance)
  else if current = '&' ∧ next.current_char = '&' then
    (token_create TokenType.TOKEN_AND (some "&&".toList) lexer.line lexer.column, next.advance)
  else if current = '|' ∧ next.current_char = '|' then
    (token_create TokenType.TOKEN_OR (some "||".toList) lexer.line lexer.column, next.advance)
  else
    (token_create (single_char_type current).1 (single_char_type current).2 lexer.line
      lexer.column, next)

/-- The `while (lexer->current_char != '\0')` loop of `lexer_next_token`; an iteration that
skips white space or a comment goes round again. -/
def next_token_loop : Nat → Lexer → Scan (Token × Lexer)
  | 0, _ => Scan.out_of_steps
  | steps + 1, lexer =>
    if lexer.current_char = '\x00' then
      Scan.ok (token_create TokenType.TOKEN_EOF none lexer.line lexer.column, lexer)
    else if isspace lexer.current_char then
      (skip_whitespace lexer).and_then (next_token_loop steps)
    else if at_comment lexer then
      (skip_comment lexer).and_then (next_token_loop steps)
    else if lexer.current_char = '"' then read_string lexer
    else if isdigit lexer.current_char then read_number lexer
    else if isalpha lexer.current_char || lexer.current_char = '_' then read_identifier lexer
    else Scan.ok (operator_token lexer)

/-- `lexer_next_token`: the token and the lexer after the call. -/
def lexer_next_token (lexer : Lexer) : Scan (Token × Lexer) :=
  next_token_loop (steps_left lexer) lexer

/-! ## Parser (`src/parser.c`) -/

/-- Modelled from the spec: the `Parser` record of `include/parser.h`, a file that is not
among the sources. Its two fields are the scanner and the current token (§4.2), the ones
`parser.c` reads and writes. -/
structure Parser where
  lexer : Lexer
  current_token : Token
deriving DecidableEq

/-- The fatal errors of the parser: a message on `stderr` with the line of the current
token, then `exit(1)`. -/
inductive ParseError where
  | expected (line : Nat) (message : CStr) (expected got : TokenType)
  | expected_expression (line : Nat)
  | unexpected_token (line : Nat)
  | expected_route_path (line : Nat)
deriving DecidableEq

/-- Outcome of a parser function: it returns, it ends the process with a fatal error of
the scanner or of the parser, or the budget given to the model is used up. -/
inductive Parse (α : Type) where
  | ok (value : α)
  | scan_error (error : ScanError)
  | parse_error (error : ParseError)
  | out_of_budget

/-- Continue with `next` when the first part returned. -/
def Parse.and_then {α β : Type} (first : Parse α) (next : α → Parse β) : Parse β :=
  match first with
  | Parse.ok value => next value
  | Parse.scan_error error => Parse.scan_error error
  | Parse.parse_error error => Parse.parse_error error
  | Parse.out_of_budget => Parse.out_of_budget

/-- `peek_next`: the next token, and the parser with the four saved fields of its lexer
written back. -/
def peek_next (parser : Parser) : Parse (Token × Parser) :=
  match lexer_next_token parser.lexer with
  | Scan.ok (next, lexer) =>
    Parse.ok (next,
      { lexer :=
          { source := lexer.source, position := parser.lexer.position,
            line := parser.lexer.line, column := parser.lexer.column,
            current_char := parser.lexer.current_char },
        current_token := parser.current_token })
  | Scan.fatal error => Parse.scan_error error
  | Scan.out_of_steps => Parse.out_of_budget

/-- `advance` of `parser.c`. -/
def Parser.advance (parser : Parser) : Parse Parser :=
  match lexer_next_token parser.lexer with
  | Scan.ok (token, lexer) => Parse.ok { lexer := lexer, current_token := token }
  | Scan.fatal error => Parse.scan_error error
  | Scan.out_of_steps => Parse.out_of_budget

/-- `check`. -/
def check (parser : Parser) (type : TokenType) : Bool :=
  parser.current_token.type = type

/-- `expect`. -/
def expect (parser : Parser) (type : TokenType) (message : CStr) : Parse Parser :=
  if check parser type then parser.advance
  else
    Parse.parse_error
      (ParseError.expected parser.current_token.line message type parser.current_token.type)

/-- The lexeme of the current token (`parser->current_token->value`). -/
def Parser.lexeme (parser : Parser) : CStr :=
  parser.current_token.value.getD []

/-- `parse_primary`; `expression` is `parse_expression`, and `atof` the C function. -/
def parse_primary (atof : CStr → F) (expression : Parser → Parse (ASTNode F × Parser))
    (parser : Parser) : Parse (ASTNode F × Parser) :=
  if check parser TokenType.TOKEN_STRING then
    parser.advance.and_then (fun p => Parse.ok (ASTNode.string parser.lexeme, p))
  else if check parser TokenType.TOKEN_NUMBER then
    parser.advance.and_then (fun p => Parse.ok (ASTNode.number (atof parser.lexeme), p))
  else if check parser TokenType.TOKEN_IDENTIFIER then
    parser.advance.and_then (fun p => Parse.ok (ASTNode.identifier parser.lexeme, p))
  else if check parser TokenType.TOKEN_LPAREN then
    parser.advance.and_then (fun p1 =>
      (expression p1).and_then (fun r =>
        (expect r.2 TokenType.TOKEN_RPAREN "Expected ')' after expression".toList).and_then
          (fun p2 => Parse.ok (r.1, p2))))
  else Parse.parse_error (ParseError.expected_expression parser.current_token.line)

/-- The `while` loop that `parse_multiplicative`, `parse_additive`, `parse_comparison`,
`parse_equality`, `parse_and` and `parse_expression` share: while the current token is an
operator of the level, `op = value; advance; right = operand; left = binary_op(op, left,
right)`. At most `budget` tests of the loop condition. -/
def binary_loop (is_op : TokenType → Bool) (operand : Parser → Parse (ASTNode F × Parser)) :
    Nat → ASTNode F → Parser → Parse (ASTNode F × Parser)
  | 0, _, _ => Parse.out_of_budget
  | budget + 1, left, parser =>
    if is_op parser.current_token.type then
      parser.advance.and_then (fun p1 =>
        (operand p1).and_then (fun r =>
          binary_loop is_op operand budget (ASTNode.binary_op parser.lexeme left r.1) r.2))
    else Parse.ok (left, parser)

/-- The body the six functions share: `left = operand`, then the loop. -/
def binary_level (is_op : TokenType → Bool) (operand : Parser → Parse (ASTNode F × Parser))
    (budget : Nat) (parser : Parser) : Parse (ASTNode F × Parser) :=
  (operand parser).and_then (fun r => binary_loop is_op operand budget r.1 r.2)

/-- The loop condition of `parse_multiplicative`. -/
def is_multiplicative (type : TokenType) : Bool :=
  type = TokenType.TOKEN_STAR || type = TokenType.TOKEN_SLASH

/-- The loop condition of `parse_additive`. -/
def is_additive (type : TokenType) : Bool :=
  type = TokenType.TOKEN_PLUS || type = TokenType.TOKEN_MINUS

/-- The loop condition of `parse_comparison`. -/
def is_comparison (type : TokenType) : Bool :=
  type = TokenType.TOKEN_LT || type = TokenType.TOKEN_GT || type = TokenType.TOKEN_LTE ||
    type = TokenType.TOKEN_GTE

/-- The loop condition of `parse_equality`. -/
def is_equality (type : TokenType) : Bool :=
  type = TokenType.TOKEN_EQ || type = TokenType.TOKEN_NEQ

/-- The loop condition of `parse_and`. -/
def is_and (type : TokenType) : Bool :=
  type = TokenType.TOKEN_AND

/-- The loop condition of `parse_expression`. -/
def is_or (type : TokenType) : Bool :=
  type = TokenType.TOKEN_OR

/-- `parse_multiplicative`. -/
def parse_multiplicative (atof : CStr → F) (budget : Nat)
    (expression : Parser → Parse (ASTNode F × Parser)) : Parser → Parse (ASTNode F × Parser) :=
  binary_level is_multiplicative (parse_primary atof expression) budget

/-- `parse_additive`. -/
def parse_additive (atof : CStr → F) (budget : Nat)
    (expression : Parser → Parse (ASTNode F × Parser)) : Parser → Parse (ASTNode F × Parser) :=
  binary_level is_additive (parse_multiplicative atof budget expression) budget

/-- `parse_comparison`. -/
def parse_comparison (atof : CStr → F) (budget : Nat)
    (expression : Parser → Parse (ASTNode F × Parser)) : Parser → Parse (ASTNode F × Parser) :=
  binary_level is_comparison (parse_additive atof budget expression) budget

/-- `parse_equality`. -/
def parse_equality (atof : CStr → F) (budget : Nat)
    (expression : Parser → Parse (ASTNode F × Parser)) : Parser → Parse (ASTNode F × Parser) :=
  binary_level is_equality (parse_comparison atof budget expression) budget

/-- `parse_and`. -/
def parse_and (atof : CStr → F) (budget : Nat)
    (expression : Parser → Parse (ASTNode F × Parser)) : Parser → Parse (ASTNode F × Parser) :=
  binary_level is_and (parse_equality atof budget expression) budget

/-- `parse_expression`. The budget bounds the tests of each loop condition and the depth of
the parentheses: the expression between parentheses is parsed with one less. -/
def parse_expression (atof : CStr → F) : Nat → Parser → Parse (ASTNode F × Parser)
  | 0, _ => Parse.out_of_budget
  | budget + 1, parser =>
    binary_level is_or
      (parse_and atof (budget + 1) (fun p => parse_expression atof budget p)) (budget + 1) parser

/-- The `while` loop of `parse_block`: statements are added at the end of the block. -/
def block_loop (statement : Parser → Parse (ASTNode F × Parser)) :
    Nat → List (ASTNode F) → Parser → Parse (List (ASTNode F) × Parser)
  | 0, _, _ => Parse.out_of_budget
  | budget + 1, statements, parser =>
    if !check parser TokenType.TOKEN_RBRACE && !check parser TokenType.TOKEN_EOF then
      (statement parser).and_then (fun r => block_loop statement budget (statements ++ [r.1]) r.2)
    else Parse.ok (statements, parser)

/-- `parse_block`; `statement` is `parse_statement`. -/
def parse_block (statement : Parser → Parse (ASTNode F × Parser)) (budget : Nat)
    (parser : Parser) : Parse (ASTNode F × Parser) :=
  (expect parser TokenType.TOKEN_LBRACE "Expected '\x7b' to start block".toList).and_then
    (fun p1 =>
      (block_loop statement budget [] p1).and_then (fun r =>
        (expect r.2 TokenType.TOKEN_RBRACE "Expected '\x7d' to end block".toList).and_then
          (fun p2 => Parse.ok (ASTNode.block r.1, p2))))

/-- `parse_response`; `block` is `parse_block`. -/
def parse_response (atof : CStr → F) (budget : Nat)
    (block : Parser → Parse (ASTNode F × Parser)) (parser : Parser) :
    Parse (ASTNode F × Parser) :=
  (expect parser TokenType.TOKEN_RESPONSE "Expected 'response'".toList).and_then (fun p1 =>
    if check p1 TokenType.TOKEN_HTML then
      p1.advance.and_then (fun p2 =>
        (block p2).and_then (fun r => Parse.ok (ASTNode.response r.1 true, r.2)))
    else
      (parse_expression atof budget p1).and_then
        (fun r => Parse.ok (ASTNode.response r.1 false, r.2)))

/-- `parse_assignment`. -/
def parse_assignment (atof : CStr → F) (budget : Nat) (parser : Parser) :
    Parse (ASTNode F × Parser) :=
  parser.advance.and_then (fun p1 =>
    (expect p1 TokenType.TOKEN_EQUALS "Expected '=' in assignment".toList).and_then (fun p2 =>
      (parse_expression atof budget p2).and_then
        (fun r => Parse.ok (ASTNode.assignment parser.lexeme r.1, r.2))))

/-- `parse_statement`. The statements of an html block are parsed with one less of the
budget. -/
def parse_statement (atof : CStr → F) : Nat → Parser → Parse (ASTNode F × Parser)
  | 0, _ => Parse.out_of_budget
  | budget + 1, parser =>
    if check parser TokenType.TOKEN_RESPONSE then
      parse_response atof (budget + 1)
        (fun p => parse_block (fun q => parse_statement atof budget q) (budget + 1) p) parser
    else if check parser TokenType.TOKEN_IDENTIFIER then
      (peek_next parser).and_then (fun r =>
        if r.1.type = TokenType.TOKEN_EQUALS then parse_assignment atof (budget + 1) r.2
        else r.2.advance.and_then (fun p => Parse.ok (ASTNode.identifier r.2.lexeme, p)))
    else Parse.parse_error (ParseError.unexpected_token parser.current_token.line)

/-- `parse_route`. -/
def parse_route (atof : CStr → F) (budget : Nat) (parser : Parser) :
    Parse (ASTNode F × Parser) :=
  (expect parser TokenType.TOKEN_ROUTE "Expected 'route'".toList).and_then (fun p1 =>
    if !check p1 TokenType.TOKEN_STRING then
      Parse.parse_error (ParseError.expected_route_path p1.current_token.line)
    else
      p1.advance.and_then (fun p2 =>
        (parse_block (fun q => parse_statement atof budget q) budget p2).and_then
          (fun r => Parse.ok (ASTNode.route p1.lexeme r.1, r.2))))

/-- The `while` loop of `parse_program`: `ast_program_add_route` puts each route at the end
of the routes. -/
def program_loop (atof : CStr → F) (budget : Nat) :
    Nat → List (ASTNode F) → Parser → Parse (ASTNode F × Parser)
  | 0, _, _ => Parse.out_of_budget
  | tests + 1, routes, parser =>
    if !check parser TokenType.TOKEN_EOF then
      (parse_route atof budget parser).and_then
        (fun r => program_loop atof budget tests (routes ++ [r.1]) r.2)
    else Parse.ok (ASTNode.program routes, parser)

/-- `parse_program`. -/
def parse_program (atof : CStr → F) (budget : Nat) (parser : Parser) :
    Parse (ASTNode F × Parser) :=
  program_loop atof budget budget [] parser

/-- `parser_init`: `current_token` is NULL until the first `advance`. -/
def parser_init (lexer : Lexer) : Parse Parser :=
  match lexer_next_token lexer with
  | Scan.ok (token, l1) => Parse.ok { lexer := l1, current_token := token }
  | Scan.fatal error => Parse.scan_error error
  | Scan.out_of_steps => Parse.out_of_budget

/-- `parser_parse`. -/
def parser_parse (atof : CStr → F) (budget : Nat) (parser : Parser) :
    Parse (ASTNode F × Parser) :=
  parse_program atof budget parser

/-- `atof` on a run of decimal digits: the whole number it writes. -/
def atof_whole (text : CStr) : Int :=
  (text.takeWhile isdigit).foldl (fun acc c => acc * 10 + (c.toNat - '0'.toNat : Nat)) 0

/-- The whole parse of a source text: `lexer_init`, `parser_init`, `parser_parse`. -/
def parse_source (atof : CStr → F) (budget : Nat) (source : CStr) :
    Parse (ASTNode F × Parser) :=
  (parser_init (lexer_init source)).and_then (parser_parse atof budget)

/-! ## String utilities (`src/string_utils.cpp`) -/

/-- `std::string::find(delim)` from position 0: the index of the first occurrence of
`delim`, `none` for `npos`. The empty string occurs at index 0 of every string. -/
def string_find : CStr → CStr → Option Nat
  | [], delim => if delim = [] then some 0 else none
  | c :: cs, delim =>
    if (c :: cs).take delim.length = delim then some 0
    else (string_find cs delim).map (fun pos => pos + 1)

/-- The `while` loop of `string_split` and the `push_back` after it:
`while ((pos = s.find(delim)) != npos) { tokens.push_back(s.substr(0, pos));
s.erase(0, pos + delim.length()); }`. `none` when the loop is still running after `budget`
tests of its condition. -/
def split_loop (delim : CStr) : Nat → CStr → List CStr → Option (List CStr)
  | 0, _, _ => none
  | budget + 1, s, tokens =>
    match string_find s delim with
    | some pos => split_loop delim budget (s.drop (pos + delim.length)) (tokens ++ [s.take pos])
    | none => some (tokens ++ [s])

/-- `string_split`: the strings copied to the result array, `*out_count` being their
number. -/
def string_split (str delimiter : CStr) (budget : Nat) : Option (List CStr) :=
  split_loop delimiter budget str []

/-! ## Vocabulary of the statements -/

/-- The pieces of a text between its `/` characters. -/
def split_slash : CStr → List CStr
  | [] => [[]]
  | c :: cs =>
    if c = '/' then [] :: split_slash cs
    else
      match split_slash cs with
      | [] => [[c]]
      | piece :: pieces => (c :: piece) :: pieces

/-- The non-empty `/`-separated segments of a path, in the words of the spec (§4.4):
split at every `/` and drop the empty pieces. -/
def segments (s : CStr) : List CStr :=
  (split_slash s).filter (fun piece => piece ≠ [])

/-- A pattern segment is a parameter when its first byte is `:`. -/
def is_param (segment : CStr) : Bool :=
  segment.head? = some ':'

/-- The (name, value) pairs of the parameter segments among paired
(pattern segment, request segment), left to right. -/
def params_of (pairs : List (CStr × CStr)) : List (CStr × CStr) :=
  pairs.filterMap (fun pq => if is_param pq.1 then some (pq.1.drop 1, pq.2) else none)

/-- A declared pattern matches a request path for `find_matching_route`: the two are the
same string, or `route_matches` succeeds. -/
def pattern_matches (pattern path : CStr) : Bool :=
  decide (pattern = path) || (route_matches pattern path).1

/-- The Program node whose routes are the given (pattern, body) pairs, in order. -/
def program_of (routes : List (CStr × ASTNode F)) : ASTNode F :=
  ASTNode.program (routes.map (fun r => ASTNode.route r.1 r.2))

/-- What one statement of an html block contributes to the text of the block, in the words
of the spec (§4.3): the stringified value of the variable when the statement is an
Identifier naming a bound variable, nothing otherwise. -/
def identifier_text (ops : DoubleOps F) (interp : Interpreter F) : ASTNode F → CStr
  | .identifier name =>
    match get_variable interp name with
    | some value => value_to_string ops value
    | none => []
  | _ => []

/-- The text `needle` occurs in `hay`: `hay` is some text, `needle`, some text. -/
def occurs_in (needle hay : CStr) : Prop :=
  ∃ before after, hay = before ++ needle ++ after

/-- The marker line of an html response. -/
def html_marker : CStr :=
  "Content-Type: text/html".toList

/-- The marker line of a plain response. -/
def plain_marker : CStr :=
  "Content-Type: text/plain".toList

/-- The path of the request line a connection delivers: what `handle_client` reads from
`request->path` (`none` when nothing is received or the text has no line). -/
def request_path (conn : Connection) : Option CStr :=
  (http_request_parse ((conn.received.take 4095).takeWhile (fun c => c ≠ '\x00'))).path

mutual
/-- A statement writes a response: it is a Response node, or a Block with such a statement. -/
def has_response : ASTNode F → Bool
  | .response _ _ => true
  | .block statements => any_has_response statements
  | _ => false
/-- Some statement of the list writes a response. -/
def any_has_response : List (ASTNode F) → Bool
  | [] => false
  | stmt :: rest => has_response stmt || any_has_response rest
end

/-- The reason phrase of a status code, in the words of the spec (§4.5). -/
def status_reason (code : Int) : CStr :=
  if code = 200 then "OK".toList
  else if code = 404 then "Not Found".toList
  else if code = 500 then "Internal Server Error".toList
  else "Unknown".toList

/-- The status line and headers of a serialized response, in the words of the spec (§3):
everything before the body. -/
def framed_head (code : Int) (content_type body : CStr) : CStr :=
  "HTTP/1.1 ".toList ++ fmt_d code ++ " ".toList ++ status_reason code
    ++ "\r\nContent-Type: ".toList ++ content_type
    ++ "\r\nContent-Length: ".toList ++ fmt_zu body.length
    ++ "\r\nConnection: close\r\n\r\n".toList

/-- A token of a request line: not empty and without white space. -/
def is_token (w : CStr) : Prop :=
  w ≠ [] ∧ ∀ c ∈ w, isspace c = false

/-- What may follow the first line of a request: nothing, or a CR or LF and more text. -/
def ends_line (tail : CStr) : Prop :=
  tail = [] ∨ ∃ rest, tail = '\r' :: rest ∨ tail = '\n' :: rest

/-- The request `GET / HTTP/1.1` that `http_request_parse` substitutes. -/
def default_request : HTTPRequest :=
  { method := some "GET".toList, path := some "/".toList, version := some "HTTP/1.1".toList,
    headers := some [], body := some [] }

/-- Calling `lexer_next_token` repeatedly, at most `calls` times, until it returns EOF: the
tokens returned, EOF included. -/
def scan_all : Nat → Lexer → Scan (List Token)
  | 0, _ => Scan.out_of_steps
  | calls + 1, lexer =>
    (lexer_next_token lexer).and_then (fun r =>
      if r.1.type = TokenType.TOKEN_EOF then Scan.ok [r.1]
      else (scan_all calls r.2).and_then (fun tokens => Scan.ok (r.1 :: tokens)))

/-- The token stream of a source text: `lexer_next_token` called on a fresh lexer until
EOF, with a budget of one call per byte and one for EOF. -/
def tokenize (source : CStr) : Scan (List Token) :=
  scan_all (source.length + 1) (lexer_init source)

/-- A lexer whose cursor is inside the source or at its end and whose `current_char` is
the byte under the cursor (NUL at the end): the states `lexer_init` and `advance` produce. -/
def well_formed (lexer : Lexer) : Prop :=
  lexer.position ≤ lexer.source.length ∧
    lexer.current_char = lexer.source.getD lexer.position '\x00'

/-- The text from the cursor to the end of the source. -/
def unread (lexer : Lexer) : CStr :=
  lexer.source.drop lexer.position

/-- The kind of a fatal scanner error, without the line it reports. -/
inductive ErrorKind where
  | string_too_long
  | unterminated_string
  | number_too_long
  | identifier_too_long
deriving DecidableEq

/-- The kind of a scanner error. -/
def ScanError.kind : ScanError → ErrorKind
  | .string_too_long _ => ErrorKind.string_too_long
  | .unterminated_string _ => ErrorKind.unterminated_string
  | .number_too_long _ => ErrorKind.number_too_long
  | .identifier_too_long _ => ErrorKind.identifier_too_long

/-- White space and `//` comments are skipped, in the words of the spec (§4.1): the text
that is left when the white space and the comments at the head of a text are dropped. A
comment runs from `//` to the end of the line; `in_comment` says that the text starts
inside one. -/
def skip_blanks : Bool → CStr → CStr
  | _, [] => []
  | true, c :: cs => if c = '\n' then skip_blanks false cs else skip_blanks true cs
  | false, c :: cs =>
    if isspace c then skip_blanks false cs
    else if c = '/' ∧ cs.head? = some '/' then skip_blanks true cs
    else c :: cs

/-- The two-character operators, in the words of the spec (§4.1). -/
def two_char_type (c d : Char) : Option TokenType :=
  if c = '=' ∧ d = '=' then some TokenType.TOKEN_EQ
  else if c = '!' ∧ d = '=' then some TokenType.TOKEN_NEQ
  else if c = '<' ∧ d = '=' then some TokenType.TOKEN_LTE
  else if c = '>' ∧ d = '=' then some TokenType.TOKEN_GTE
  else if c = '&' ∧ d = '&' then some TokenType.TOKEN_AND
  else if c = '|' ∧ d = '|' then some TokenType.TOKEN_OR
  else none

/-- What the scanner makes of a text: the end of the input, one token (tag and lexeme) and
the text after it, or a fatal error. -/
inductive Lexed where
  | eof
  | token (type : TokenType) (value : Option CStr) (rest : CStr)
  | fatal (kind : ErrorKind)
deriving DecidableEq

/-- The token that starts at the first byte of a text that starts with neither white
space nor a comment, in the words of the spec (§4.1): a string literal up to the next
double quote, a maximal run of digits and dots, a maximal run of letters, digits and
underscores, a two-character operator, or a single character. -/
def lex_token : CStr → Lexed
  | [] => Lexed.eof
  | c :: cs =>
    if c = '"' then
      if 1023 < (cs.takeWhile (fun x => x ≠ '"')).length then
        Lexed.fatal ErrorKind.string_too_long
      else
        match cs.dropWhile (fun x => x ≠ '"') with
        | [] => Lexed.fatal ErrorKind.unterminated_string
        | _ :: rest => Lexed.token TokenType.TOKEN_STRING (some (cs.takeWhile (fun x => x ≠ '"'))) rest
    else if isdigit c then
      if 255 < ((c :: cs).takeWhile (fun x => isdigit x || x = '.')).length then
        Lexed.fatal ErrorKind.number_too_long
      else
        Lexed.token TokenType.TOKEN_NUMBER
          (some ((c :: cs).takeWhile (fun x => isdigit x || x = '.')))
          ((c :: cs).dropWhile (fun x => isdigit x || x = '.'))
    else if isalpha c || c = '_' then
      if 255 < ((c :: cs).takeWhile (fun x => isalnum x || x = '_')).length then
        Lexed.fatal ErrorKind.identifier_too_long
      else
        Lexed.token (keyword_type ((c :: cs).takeWhile (fun x => isalnum x || x = '_')))
          (some ((c :: cs).takeWhile (fun x => isalnum x || x = '_')))
          ((c :: cs).dropWhile (fun x => isalnum x || x = '_'))
    else
      match cs with
      | [] => Lexed.token (single_char_type c).1 (single_char_type c).2 []
      | d :: ds =>
        match two_char_type c d with
        | some type => Lexed.token type (some [c, d]) ds
        | none => Lexed.token (single_char_type c).1 (single_char_type c).2 (d :: ds)

/-- The next token of a text, in the words of the spec (§4.1): white space and comments
are skipped, then one token is read. -/
def lex_step (text : CStr) : Lexed :=
  lex_token (skip_blanks false text)

/-- What a scan of a whole text gives, positions left out: the tags and lexemes of the
tokens up to and including EOF, or the kind of the fatal error that ends the scan. -/
inductive Lexemes where
  | tokens (list : List (TokenType × Option CStr))
  | fatal (kind : ErrorKind)
  | out_of_steps
deriving DecidableEq

/-- The tags and lexemes of a token stream. -/
def lexemes_of : Scan (List Token) → Lexemes
  | Scan.ok tokens => Lexemes.tokens (tokens.map (fun t => (t.type, t.value)))
  | Scan.fatal error => Lexemes.fatal error.kind
  | Scan.out_of_steps => Lexemes.out_of_steps

/-- One more token in front of the tokens of the rest of the text. -/
def Lexemes.push (head : TokenType × Option CStr) : Lexemes → Lexemes
  | Lexemes.tokens list => Lexemes.tokens (head :: list)
  | Lexemes.fatal kind => Lexemes.fatal kind
  | Lexemes.out_of_steps => Lexemes.out_of_steps

/-- The tags and lexemes of the tokens of a text, `lex_step` applied at most `calls` times
until the end of the input. -/
def lex_all : Nat → CStr → Lexemes
  | 0, _ => Lexemes.out_of_steps
  | calls + 1, text =>
    match lex_step text with
    | Lexed.eof => Lexemes.tokens [(TokenType.TOKEN_EOF, none)]
    | Lexed.fatal kind => Lexemes.fatal kind
    | Lexed.token type value rest => (lex_all calls rest).push (type, value)

/-- The tags and lexemes of the tokens of a text, in the words of the spec (§4.1): one
application of `lex_step` for every byte and one for EOF are enough. -/
def lexemes (text : CStr) : Lexemes :=
  lex_all (text.length + 1) text

/-- A result of `lexer_next_token` on a lexer over `source` agrees with what the spec
makes of the unread text: the same tag and lexeme and the same text left unread, or a
fatal error of the same kind. -/
def agrees (source : CStr) : Scan (Token × Lexer) → Lexed → Prop
  | Scan.ok r, Lexed.eof =>
    r.1.type = TokenType.TOKEN_EOF ∧ r.1.value = none ∧ well_formed r.2 ∧
      r.2.source = source ∧ unread r.2 = []
  | Scan.ok r, Lexed.token type value rest =>
    r.1.type = type ∧ r.1.value = value ∧ well_formed r.2 ∧
      r.2.source = source ∧ unread r.2 = rest
  | Scan.fatal error, Lexed.fatal kind => error.kind = kind
  | _, _ => False

/-- The keywords and their tags, in the words of the spec (§4.1). -/
def keywords : List (CStr × TokenType) :=
  [("route".toList, TokenType.TOKEN_ROUTE), ("response".toList, TokenType.TOKEN_RESPONSE),
   ("html".toList, TokenType.TOKEN_HTML), ("if".toList, TokenType.TOKEN_IF),
   ("else".toList, TokenType.TOKEN_ELSE), ("while".toList, TokenType.TOKEN_WHILE),
   ("for".toList, TokenType.TOKEN_FOR), ("function".toList, TokenType.TOKEN_FUNCTION),
   ("return".toList, TokenType.TOKEN_RETURN)]

/-- A byte of a word: a letter, a digit or an underscore. -/
def is_word_char (c : Char) : Bool :=
  isalnum c || c = '_'

/-- A C string holds no NUL byte. -/
def is_c_string (s : CStr) : Prop :=
  ∀ x ∈ s, x ≠ '\x00'

/-- The operator levels of the grammar, in the words of the spec (§4.2), from the tightest
to the loosest: the parser of the level, the test for its operators and the parser of its
operands. The levels run on a budget of `budget + 1`, the expression between parentheses
on `budget`. -/
def grammar_levels (atof : CStr → F) (budget : Nat) :
    List ((Parser → Parse (ASTNode F × Parser)) × (TokenType → Bool) ×
      (Parser → Parse (ASTNode F × Parser))) :=
  [(parse_multiplicative atof (budget + 1) (fun p => parse_expression atof budget p),
      is_multiplicative, parse_primary atof (fun p => parse_expression atof budget p)),
   (parse_additive atof (budget + 1) (fun p => parse_expression atof budget p),
      is_additive,
      parse_multiplicative atof (budget + 1) (fun p => parse_expression atof budget p)),
   (parse_comparison atof (budget + 1) (fun p => parse_expression atof budget p),
      is_comparison,
      parse_additive atof (budget + 1) (fun p => parse_expression atof budget p)),
   (parse_equality atof (budget + 1) (fun p => parse_expression atof budget p),
      is_equality,
      parse_comparison atof (budget + 1) (fun p => parse_expression atof budget p)),
   (parse_and atof (budget + 1) (fun p => parse_expression atof budget p),
      is_and,
      parse_equality atof (budget + 1) (fun p => parse_expression atof budget p)),
   (parse_expression atof (budget + 1),
      is_or,
      parse_and atof (budget + 1) (fun p => parse_expression atof budget p))]

/-- How loosely an operator binds, in the words of the spec (§4.2): 1 for `*` and `/`,
2 for `+` and `-`, 3 for `<`, `>`, `<=` and `>=`, 4 for `==` and `!=`, 5 for `&&`, 6 for
`||`; 0 for a token that is not a binary operator. -/
def binding_level : TokenType → Nat
  | .TOKEN_STAR => 1
  | .TOKEN_SLASH => 1
  | .TOKEN_PLUS => 2
  | .TOKEN_MINUS => 2
  | .TOKEN_LT => 3
  | .TOKEN_GT => 3
  | .TOKEN_LTE => 3
  | .TOKEN_GTE => 3
  | .TOKEN_EQ => 4
  | .TOKEN_NEQ => 4
  | .TOKEN_AND => 5
  | .TOKEN_OR => 6
  | _ => 0

/-- A token that is an operand by itself: a string, a number or an identifier. -/
def is_atom (type : TokenType) : Bool :=
  type = TokenType.TOKEN_STRING || type = TokenType.TOKEN_NUMBER ||
    type = TokenType.TOKEN_IDENTIFIER

/-- The node of an operand token. -/
def atom_node (atof : CStr → F) (token : Token) : ASTNode F :=
  if token.type = TokenType.TOKEN_STRING then ASTNode.string (token.value.getD [])
  else if token.type = TokenType.TOKEN_NUMBER then ASTNode.number (atof (token.value.getD []))
  else ASTNode.identifier (token.value.getD [])

/-- The loop condition of the level that binds as loosely as `level` says. -/
def level_ops : Nat → TokenType → Bool
  | 1 => is_multiplicative
  | 2 => is_additive
  | 3 => is_comparison
  | 4 => is_equality
  | 5 => is_and
  | 6 => is_or
  | _ => fun _ => false

/-- The parsers of the levels by number: `parse_primary` is 0, `parse_multiplicative` 1, up
to `parse_expression`, which is 6. -/
def level_parse (atof : CStr → F) (budget : Nat)
    (expression : Parser → Parse (ASTNode F × Parser)) : Nat → Parser → Parse (ASTNode F × Parser)
  | 0 => parse_primary atof expression
  | level + 1 => binary_level (level_ops (level + 1)) (level_parse atof budget expression level)
      budget

/-- A source of route declarations, seen from the parser at its start: `steps` lists, for
each declaration in order, the Route node and the parser state that `parse_route` returns
for it, each declaration starts where the one before ended, and after the last one the
current token is EOF. -/
def parses_routes (atof : CStr → F) (budget : Nat) :
    Parser → List (ASTNode F × Parser) → Prop
  | parser, [] => parser.current_token.type = TokenType.TOKEN_EOF
  | parser, step :: rest =>
    parser.current_token.type ≠ TokenType.TOKEN_EOF ∧
      parse_route atof budget parser = Parse.ok step ∧ parses_routes atof budget step.2 rest

/-- The parser states at which the declarations of `steps` start. -/
def declaration_starts (parser : Parser) (steps : List (ASTNode F × Parser)) : List Parser :=
  (parser :: steps.map (fun step => step.2)).take steps.length

/-- The string literal of the declaration that starts at `parser`: the lexeme of the STRING
token that follows the keyword `route`. -/
def declared_path (parser : Parser) : Option CStr :=
  if parser.current_token.type = TokenType.TOKEN_ROUTE then
    match parser.advance with
    | Parse.ok p1 =>
      if p1.current_token.type = TokenType.TOKEN_STRING then some p1.lexeme else none
    | _ => none
  else none

/-- The path of a Route node. -/
def route_path : ASTNode F → Option CStr
  | .route path _ => some path
  | _ => none

/-- The number of successive non-overlapping occurrences of `delim` in a text, counted
from the left, looking at most `budget` times. -/
def count_occurrences (delim : CStr) : Nat → CStr → Nat
  | 0, _ => 0
  | budget + 1, s =>
    match string_find s delim with
    | some pos => count_occurrences delim budget (s.drop (pos + delim.length)) + 1
    | none => 0

/-- The number a run of decimal digits writes. -/
def digits_value (ds : CStr) : Nat :=
  ds.foldl (fun acc c => acc * 10 + (c.toNat - '0'.toNat)) 0

/-- A text is a run of one or more decimal digits. -/
def is_digits (ds : CStr) : Bool :=
  !ds.isEmpty && ds.all isdigit

/-- The rational number a decimal stands for. -/
def Decimal.value (x : Decimal) : ℚ :=
  x.mant * (10 : ℚ) ^ x.exp

/-- A decimal representation read: the sign, the digits before and after the point, and the
exponent (0 when there is no exponent part). -/
structure Reading where
  negative : Bool
  whole : CStr
  frac : CStr
  expo : Int
deriving DecidableEq

/-- The exponent part of a decimal representation: nothing (the exponent is 0), or `e` or
`E` with an optional sign and one or more digits. `none` for any other text. -/
def read_exponent (t : CStr) : Option Int :=
  if t = [] then some 0
  else if t.head? = some 'e' ∨ t.head? = some 'E' then
    let signed : Bool := (t.drop 1).head? = some '-' || (t.drop 1).head? = some '+'
    let digits := if signed then t.drop 2 else t.drop 1
    if is_digits digits then
      some (if (t.drop 1).head? = some '-' then -(digits_value digits : Int)
            else digits_value digits)
    else none
  else none

/-- A decimal representation without its sign: digits, an optional point followed by
digits, with at least one digit in all, and an optional exponent part. -/
def read_unsigned (negative : Bool) (t : CStr) : Option Reading :=
  let whole := t.takeWhile isdigit
  let t2 := t.dropWhile isdigit
  let frac := if t2.head? = some '.' then (t2.drop 1).takeWhile isdigit else []
  let t3 := if t2.head? = some '.' then (t2.drop 1).dropWhile isdigit else t2
  if whole ++ frac = [] then none
  else (read_exponent t3).map
    (fun e => { negative := negative, whole := whole, frac := frac, expo := e })

/-- Reading a text that is wholly a decimal representation, as `strtod` and `stod` do: an
optional sign, digits, an optional point followed by digits, with at least one digit in
all, and an optional exponent part. `none` for any other text. -/
def read_decimal (text : CStr) : Option Reading :=
  if text.head? = some '-' then read_unsigned true (text.drop 1)
  else if text.head? = some '+' then read_unsigned false (text.drop 1)
  else read_unsigned false text

/-- The number a decimal representation converts to: its digits taken as a whole number,
scaled by the exponent and the number of digits after the point. -/
def Reading.number (r : Reading) : Decimal :=
  { mant := if r.negative then -(digits_value (r.whole ++ r.frac) : Int)
            else digits_value (r.whole ++ r.frac),
    exp := r.expo - r.frac.length }

/-- A path of 33 segments, 66 bytes: `/a` repeated. -/
def path_of_33_segments : CStr :=
  (List.replicate 33 "/a".toList).flatten

/-- A path of 34 segments, 68 bytes: `/a` repeated. -/
def path_of_34_segments : CStr :=
  (List.replicate 34 "/a".toList).flatten

/-- The body `{ response "id=" + id }`. -/
def user_body : ASTNode Int :=
  ASTNode.block [ASTNode.response
    (ASTNode.binary_op "+".toList (ASTNode.string "id=".toList) (ASTNode.identifier "id".toList))
    false]

/-- The script `route "/user/:id" { response "id=" + id }` (scenario 3 of the spec). -/
def user_program : ASTNode Int :=
  program_of [("/user/:id".toList, user_body)]

/-- The script `route "/set" { x = 1  response x }  route "/get" { response x }`
(scenario 6 of the spec). -/
def set_get_program : ASTNode Int :=
  program_of
    [("/set".toList,
      ASTNode.block [ASTNode.assignment "x".toList (ASTNode.number 1),
        ASTNode.response (ASTNode.identifier "x".toList) false]),
     ("/get".toList, ASTNode.block [ASTNode.response (ASTNode.identifier "x".toList) false])]

/-- Four connections to a server running `set_get_program`: `/set`, `/set` with no memory
stream, an undeclared path, `/get`. -/
def set_get_connections : List Connection :=
  [{ received := "GET /set HTTP/1.1\r\n\r\n".toList, mem_stream_ok := true },
   { received := "GET /set HTTP/1.1\r\n\r\n".toList, mem_stream_ok := false },
   { received := "GET /nowhere HTTP/1.1\r\n\r\n".toList, mem_stream_ok := true },
   { received := "GET /get HTTP/1.1\r\n\r\n".toList, mem_stream_ok := true }]

/-- The body `{ x = 1 < 2  response x }`. -/
def bool_body : ASTNode Int :=
  ASTNode.block
    [ASTNode.assignment "x".toList
      (ASTNode.binary_op "<".toList (ASTNode.number 1) (ASTNode.number 2)),
     ASTNode.response (ASTNode.identifier "x".toList) false]

/-- The script `route "/hello" { response "Hello, World!" }` (scenario 1 of the spec). -/
def hello_program : ASTNode Int :=
  program_of [("/hello".toList,
    ASTNode.block [ASTNode.response (ASTNode.string "Hello, World!".toList) false])]

/-- The script `route "/hello" { response "Content-Type: text/html" }`. -/
def marker_program : ASTNode Int :=
  program_of [("/hello".toList,
    ASTNode.block [ASTNode.response (ASTNode.string "Content-Type: text/html".toList) false])]

/-- The script `route "/a" { y = x }` (scenario 5 of the spec). -/
def undefined_program : ASTNode Int :=
  program_of [("/a".toList,
    ASTNode.block [ASTNode.assignment "y".toList (ASTNode.identifier "x".toList)])]

/-- A connection that delivers `GET <path> HTTP/1.1` and an empty header block, with the
memory stream available. -/
def get_request (path : CStr) : Connection :=
  { received := "GET ".toList ++ path ++ " HTTP/1.1\r\n\r\n".toList, mem_stream_ok := true }

/-- A request path of 220 bytes: `/` and 219 times `a`. -/
def path_of_220_bytes : CStr :=
  '/' :: List.replicate 219 'a'

/-- The parser on line 1 of `source` whose lexer is at byte `position` and whose current
token has the given tag and lexeme and starts at column `column`. -/
def parser_at (source : CStr) (position : Nat) (type : TokenType) (value : Option CStr)
    (column : Nat) : Parser :=
  { lexer :=
      { source := source, position := position, line := 1, column := position,
        current_char := source.getD position '\x00' },
    current_token := token_create type value 1 column }

/-- A source of two route declarations. -/
def two_routes : CStr :=
  "route \"/a\" \x7b response \"x\" \x7d route \"/b\" \x7b response html \x7b y \x7d \x7d".toList

/-- The Route nodes of `two_routes` and the parser states after each declaration. -/
def two_routes_steps : List (ASTNode Int × Parser) :=
  [(ASTNode.route "/a".toList
      (ASTNode.block [ASTNode.response (ASTNode.string "x".toList) false]),
    parser_at two_routes 33 TokenType.TOKEN_ROUTE (some "route".toList) 28),
   (ASTNode.route "/b".toList
      (ASTNode.block [ASTNode.response (ASTNode.block [ASTNode.identifier "y".toList]) true]),
    parser_at two_routes 62 TokenType.TOKEN_EOF none 62)]

/-- A pattern of nine parameter segments. -/
def pattern_of_9_params : CStr :=
  "/:a/:b/:c/:d/:e/:f/:g/:h/:i".toList

/-- A request path of nine segments. -/
def path_of_9_segments : CStr :=
  "/1/2/3/4/5/6/7/8/9".toList

/-! ## Theorems -/

/-! ### Segments and the `strtok` loop -/

theorem split_slash_eq (s : CStr) :
    split_slash s = s.takeWhile (fun d => !decide (d ∈ ['/'])) ::
      (match s.dropWhile (fun d => !decide (d ∈ ['/'])) with
       | [] => []
       | _ :: rest => split_slash rest) := by
  induction s with
  | nil => simp [split_slash]
  | cons c cs ih =>
    by_cases hc : c = '/'
    · subst hc
      simp [split_slash]
    · rw [split_slash, if_neg hc, ih]
      simp [hc]

theorem segments_slash (cs : CStr) : segments ('/' :: cs) = segments cs := by
  simp [segments, split_slash]

theorem segments_dropWhile (s : CStr) :
    segments (s.dropWhile (fun c => decide (c ∈ ['/']))) = segments s := by
  induction s with
  | nil => rfl
  | cons c cs ih =>
    by_cases hc : c = '/'
    · subst hc
      simp only [List.mem_singleton, decide_True, List.dropWhile_cons_of_pos, segments_slash]
      simpa using ih
    · simp [hc]

theorem segments_cons_of_ne (c : Char) (cs : CStr) (hc : c ≠ '/') :
    segments (c :: cs) = (c :: cs).takeWhile (fun d => !decide (d ∈ ['/'])) ::
      segments (((c :: cs).dropWhile (fun d => !decide (d ∈ ['/']))).drop 1) := by
  rw [segments, split_slash_eq]
  have h1 : (c :: cs).takeWhile (fun d => !decide (d ∈ ['/'])) ≠ [] := by simp [hc]
  rw [List.filter_cons_of_pos (by simpa using h1)]
  congr 1
  cases h : (c :: cs).dropWhile (fun d => !decide (d ∈ ['/'])) with
  | nil => simp [segments, split_slash]
  | cons d ds => simp [segments]

theorem dropWhile_head_false {α : Type} (p : α → Bool) (s : List α) (c : α) (cs : List α)
    (h : s.dropWhile p = c :: cs) : p c = false := by
  induction s with
  | nil => simp at h
  | cons d ds ih =>
    by_cases hd : p d = true
    · rw [List.dropWhile_cons_of_pos hd] at h
      exact ih h
    · rw [List.dropWhile_cons_of_neg hd] at h
      obtain ⟨rfl, _⟩ := List.cons.inj h
      simpa using hd

theorem split_parts_eq (n : Nat) (s : CStr) :
    split_parts ['/'] n s = (segments s).take n := by
  induction n generalizing s with
  | zero => simp [split_parts]
  | succ n ih =>
    rw [split_parts, strtok, ← segments_dropWhile s]
    cases h : s.dropWhile (fun c => decide (c ∈ ['/'])) with
    | nil => simp [segments, split_slash]
    | cons c cs =>
      have hc : c ≠ '/' := by
        have := dropWhile_head_false _ s c cs h
        simpa using this
      simp only []
      rw [segments_cons_of_ne c cs hc, ih]
      simp

theorem mem_split_slash_length (s t : CStr) (h : t ∈ split_slash s) : t.length ≤ s.length := by
  induction s generalizing t with
  | nil => simp [split_slash] at h; simp [h]
  | cons c cs ih =>
    by_cases hc : c = '/'
    · rw [split_slash, if_pos hc] at h
      rcases List.mem_cons.mp h with rfl | h
      · simp
      · exact Nat.le_succ_of_le (ih t h)
    · rw [split_slash, if_neg hc] at h
      cases hs : split_slash cs with
      | nil =>
        rw [hs] at h
        simp at h
        simp [h]
      | cons piece pieces =>
        rw [hs] at h
        rcases List.mem_cons.mp h with rfl | h
        · have := ih piece (by simp [hs])
          simpa using this
        · exact Nat.le_succ_of_le (ih t (by simp [hs, h]))

theorem mem_segments_length (s t : CStr) (h : t ∈ segments s) : t.length ≤ s.length :=
  mem_split_slash_length s t (List.mem_filter.mp h).1

theorem match_parts_fst (pairs acc : List (CStr × CStr)) :
    (match_parts pairs acc).1 = decide (∀ pq ∈ pairs, is_param pq.1 = false → pq.1 = pq.2) := by
  induction pairs generalizing acc with
  | nil => simp [match_parts]
  | cons pq rest ih =>
    obtain ⟨p, q⟩ := pq
    by_cases hpar : p.head? = some ':'
    · rw [match_parts, if_pos hpar, ih]
      simp [is_param, hpar]
    · rw [match_parts, if_neg hpar]
      by_cases hpq : p = q
      · rw [if_pos hpq, ih]
        simp [is_param, hpar, hpq]
      · rw [if_neg hpq]
        simp [is_param, hpar, hpq]

theorem match_parts_snd (pairs acc : List (CStr × CStr))
    (hlen : ∀ pq ∈ pairs, pq.1.length ≤ 255 ∧ pq.2.length ≤ 255)
    (hok : ∀ pq ∈ pairs, is_param pq.1 = false → pq.1 = pq.2) :
    (match_parts pairs acc).2 = acc ++ params_of pairs := by
  induction pairs generalizing acc with
  | nil => simp [match_parts, params_of]
  | cons pq rest ih =>
    obtain ⟨p, q⟩ := pq
    have hrest : ∀ pq ∈ rest, pq.1.length ≤ 255 ∧ pq.2.length ≤ 255 :=
      fun pq h => hlen pq (List.mem_cons_of_mem _ h)
    have hok1 : ∀ pq ∈ rest, is_param pq.1 = false → pq.1 = pq.2 :=
      fun pq h => hok pq (List.mem_cons_of_mem _ h)
    have hp : p.length ≤ 255 := (hlen (p, q) (List.mem_cons_self _ _)).1
    have hq : q.length ≤ 255 := (hlen (p, q) (List.mem_cons_self _ _)).2
    by_cases hpar : p.head? = some ':'
    · have h1 : strncpy (p.drop 1) 255 = p.drop 1 := by
        simp only [strncpy]
        exact List.take_of_length_le (by simp; omega)
      have h2 : strncpy q 255 = q := List.take_of_length_le hq
      rw [match_parts, if_pos hpar, h1, h2, ih _ hrest hok1]
      simp [is_param, hpar, params_of]
    · have hpq : p = q := hok (p, q) (List.mem_cons_self _ _) (by simp [is_param, hpar])
      rw [match_parts, if_neg hpar, if_pos hpq, ih _ hrest hok1]
      simp [is_param, hpar, params_of]

theorem forall_mem_zip_iff {α β : Type} (l1 : List α) (l2 : List β) (P : α → β → Prop) :
    (∀ pq ∈ l1.zip l2, P pq.1 pq.2) ↔
      ∀ (i : Nat) (p : α) (q : β), l1[i]? = some p → l2[i]? = some q → P p q := by
  constructor
  · intro h i p q hp hq
    have : (p, q) ∈ l1.zip l2 :=
      List.mem_iff_getElem?.mpr ⟨i, List.getElem?_zip_eq_some.mpr ⟨hp, hq⟩⟩
    exact h (p, q) this
  · intro h pq hmem
    obtain ⟨i, hi⟩ := List.mem_iff_getElem?.mp hmem
    obtain ⟨hp, hq⟩ := List.getElem?_zip_eq_some.mp hi
    exact h i pq.1 pq.2 hp hq

theorem route_matches_eq (pattern path : CStr) (hp : pattern.length < 255)
    (hq : path.length < 255) :
    route_matches pattern path =
      if ((segments pattern).take 32).length ≠ ((segments path).take 32).length then (false, [])
      else match_parts (((segments pattern).take 32).zip ((segments path).take 32)) [] := by
  have h1 : strncpy pattern 255 = pattern := List.take_of_length_le (Nat.le_of_lt hp)
  have h2 : strncpy path 255 = path := List.take_of_length_le (Nat.le_of_lt hq)
  simp only [route_matches, h1, h2, split_parts_eq]

theorem zip_segments_length (pattern path : CStr) (hp : pattern.length < 255)
    (hq : path.length < 255) :
    ∀ pq ∈ (segments pattern).zip (segments path), pq.1.length ≤ 255 ∧ pq.2.length ≤ 255 := by
  intro pq hmem
  obtain ⟨h1, h2⟩ := List.of_mem_zip hmem
  have := mem_segments_length _ _ h1
  have := mem_segments_length _ _ h2
  omega

theorem route_matches_bounded (pattern path : CStr)
    (hp : pattern.length < 255) (hq : path.length < 255)
    (hps : (segments pattern).length ≤ 32) (hqs : (segments path).length ≤ 32) :
    ((route_matches pattern path).1 = true ↔
      (segments pattern).length = (segments path).length ∧
        ∀ (i : Nat) (p q : CStr), (segments pattern)[i]? = some p → (segments path)[i]? = some q →
          is_param p = false → p = q) ∧
    ((route_matches pattern path).1 = true →
      (route_matches pattern path).2 = params_of ((segments pattern).zip (segments path))) := by
  rw [route_matches_eq pattern path hp hq, List.take_of_length_le hps, List.take_of_length_le hqs]
  by_cases hlen : (segments pattern).length = (segments path).length
  · rw [if_neg (by simpa using hlen)]
    rw [match_parts_fst, ← forall_mem_zip_iff (segments pattern) (segments path)
      (fun p q => is_param p = false → p = q)]
    refine ⟨by simp [hlen], fun h => ?_⟩
    rw [match_parts_snd _ _ (zip_segments_length pattern path hp hq) (by simpa using h)]
    simp
  · rw [if_pos (by simpa using hlen)]
    simp [hlen]

/-- C5. Within the documented bounds (pattern and path shorter than 255 bytes, at most 32
segments each, at most 8 parameter segments) `route_matches` succeeds exactly when both
have the same number of segments and every pattern segment that does not start with `:`
equals the request segment at its position; on success the recorded pairs are, left to
right, one (segment without its `:`, request segment) per parameter segment. -/
theorem route_matches_within_bounds (pattern path : CStr)
    (hp : pattern.length < 255) (hq : path.length < 255)
    (hps : (segments pattern).length ≤ 32) (hqs : (segments path).length ≤ 32)
    (_h8 : ((segments pattern).filter is_param).length ≤ 8) :
    ((route_matches pattern path).1 = true ↔
      (segments pattern).length = (segments path).length ∧
        ∀ (i : Nat) (p q : CStr), (segments pattern)[i]? = some p → (segments path)[i]? = some q →
          is_param p = false → p = q) ∧
    ((route_matches pattern path).1 = true →
      (route_matches pattern path).2 = params_of ((segments pattern).zip (segments path))) :=
  route_matches_bounded pattern path hp hq hps hqs

/-- C5 at pattern `/user/:id` and request `/user/42`: same number of segments, and the one
recorded pair is (`id`, `42`). -/
theorem route_matches_within_bounds_witness :
    (segments "/user/:id".toList).length = (segments "/user/42".toList).length ∧
      (route_matches "/user/:id".toList "/user/42".toList).2 = [("id".toList, "42".toList)] :=
  ⟨((route_matches_within_bounds "/user/:id".toList "/user/42".toList (by decide) (by decide)
      (by decide) (by decide) (by decide)).1.mp (by decide)).1,
   (route_matches_within_bounds "/user/:id".toList "/user/42".toList (by decide) (by decide)
      (by decide) (by decide) (by decide)).2 (by decide)⟩

/-! ### The route loop -/

theorem find_in_routes_route (path pattern : CStr) (body : ASTNode F)
    (rest : List (ASTNode F)) (interp : Interpreter F) :
    find_in_routes path (ASTNode.route pattern body :: rest) interp =
      if pattern_matches pattern path = true then
        (some (ASTNode.route pattern body),
          if pattern = path then interp else bind_params interp (route_matches pattern path).2)
      else find_in_routes path rest interp := by
  rw [find_in_routes]
  by_cases h1 : pattern = path
  · simp [pattern_matches, h1]
  · by_cases h2 : (route_matches pattern path).1 = true
    · simp [pattern_matches, h1, h2]
    · simp [pattern_matches, h1, h2]

theorem find_program_of_nil (path : CStr) (interp : Interpreter F) :
    find_matching_route (program_of ([] : List (CStr × ASTNode F))) path interp = (none, interp) := by
  simp [find_matching_route, program_of, find_in_routes]

theorem find_program_of_cons (path : CStr) (r : CStr × ASTNode F)
    (rs : List (CStr × ASTNode F)) (interp : Interpreter F) :
    find_matching_route (program_of (r :: rs)) path interp =
      if pattern_matches r.1 path = true then
        (some (ASTNode.route r.1 r.2),
          if r.1 = path then interp else bind_params interp (route_matches r.1 path).2)
      else find_matching_route (program_of rs) path interp := by
  simp only [find_matching_route, program_of, List.map_cons, find_in_routes_route]

theorem find_first_match (rs : List (CStr × ASTNode F)) (path : CStr) (interp : Interpreter F)
    (i : Nat) (r : CStr × ASTNode F) (hr : rs[i]? = some r)
    (hm : pattern_matches r.1 path = true)
    (hfirst : ∀ (j : Nat) (e : CStr × ASTNode F), j < i → rs[j]? = some e →
      pattern_matches e.1 path = false) :
    (find_matching_route (program_of rs) path interp).1 = some (ASTNode.route r.1 r.2) := by
  induction rs generalizing i with
  | nil => simp at hr
  | cons e es ih =>
    rw [find_program_of_cons]
    cases i with
    | zero =>
      simp at hr
      subst hr
      simp [hm]
    | succ k =>
      have he : pattern_matches e.1 path = false := hfirst 0 e (Nat.succ_pos k) (by simp)
      rw [if_neg (by simp [he])]
      exact ih k (by simpa using hr)
        (fun j e1 hj hje => hfirst (j + 1) e1 (Nat.succ_lt_succ hj) (by simpa using hje))

theorem find_none_iff (rs : List (CStr × ASTNode F)) (path : CStr) (interp : Interpreter F) :
    (find_matching_route (program_of rs) path interp).1 = none ↔
      ∀ r ∈ rs, pattern_matches r.1 path = false := by
  induction rs with
  | nil => simp [find_program_of_nil]
  | cons e es ih =>
    rw [find_program_of_cons]
    by_cases he : pattern_matches e.1 path = true
    · rw [if_pos he]
      constructor
      · intro h
        exact absurd h (by simp)
      · intro h
        have := h e (List.mem_cons_self _ _)
        rw [he] at this
        exact absurd this (by decide)
    · rw [if_neg he, ih]
      constructor
      · intro h r hr
        rcases List.mem_cons.mp hr with rfl | hr
        · exact (Bool.not_eq_true _).mp he
        · exact h r hr
      · intro h r hr
        exact h r (List.mem_cons_of_mem _ hr)

/-- C1. First-match routing. For every program (routes `rs` in declaration order), request
path and interpreter: `find_matching_route` returns the route at the smallest index whose
pattern matches the path (same string, or `route_matches` succeeds); it returns no route
exactly when no declared pattern matches; and when the first two routes A, B both match,
A is returned. -/
theorem first_match_routing (rs : List (CStr × ASTNode F)) (path : CStr)
    (interp : Interpreter F) :
    (∀ (i : Nat) (r : CStr × ASTNode F), rs[i]? = some r → pattern_matches r.1 path = true →
      (∀ (j : Nat) (e : CStr × ASTNode F), j < i → rs[j]? = some e →
        pattern_matches e.1 path = false) →
      (find_matching_route (program_of rs) path interp).1 = some (ASTNode.route r.1 r.2)) ∧
    ((find_matching_route (program_of rs) path interp).1 = none ↔
      ∀ r ∈ rs, pattern_matches r.1 path = false) ∧
    (∀ (a b : CStr × ASTNode F) (rest : List (CStr × ASTNode F)), rs = a :: b :: rest →
      pattern_matches a.1 path = true → pattern_matches b.1 path = true →
      (find_matching_route (program_of rs) path interp).1 = some (ASTNode.route a.1 a.2)) := by
  refine ⟨fun i r hr hm hfirst => find_first_match rs path interp i r hr hm hfirst,
    find_none_iff rs path interp, ?_⟩
  intro a b rest hrs ha _
  subst hrs
  exact find_first_match _ path interp 0 a (by simp) ha (fun j _ hj => absurd hj (Nat.not_lt_zero j))

/-! ### Segment counts -/

/-- C3 (as amended). For a pattern and a request path shorter than 255 bytes, if their
numbers of non-empty `/`-separated segments, each counted up to the limit of 32, differ,
then `route_matches` reports no match. -/
theorem segment_count_mismatch (pattern path : CStr)
    (hp : pattern.length < 255) (hq : path.length < 255)
    (h : min (segments pattern).length 32 ≠ min (segments path).length 32) :
    (route_matches pattern path).1 = false := by
  rw [route_matches_eq pattern path hp hq, if_pos]
  simpa [List.length_take, Nat.min_comm] using h

theorem segments_eq_nil_iff (p : CStr) : segments p = [] ↔ ∀ c ∈ p, c = '/' := by
  induction p with
  | nil => simp [segments, split_slash]
  | cons c cs ih =>
    by_cases hc : c = '/'
    · subst hc
      rw [segments_slash, ih]
      simp
    · rw [segments_cons_of_ne c cs hc]
      simp [hc]

theorem route_matches_root (p : CStr) (hp : p.length < 255) :
    (route_matches "/".toList p).1 = true ↔ ∀ c ∈ p, c = '/' := by
  rw [route_matches_eq _ p (by decide) hp, ← segments_eq_nil_iff]
  have h0 : segments "/".toList = [] := by decide
  rw [h0]
  cases h : segments p with
  | nil => simp [match_parts]
  | cons s ss => simp

/-- C4 (as amended). For a program whose only route has pattern `/`, and a request path `p`
shorter than 255 bytes, `find_matching_route` selects that route if and only if `p` has no
byte other than `/` (so `/`, but also `//` and the empty path). -/
theorem root_route_selection (body : ASTNode F) (p : CStr) (interp : Interpreter F)
    (hp : p.length < 255) :
    (find_matching_route (program_of [("/".toList, body)]) p interp).1 =
        some (ASTNode.route "/".toList body) ↔
      ∀ c ∈ p, c = '/' := by
  rw [find_program_of_cons, find_program_of_nil]
  by_cases h : pattern_matches "/".toList p = true
  · rw [if_pos h]
    simp only [true_iff]
    rw [pattern_matches, Bool.or_eq_true, decide_eq_true_eq] at h
    rcases h with h | h
    · rw [← h]
      decide
    · exact (route_matches_root p hp).mp h
  · rw [if_neg h]
    simp only [false_iff, reduceCtorEq]
    intro hall
    apply h
    rw [pattern_matches, Bool.or_eq_true]
    exact Or.inr ((route_matches_root p hp).mpr hall)

theorem root_route_selection_witness :
    (find_matching_route (program_of [("/".toList, (ASTNode.block [] : ASTNode Int))])
        "///".toList interpreter_init).1 = some (ASTNode.route "/".toList (ASTNode.block [])) :=
  (root_route_selection (ASTNode.block []) "///".toList interpreter_init (by decide)).mpr (by decide)

theorem root_route_selects_double_slash :
    (find_matching_route (program_of [("/".toList, (ASTNode.block [] : ASTNode Int))])
        "//".toList interpreter_init).1 = some (ASTNode.route "/".toList (ASTNode.block [])) ∧
      "//".toList ≠ "/".toList :=
  ⟨by rfl, by decide⟩

/-! ### The environment -/

theorem lookup_update_existing (n m : CStr) (v : Value F) (vs vs1 : List (Variable F))
    (h : update_existing n v vs = some vs1) :
    lookup m vs1 = if m = n then some v else lookup m vs := by
  induction vs generalizing vs1 with
  | nil => simp [update_existing] at h
  | cons var rest ih =>
    rw [update_existing] at h
    by_cases hn : var.name = n
    · rw [if_pos hn] at h
      obtain rfl := Option.some.inj h
      by_cases hm : m = n
      · simp [lookup, hm, hn]
      · have : var.name ≠ m := fun e => hm (e ▸ hn)
        simp [lookup, hm, this]
    · rw [if_neg hn] at h
      cases hu : update_existing n v rest with
      | none => simp [hu] at h
      | some r1 =>
        rw [hu] at h
        obtain rfl := Option.some.inj h
        by_cases hv : var.name = m
        · have : m ≠ n := fun e => hn (hv.trans e)
          simp [lookup, hv, this]
        · simp [lookup, hv, ih r1 hu]

theorem lookup_of_update_existing_none (n : CStr) (v : Value F) (vs : List (Variable F))
    (h : update_existing n v vs = none) : lookup n vs = none := by
  induction vs with
  | nil => rfl
  | cons var rest ih =>
    rw [update_existing] at h
    by_cases hn : var.name = n
    · simp [hn] at h
    · rw [if_neg hn] at h
      cases hu : update_existing n v rest with
      | none => simp [lookup, hn, ih hu]
      | some r1 => simp [hu] at h

theorem get_set_variable (interp : Interpreter F) (n m : CStr) (v : Value F) :
    get_variable (set_variable interp n v) m =
      if m = n then some v else get_variable interp m := by
  unfold set_variable get_variable
  cases hu : update_existing n v interp.vars with
  | some vs1 => simpa using lookup_update_existing n m v _ _ hu
  | none =>
    by_cases hm : m = n
    · simp [lookup, hm]
    · have : n ≠ m := fun e => hm e.symm
      simp [lookup, hm, this]

theorem bind_params_append (interp : Interpreter F) (a b : List (CStr × CStr)) :
    bind_params interp (a ++ b) = bind_params (bind_params interp a) b := by
  induction a generalizing interp with
  | nil => rfl
  | cons p ps ih =>
    obtain ⟨n, v⟩ := p
    rw [List.cons_append, bind_params, bind_params, ih]

theorem get_bind_params_other (interp : Interpreter F) (ps : List (CStr × CStr)) (m : CStr)
    (h : ∀ p ∈ ps, p.1 ≠ m) :
    get_variable (bind_params interp ps) m = get_variable interp m := by
  induction ps generalizing interp with
  | nil => rfl
  | cons p ps ih =>
    obtain ⟨n, v⟩ := p
    have hn : m ≠ n := fun e => h (n, v) (List.mem_cons_self _ _) e.symm
    rw [bind_params, ih _ (fun p hp => h p (List.mem_cons_of_mem _ hp)), get_set_variable,
      if_neg hn]

theorem get_bind_params_last (interp : Interpreter F) (pre post : List (CStr × CStr))
    (m v : CStr) (h : ∀ p ∈ post, p.1 ≠ m) :
    get_variable (bind_params interp (pre ++ (m, v) :: post)) m = some (Value.string v) := by
  rw [bind_params_append, bind_params, get_bind_params_other _ _ _ h, get_set_variable,
    if_pos rfl]
  rfl

theorem find_some_cases (rs : List (CStr × ASTNode F)) (path pattern : CStr)
    (body : ASTNode F) (interp interp1 : Interpreter F)
    (h : find_matching_route (program_of rs) path interp =
      (some (ASTNode.route pattern body), interp1)) :
    (pattern = path ∧ interp1 = interp) ∨
      (pattern ≠ path ∧ (route_matches pattern path).1 = true ∧
        interp1 = bind_params interp (route_matches pattern path).2) := by
  induction rs with
  | nil => simp [find_program_of_nil] at h
  | cons e es ih =>
    rw [find_program_of_cons] at h
    by_cases he : pattern_matches e.1 path = true
    · rw [if_pos he] at h
      obtain ⟨h1, h2⟩ := Prod.mk.inj h
      have h3 := Option.some.inj h1
      injection h3 with hpat hbody
      subst hpat
      by_cases hp : e.1 = path
      · left
        rw [if_pos hp] at h2
        exact ⟨hp, h2.symm⟩
      · right
        rw [if_neg hp] at h2
        rw [pattern_matches, Bool.or_eq_true, decide_eq_true_eq] at he
        exact ⟨hp, he.resolve_left hp, h2.symm⟩
    · rw [if_neg he] at h
      exact ih h

theorem params_of_names (pairs : List (CStr × CStr)) (name : CStr)
    (h : ∀ pq ∈ pairs, pq.1 ≠ ':' :: name) :
    ∀ p ∈ params_of pairs, p.1 ≠ name := by
  intro p hp
  rw [params_of, List.mem_filterMap] at hp
  obtain ⟨pq, hmem, hpq⟩ := hp
  by_cases hpar : is_param pq.1 = true
  · rw [if_pos hpar] at hpq
    obtain rfl := Option.some.inj hpq
    intro hname
    apply h pq hmem
    rw [is_param, decide_eq_true_eq] at hpar
    cases hseg : pq.1 with
    | nil => simp [hseg] at hpar
    | cons c cs =>
      rw [hseg] at hpar hname
      simp at hpar hname
      rw [hpar, hname]
  · rw [if_neg hpar] at hpq
    exact absurd hpq (by simp)

/-- C2 (as amended). Parameter capture. For every program, request path and initially empty
environment, if `find_matching_route` selects a route whose pattern is not the request
path byte for byte, and pattern and path are within the documented bounds (shorter than
255 bytes, at most 32 segments, at most 8 parameter segments), then afterwards the
environment binds the name of every parameter segment `:name` that no later segment of
the pattern repeats to the string value of the request segment at the same position. -/
theorem parameter_capture (rs : List (CStr × ASTNode F)) (path pattern : CStr)
    (body : ASTNode F) (interp1 : Interpreter F) (before after : List CStr) (name : CStr)
    (hfind : find_matching_route (program_of rs) path interpreter_init =
      (some (ASTNode.route pattern body), interp1))
    (hne : pattern ≠ path)
    (hp : pattern.length < 255) (hq : path.length < 255)
    (hps : (segments pattern).length ≤ 32) (hqs : (segments path).length ≤ 32)
    (_h8 : ((segments pattern).filter is_param).length ≤ 8)
    (hseg : segments pattern = before ++ (':' :: name) :: after)
    (hlast : (':' :: name) ∉ after) :
    ∃ value, (segments path)[before.length]? = some value ∧
      get_variable interp1 name = some (Value.string value) := by
  rcases find_some_cases rs path pattern body _ interp1 hfind with ⟨h, _⟩ | ⟨_, hm, hi⟩
  · exact absurd h hne
  · obtain ⟨hiff, hpar⟩ := route_matches_bounded pattern path hp hq hps hqs
    obtain ⟨hlen, _⟩ := hiff.mp hm
    have hlt : before.length < (segments path).length := by
      rw [← hlen, hseg]
      simp
    refine ⟨(segments path)[before.length], by simp [hlt], ?_⟩
    have hsplit : segments path = (segments path).take before.length ++
        (segments path)[before.length] :: (segments path).drop (before.length + 1) := by
      rw [List.getElem_cons_drop _ _ hlt, List.take_append_drop]
    have hzip : (segments pattern).zip (segments path) =
        before.zip ((segments path).take before.length) ++
          (':' :: name, (segments path)[before.length]) ::
            after.zip ((segments path).drop (before.length + 1)) := by
      rw [hseg]
      conv_lhs => rw [hsplit]
      rw [List.zip_append (by simp; omega)]
      rfl
    rw [hi, hpar hm, hzip, params_of, List.filterMap_append, List.filterMap_cons]
    simp only [is_param, List.head?_cons, decide_True, if_true, List.drop_succ_cons, List.drop_zero]
    apply get_bind_params_last
    apply params_of_names
    intro pq hmem heq
    exact hlast (heq ▸ (List.of_mem_zip hmem).1)

/-! ### Requests in sequence -/

theorem find_in_routes_none (path : CStr) (routes : List (ASTNode F)) (interp : Interpreter F)
    (h : (find_in_routes path routes interp).1 = none) :
    (find_in_routes path routes interp).2 = interp := by
  induction routes with
  | nil => rfl
  | cons route rest ih =>
    cases route with
    | route pattern body =>
      rw [find_in_routes_route] at h ⊢
      by_cases hm : pattern_matches pattern path = true
      · rw [if_pos hm] at h
        exact absurd h (by simp)
      · rw [if_neg hm] at h ⊢
        exact ih h
    | _ =>
      simp only [find_in_routes] at h ⊢
      exact ih h

theorem find_matching_route_none (program : ASTNode F) (path : CStr) (interp : Interpreter F)
    (h : (find_matching_route program path interp).1 = none) :
    (find_matching_route program path interp).2 = interp := by
  cases program with
  | program routes => exact find_in_routes_none path routes interp h
  | _ => rfl

theorem handle_client_interpreter (ops : DoubleOps F) (server : HTTPServer F)
    (conn : Connection) (handled : Handled F)
    (hinit : server.interpreter = interpreter_init)
    (h : handle_client ops server conn = some handled) :
    handled.server.interpreter = interpreter_init ∧ handled.server.program = server.program := by
  unfold handle_client at h
  simp only [] at h
  split at h
  · obtain rfl := Option.some.inj h
    exact ⟨hinit, rfl⟩
  · split at h
    · exact absurd h (by simp)
    · rename_i path _
      split at h
      · split at h
        · obtain rfl := Option.some.inj h
          exact ⟨rfl, rfl⟩
        · obtain rfl := Option.some.inj h
          exact ⟨rfl, rfl⟩
      · rename_i hnone
        obtain rfl := Option.some.inj h
        exact ⟨(find_matching_route_none _ _ _ hnone).trans hinit, rfl⟩

theorem serve_interpreter (ops : DoubleOps F) (conns : List Connection)
    (server s : HTTPServer F) (hinit : server.interpreter = interpreter_init)
    (h : serve ops server conns = some s) : s.interpreter = interpreter_init := by
  induction conns generalizing server with
  | nil =>
    rw [serve] at h
    obtain rfl := Option.some.inj h
    exact hinit
  | cons conn rest ih =>
    rw [serve] at h
    cases hc : handle_client ops server conn with
    | none => simp [hc] at h
    | some handled =>
      rw [hc] at h
      exact ih handled.server (handle_client_interpreter ops server conn handled hinit hc).1 h

theorem serve_append (ops : DoubleOps F) (server : HTTPServer F) (a b : List Connection) :
    serve ops server (a ++ b) = (serve ops server a).bind (fun s1 => serve ops s1 b) := by
  induction a generalizing server with
  | nil => rfl
  | cons conn rest ih =>
    rw [List.cons_append, serve, serve]
    cases handle_client ops server conn with
    | none => rfl
    | some handled => exact ih handled.server

/-- Environment isolation where `handle_client` is defined. Start from a freshly created
server and let `handle_client` serve a finite sequence of connections: those in `before`,
then `conn`, then those in `later` (each answered 200, 500 or 404, or closed unanswered).
The server `s0` on which `conn` begins to be handled has an empty environment, so no
variable assigned and no path parameter bound while serving a connection of `before` can be
looked up; the server left at the end has an empty environment too. -/
theorem isolation_where_defined (ops : DoubleOps F) (port : Int) (program : ASTNode F)
    (before later : List Connection) (conn : Connection) (s : HTTPServer F)
    (h : serve ops (http_server_create port program) (before ++ conn :: later) = some s) :
    ∃ s0, serve ops (http_server_create port program) before = some s0 ∧
      s0.interpreter.vars = [] ∧ (∀ name, get_variable s0.interpreter name = none) ∧
      s.interpreter.vars = [] := by
  have hs := serve_interpreter ops _ (http_server_create port program) s rfl h
  rw [serve_append] at h
  cases h0 : serve ops (http_server_create port program) before with
  | none => simp [h0] at h
  | some s0 =>
    have hs0 := serve_interpreter ops before (http_server_create port program) s0 rfl h0
    refine ⟨s0, rfl, ?_, ?_, ?_⟩
    · rw [hs0]
      rfl
    · intro name
      rw [hs0]
      rfl
    · rw [hs]
      rfl

/-- C6, the code at a request without a request line. On a connection that delivers only
CR LF, `http_request_parse` assigns no field of the request and `handle_client` reads
`request->path` unassigned: no server state is defined afterwards, whatever the server and
whether or not the memory stream opens, so a sequence of connections that contains such a
connection has no defined run, and no environment in which a later request begins. On every
sequence that does have a run (each connection answered 200, 500 or 404, or closed
unanswered) the environment is empty when each request begins to be handled, and at the
end. -/
theorem request_without_line_is_undefined (ops : DoubleOps F) (port : Int)
    (program : ASTNode F) :
    (http_request_parse "\r\n".toList).path = none ∧
    (∀ (server : HTTPServer F) (ok : Bool),
      handle_client ops server { received := "\r\n".toList, mem_stream_ok := ok } = none) ∧
    (∀ (before later : List Connection) (ok : Bool),
      serve ops (http_server_create port program)
        (before ++ { received := "\r\n".toList, mem_stream_ok := ok } :: later) = none) ∧
    ∀ (before later : List Connection) (conn : Connection) (s : HTTPServer F),
      serve ops (http_server_create port program) (before ++ conn :: later) = some s →
      ∃ s0, serve ops (http_server_create port program) before = some s0 ∧
        s0.interpreter.vars = [] ∧ (∀ name, get_variable s0.interpreter name = none) ∧
        s.interpreter.vars = [] := by
  have hp : (http_request_parse "\r\n".toList).path = none := by decide
  have hc : ∀ (server : HTTPServer F) (ok : Bool),
      handle_client ops server { received := "\r\n".toList, mem_stream_ok := ok } = none := by
    intro server ok
    have hb : (("\r\n".toList.take 4095).takeWhile (fun c => decide (c ≠ '\x00'))) =
        "\r\n".toList := by decide
    have hne : ¬ "\r\n".toList.take 4095 = [] := by decide
    simp only [handle_client, if_neg hne, hb, hp]
  refine ⟨hp, hc, ?_, ?_⟩
  · intro before later ok
    rw [serve_append]
    cases serve ops (http_server_create port program) before with
    | none => rfl
    | some s0 =>
      show serve ops s0 _ = none
      rw [serve, hc]
  · intro before later conn s h
    have hs := serve_interpreter ops _ (http_server_create port program) s rfl h
    rw [serve_append] at h
    cases h0 : serve ops (http_server_create port program) before with
    | none => simp [h0] at h
    | some s0 =>
      have hs0 := serve_interpreter ops before (http_server_create port program) s0 rfl h0
      refine ⟨s0, rfl, ?_, ?_, ?_⟩
      · rw [hs0]
        rfl
      · intro name
        rw [hs0]
        rfl
      · rw [hs]
        rfl

/-! ### Binary operators -/

theorem eval_binary_op (ops : DoubleOps F) (interp : Interpreter F) (op : CStr)
    (lhs rhs : ASTNode F) (l r : Value F) (dl dr : List CStr)
    (hl : eval_expression ops interp lhs = (l, dl))
    (hr : eval_expression ops interp rhs = (r, dr)) :
    eval_expression ops interp (ASTNode.binary_op op lhs rhs) =
      ((binary_op_result ops op l r).1, dl ++ dr ++ (binary_op_result ops op l r).2) := by
  simp only [eval_expression, hl, hr]

/-- C8. Semantics of `+`. Let the operands evaluate to `l` and `r`. The node yields the
string `value_to_string l ++ value_to_string r` when at least one of them is a string, the
number `l + r` when both are numbers, and null in every other case; `+` itself writes no
diagnostic. -/
theorem plus_semantics (ops : DoubleOps F) (interp : Interpreter F)
    (lhs rhs : ASTNode F) (l r : Value F) (dl dr : List CStr)
    (hl : eval_expression ops interp lhs = (l, dl))
    (hr : eval_expression ops interp rhs = (r, dr)) :
    (eval_expression ops interp (ASTNode.binary_op "+".toList lhs rhs)).2 = dl ++ dr ∧
    (((∃ s, l = Value.string s) ∨ (∃ s, r = Value.string s)) →
      (eval_expression ops interp (ASTNode.binary_op "+".toList lhs rhs)).1 =
        Value.string (value_to_string ops l ++ value_to_string ops r)) ∧
    (∀ a b, l = Value.number a → r = Value.number b →
      (eval_expression ops interp (ASTNode.binary_op "+".toList lhs rhs)).1 =
        Value.number (ops.add a b)) ∧
    ((∀ s, l ≠ Value.string s) → (∀ s, r ≠ Value.string s) →
      ((∀ a, l ≠ Value.number a) ∨ (∀ b, r ≠ Value.number b)) →
      (eval_expression ops interp (ASTNode.binary_op "+".toList lhs rhs)).1 = Value.null) := by
  rw [eval_binary_op ops interp _ lhs rhs l r dl dr hl hr]
  cases l <;> cases r <;>
    simp [binary_op_result, is_string, number_operands, value_create_string, value_create_number,
      value_create_null]

/-- C9. Division. Let the operands evaluate to the numbers `a` and `b`. When `b` compares
equal to zero the node yields null and writes "Runtime error: Division by zero" after the
diagnostics of the operands; otherwise it yields the quotient `a / b` and writes nothing
of its own. `eval_expression` is a total function: it returns a value in both cases. -/
theorem division_semantics (ops : DoubleOps F) (interp : Interpreter F)
    (lhs rhs : ASTNode F) (a b : F) (dl dr : List CStr)
    (hl : eval_expression ops interp lhs = (Value.number a, dl))
    (hr : eval_expression ops interp rhs = (Value.number b, dr)) :
    (ops.eq b ops.zero = true →
      eval_expression ops interp (ASTNode.binary_op "/".toList lhs rhs) =
        (Value.null, dl ++ dr ++ ["Runtime error: Division by zero\n".toList])) ∧
    (ops.eq b ops.zero = false →
      eval_expression ops interp (ASTNode.binary_op "/".toList lhs rhs) =
        (Value.number (ops.div a b), dl ++ dr)) := by
  rw [eval_binary_op ops interp _ lhs rhs _ _ dl dr hl hr]
  constructor <;> intro hz <;>
    simp [binary_op_result, number_operands, numeric_branch, hz, value_create_number,
      value_create_null, division_by_zero_message]

/-- C10. Numeric-only operators. For each operator among `-`, `*`, `/`, `<`, `>`, `<=`, `>=`
and operands that evaluate to `l` and `r`: when `l` or `r` is not a number the node yields
null (and writes nothing of its own); when both are numbers, `<`, `>`, `<=`, `>=` yield the
bool of the corresponding comparison of the two numbers. -/
theorem numeric_only_operators (ops : DoubleOps F) (interp : Interpreter F) (op : CStr)
    (lhs rhs : ASTNode F) (l r : Value F) (dl dr : List CStr)
    (hop : op ∈ ["-".toList, "*".toList, "/".toList, "<".toList, ">".toList, "<=".toList,
      ">=".toList])
    (hl : eval_expression ops interp lhs = (l, dl))
    (hr : eval_expression ops interp rhs = (r, dr)) :
    (((∀ a, l ≠ Value.number a) ∨ (∀ b, r ≠ Value.number b)) →
      eval_expression ops interp (ASTNode.binary_op op lhs rhs) = (Value.null, dl ++ dr)) ∧
    (∀ a b, l = Value.number a → r = Value.number b →
      (op = "<".toList →
        (eval_expression ops interp (ASTNode.binary_op op lhs rhs)).1 = Value.bool (ops.lt a b)) ∧
      (op = ">".toList →
        (eval_expression ops interp (ASTNode.binary_op op lhs rhs)).1 = Value.bool (ops.gt a b)) ∧
      (op = "<=".toList →
        (eval_expression ops interp (ASTNode.binary_op op lhs rhs)).1 = Value.bool (ops.le a b)) ∧
      (op = ">=".toList →
        (eval_expression ops interp (ASTNode.binary_op op lhs rhs)).1 = Value.bool (ops.ge a b))) := by
  rw [eval_binary_op ops interp _ lhs rhs l r dl dr hl hr]
  simp only [List.mem_cons, List.mem_singleton, List.not_mem_nil, or_false] at hop
  constructor
  · intro hnot
    rcases hop with rfl | rfl | rfl | rfl | rfl | rfl | rfl <;>
      cases l <;> cases r <;>
        simp [binary_op_result, number_operands, numeric_branch, equality_branch,
          value_create_null] at hnot ⊢
  · intro a b ha hb
    subst ha hb
    refine ⟨?_, ?_, ?_, ?_⟩ <;> intro h <;> subst h <;>
      simp [binary_op_result, number_operands, numeric_branch]

/-! ### Concrete evaluations -/

set_option maxRecDepth 4000 in
/-- C3, the claim as stated fails: a pattern of 33 segments and a path of 34 segments, both
shorter than 255 bytes, have different segment counts and `route_matches` reports a
match. -/
theorem segment_count_mismatch_fails :
    path_of_33_segments.length = 66 ∧ path_of_34_segments.length = 68 ∧
      (segments path_of_33_segments).length ≠ (segments path_of_34_segments).length ∧
      (route_matches path_of_33_segments path_of_34_segments).1 = true := by
  decide

/-- C3 at `/a` against `/a/b`: one segment against two, no match. -/
theorem segment_count_mismatch_witness :
    (segments "/a".toList).length ≠ (segments "/a/b".toList).length ∧
      (route_matches "/a".toList "/a/b".toList).1 = false :=
  ⟨by decide,
    segment_count_mismatch "/a".toList "/a/b".toList (by decide) (by decide) (by decide)⟩

/-- C2, the claim as stated fails: the request path `/user/:id` selects the route
`/user/:id` through the whole-string comparison, and `id` stays unbound. -/
theorem parameter_capture_fails_on_identical_path :
    (find_matching_route user_program "/user/:id".toList interpreter_init).1 =
        some (ASTNode.route "/user/:id".toList user_body) ∧
      segments "/user/:id".toList = ["user".toList, ":id".toList] ∧
      get_variable (find_matching_route user_program "/user/:id".toList interpreter_init).2
        "id".toList = none :=
  ⟨by rfl, by decide, by decide⟩

/-- C2 at pattern `/user/:id` and request `/user/42`: `id` is bound to the string `42`. -/
theorem parameter_capture_witness :
    get_variable (find_matching_route user_program "/user/42".toList interpreter_init).2
      "id".toList = some (Value.string "42".toList) := by
  obtain ⟨value, h1, h2⟩ := parameter_capture [("/user/:id".toList, user_body)]
    "/user/42".toList "/user/:id".toList user_body
    (find_matching_route user_program "/user/42".toList interpreter_init).2
    ["user".toList] [] "id".toList (by rfl) (by decide) (by decide) (by decide) (by decide)
    (by decide) (by decide) (by decide) (by decide)
  have h3 : (segments "/user/42".toList)[["user".toList].length]? = some "42".toList := by decide
  rw [h3] at h1
  rw [← Option.some.inj h1] at h2
  exact h2

/-- Isolation on scenario 6 of the spec, extended: after `GET /set` answered 200 (it assigns
`x`), `GET /set` answered 500 and `GET /nowhere` answered 404, the request `GET /get` begins
on a server whose environment is empty, and leaves it empty. -/
theorem isolation_on_scenario :
    serve wholeOps (http_server_create 8080 set_get_program) (set_get_connections.take 3) =
      some (http_server_create 8080 set_get_program) ∧
    (∀ name, get_variable (http_server_create 8080 set_get_program).interpreter name = none) ∧
    serve wholeOps (http_server_create 8080 set_get_program) set_get_connections =
      some (http_server_create 8080 set_get_program) := by
  have h1 : serve wholeOps (http_server_create 8080 set_get_program)
      (set_get_connections.take 3) = some (http_server_create 8080 set_get_program) := by rfl
  have h2 : serve wholeOps (http_server_create 8080 set_get_program)
      (set_get_connections.take 3 ++
        { received := "GET /get HTTP/1.1\r\n\r\n".toList, mem_stream_ok := true } :: []) =
      some (http_server_create 8080 set_get_program) := by rfl
  obtain ⟨s0, h0, _, hg, _⟩ := isolation_where_defined wholeOps 8080 set_get_program
    (set_get_connections.take 3) []
    { received := "GET /get HTTP/1.1\r\n\r\n".toList, mem_stream_ok := true }
    (http_server_create 8080 set_get_program) h2
  rw [h1] at h0
  obtain rfl := Option.some.inj h0
  exact ⟨h1, hg, h2⟩

/-- C7, the code at a variable bound to a bool: with `x` bound to `true`, `Identifier(x)`
yields null and writes the undefined-variable diagnostic; the body `{ x = 1 < 2  response x }`
binds `x` to `true` and then prints `null`. -/
theorem identifier_bound_to_bool :
    eval_expression wholeOps
        { vars := [{ name := "x".toList, value := Value.bool true }], output := [] }
        (ASTNode.identifier "x".toList) =
      (Value.null, ["Runtime error: Undefined variable 'x'\n".toList]) ∧
    execute_statement wholeOps interpreter_init bool_body =
      ({ vars := [{ name := "x".toList, value := Value.bool true }],
         output := "Content-Type: text/plain\n\nnull\n".toList },
       ["Runtime error: Undefined variable 'x'\n".toList]) := by
  decide

/-- C8 at `"n=" + 15`: the string `n=15`. -/
theorem plus_semantics_witness :
    (eval_expression wholeOps interpreter_init
      (ASTNode.binary_op "+".toList (ASTNode.string "n=".toList) (ASTNode.number 15))).1 =
        Value.string "n=15".toList :=
  (plus_semantics wholeOps interpreter_init (ASTNode.string "n=".toList) (ASTNode.number 15)
    (Value.string "n=".toList) (Value.number 15) [] [] rfl rfl).2.1 (Or.inl ⟨_, rfl⟩)

/-- C9 at `6 / 0` and `6 / 3`. -/
theorem division_semantics_witness :
    eval_expression wholeOps interpreter_init
        (ASTNode.binary_op "/".toList (ASTNode.number 6) (ASTNode.number 0)) =
      (Value.null, ["Runtime error: Division by zero\n".toList]) ∧
    eval_expression wholeOps interpreter_init
        (ASTNode.binary_op "/".toList (ASTNode.number 6) (ASTNode.number 3)) =
      (Value.number 2, []) :=
  ⟨(division_semantics wholeOps interpreter_init (ASTNode.number 6) (ASTNode.number 0) 6 0 [] []
      rfl rfl).1 (by decide),
   (division_semantics wholeOps interpreter_init (ASTNode.number 6) (ASTNode.number 3) 6 3 [] []
      rfl rfl).2 (by decide)⟩

/-- C10 at `1 < "a"` and `1 < 2`. -/
theorem numeric_only_operators_witness :
    eval_expression wholeOps interpreter_init
        (ASTNode.binary_op "<".toList (ASTNode.number 1) (ASTNode.string "a".toList)) =
      (Value.null, []) ∧
    (eval_expression wholeOps interpreter_init
        (ASTNode.binary_op "<".toList (ASTNode.number 1) (ASTNode.number 2))).1 =
      Value.bool true :=
  ⟨(numeric_only_operators wholeOps interpreter_init "<".toList (ASTNode.number 1)
      (ASTNode.string "a".toList) (Value.number 1) (Value.string "a".toList) [] []
      (by decide) rfl rfl).1 (Or.inr (fun b h => by cases h)),
   ((numeric_only_operators wholeOps interpreter_init "<".toList (ASTNode.number 1)
      (ASTNode.number 2) (Value.number 1) (Value.number 2) [] []
      (by decide) rfl rfl).2 1 2 rfl rfl).1 rfl⟩

/-! ### Equality, html blocks and the Response statement -/

/-- C11. Equality. Let the operands evaluate to `l` and `r`. `==` yields the bool of the
C comparison of the two numbers when both are numbers, the bool of the two strings having
identical contents when both are strings, and false for every other pairing; `!=` yields
the negation of what `==` yields on the same operands; neither writes a diagnostic. -/
theorem equality_semantics (ops : DoubleOps F) (interp : Interpreter F)
    (lhs rhs : ASTNode F) (l r : Value F) (dl dr : List CStr)
    (hl : eval_expression ops interp lhs = (l, dl))
    (hr : eval_expression ops interp rhs = (r, dr)) :
    (∀ a b, l = Value.number a → r = Value.number b →
      eval_expression ops interp (ASTNode.binary_op "==".toList lhs rhs) =
        (Value.bool (ops.eq a b), dl ++ dr)) ∧
    (∀ a b, l = Value.string a → r = Value.string b →
      eval_expression ops interp (ASTNode.binary_op "==".toList lhs rhs) =
        (Value.bool (decide (a = b)), dl ++ dr)) ∧
    ((∀ a b, ¬(l = Value.number a ∧ r = Value.number b)) →
      (∀ a b, ¬(l = Value.string a ∧ r = Value.string b)) →
      eval_expression ops interp (ASTNode.binary_op "==".toList lhs rhs) =
        (Value.bool false, dl ++ dr)) ∧
    (∃ b, eval_expression ops interp (ASTNode.binary_op "==".toList lhs rhs) =
        (Value.bool b, dl ++ dr) ∧
      eval_expression ops interp (ASTNode.binary_op "!=".toList lhs rhs) =
        (Value.bool (!b), dl ++ dr)) := by
  rw [eval_binary_op ops interp _ lhs rhs l r dl dr hl hr,
    eval_binary_op ops interp _ lhs rhs l r dl dr hl hr]
  cases l <;> cases r <;>
    simp [binary_op_result, number_operands, string_operands, numeric_branch, equality_branch]

theorem html_block_concat_eq (ops : DoubleOps F) (interp : Interpreter F)
    (statements : List (ASTNode F)) (result : CStr) :
    html_block_concat ops interp statements result =
      result ++ (statements.map (identifier_text ops interp)).flatten := by
  induction statements generalizing result with
  | nil => simp [html_block_concat]
  | cons stmt rest ih =>
    cases stmt with
    | identifier name =>
      cases hv : get_variable interp name with
      | none => simp [html_block_concat, identifier_text, hv, ih]
      | some value => simp [html_block_concat, identifier_text, hv, ih]
    | _ => simp [html_block_concat, identifier_text, ih]

/-- C12. Html block evaluation. A Block in expression position evaluates to the string that
concatenates, in statement order, `value_to_string` of the value bound to each statement
that is an Identifier (nothing for an Identifier whose name is unbound, nothing for a
statement of another kind); no diagnostic is written, and the statements are not
executed (the function returns only a value and diagnostics). -/
theorem html_block_evaluation (ops : DoubleOps F) (interp : Interpreter F)
    (statements : List (ASTNode F)) :
    eval_expression ops interp (ASTNode.block statements) =
      (Value.string ((statements.map (identifier_text ops interp)).flatten), []) ∧
    (∀ name value, get_variable interp name = some value →
      identifier_text ops interp (ASTNode.identifier name) = value_to_string ops value) ∧
    (∀ node, (∀ name, node ≠ ASTNode.identifier name) →
      identifier_text ops interp node = []) := by
  refine ⟨?_, ?_, ?_⟩
  · simp [eval_expression, html_block_concat_eq]
  · intro name value h
    simp [identifier_text, h]
  · intro node h
    cases node <;> simp [identifier_text] at h ⊢

/-- C13. Response statement output. Executing a Response node whose value evaluates to `v`
appends to the output sink exactly `Content-Type: text/html\n\n<html><body>`, the rendering
of `v` and `</body></html>\n` when the html flag is set, and exactly
`Content-Type: text/plain\n\n`, the rendering of `v` and `\n` otherwise; the rendering is
the string itself, the `%g` text of a number, `true` or `false`, or `null`. The
environment is unchanged and the diagnostics are those of evaluating the value. -/
theorem response_statement_output (ops : DoubleOps F) (interp : Interpreter F)
    (value : ASTNode F) (is_html : Bool) :
    (execute_statement ops interp (ASTNode.response value is_html)).1.output =
      interp.output ++
        (if is_html = true then
          "Content-Type: text/html\n\n<html><body>".toList ++
            value_print ops (eval_expression ops interp value).1 ++ "</body></html>\n".toList
        else
          "Content-Type: text/plain\n\n".toList ++
            value_print ops (eval_expression ops interp value).1 ++ "\n".toList) ∧
    (execute_statement ops interp (ASTNode.response value is_html)).1.vars = interp.vars ∧
    (execute_statement ops interp (ASTNode.response value is_html)).2 =
      (eval_expression ops interp value).2 ∧
    (∀ s, value_print ops (Value.string s) = s) ∧
    (∀ x, value_print ops (Value.number x) = ops.fmt_g x) ∧
    value_print ops (Value.bool true) = "true".toList ∧
    value_print ops (Value.bool false) = "false".toList ∧
    value_print ops (Value.null : Value F) = "null".toList := by
  refine ⟨?_, rfl, rfl, fun _ => rfl, fun _ => rfl, rfl, rfl, rfl⟩
  cases is_html <;> simp [execute_statement, response_text]

/-! ### `strstr` -/

theorem take_eq_iff_append (needle hay : CStr) :
    hay.take needle.length = needle ↔ ∃ after, hay = needle ++ after := by
  constructor
  · intro h
    have h1 := List.take_append_drop needle.length hay
    rw [h] at h1
    exact ⟨hay.drop needle.length, h1.symm⟩
  · rintro ⟨after, rfl⟩
    simp

theorem strstr_isSome_iff (hay needle : CStr) :
    (strstr hay needle).isSome = true ↔ occurs_in needle hay := by
  induction hay with
  | nil =>
    rw [strstr]
    by_cases hn : needle = []
    · subst hn
      simp [occurs_in]
    · rw [if_neg hn]
      simp only [Option.isSome_none, Bool.false_eq_true, false_iff]
      rintro ⟨before, after, h⟩
      have := congrArg List.length h
      simp at this
      exact hn (List.length_eq_zero.mp (by omega))
  | cons c cs ih =>
    rw [strstr]
    by_cases hhead : (c :: cs).take needle.length = needle
    · rw [if_pos hhead]
      obtain ⟨after, hafter⟩ := (take_eq_iff_append needle (c :: cs)).mp hhead
      simp only [Option.isSome_some, true_iff]
      exact ⟨[], after, by simpa using hafter⟩
    · rw [if_neg hhead, ih]
      constructor
      · rintro ⟨before, after, h⟩
        exact ⟨c :: before, after, by simp [h]⟩
      · rintro ⟨before, after, h⟩
        cases before with
        | nil =>
          exact absurd ((take_eq_iff_append needle (c :: cs)).mpr ⟨after, by simpa using h⟩) hhead
        | cons b bs =>
          simp only [List.cons_append, List.cons.injEq] at h
          exact ⟨bs, after, h.2⟩

/-- The first occurrence: `strstr` returns the tail that starts at an occurrence which no
occurrence precedes. -/
theorem strstr_first (needle before after : CStr)
    (hfirst : ∀ before1 after1, before ++ needle ++ after = before1 ++ needle ++ after1 →
      before.length ≤ before1.length) :
    strstr (before ++ needle ++ after) needle = some (needle ++ after) := by
  induction before with
  | nil =>
    cases hn : needle ++ after with
    | nil =>
      have h1 : needle = [] := (List.append_eq_nil.mp hn).1
      have h2 : after = [] := (List.append_eq_nil.mp hn).2
      subst h1 h2
      simp [strstr]
    | cons c cs =>
      simp only [List.nil_append]
      rw [hn, strstr, if_pos]
      rw [← hn]
      simp
  | cons b bs ih =>
    simp only [List.cons_append, List.append_assoc]
    rw [strstr, if_neg]
    · have := ih (fun before1 after1 h => by
        have := hfirst (b :: before1) after1 (by simp [h])
        simpa using this)
      simpa using this
    · intro hhead
      obtain ⟨after1, h1⟩ := (take_eq_iff_append needle _).mp hhead
      have := hfirst [] after1 (by simpa using h1)
      simp at this

theorem strstr_eq_none_iff (hay needle : CStr) :
    strstr hay needle = none ↔ ¬ occurs_in needle hay := by
  rw [← strstr_isSome_iff]
  cases strstr hay needle <;> simp

/-! ### Content type and body of the captured output -/

theorem response_of_output_html (t : CStr) (h : occurs_in html_marker t) :
    response_of_output t = http_response_create 200 "text/html".toList
      (match strstr t "\n\n".toList with
       | some body_start => body_start.drop 2
       | none => t) := by
  have h1 : (strstr t "Content-Type: text/html".toList).isSome = true :=
    (strstr_isSome_iff t html_marker).mpr h
  rw [response_of_output, if_pos h1]

theorem response_of_output_plain (t : CStr) (h1 : ¬ occurs_in html_marker t)
    (h2 : occurs_in plain_marker t) :
    response_of_output t = http_response_create 200 "text/plain".toList
      (match strstr t "\n\n".toList with
       | some body_start => body_start.drop 2
       | none => t) := by
  have h3 : ¬ (strstr t "Content-Type: text/html".toList).isSome = true :=
    fun h => h1 ((strstr_isSome_iff t html_marker).mp h)
  have h4 : (strstr t "Content-Type: text/plain".toList).isSome = true :=
    (strstr_isSome_iff t plain_marker).mpr h2
  rw [response_of_output, if_neg h3, if_pos h4]

theorem response_of_output_bare (t : CStr) (h1 : ¬ occurs_in html_marker t)
    (h2 : ¬ occurs_in plain_marker t) :
    response_of_output t = http_response_create 200 "text/plain".toList t := by
  have h3 : ¬ (strstr t "Content-Type: text/html".toList).isSome = true :=
    fun h => h1 ((strstr_isSome_iff t html_marker).mp h)
  have h4 : ¬ (strstr t "Content-Type: text/plain".toList).isSome = true :=
    fun h => h2 ((strstr_isSome_iff t plain_marker).mp h)
  rw [response_of_output, if_neg h3, if_neg h4]

theorem response_of_output_marked (t : CStr)
    (h : occurs_in html_marker t ∨ occurs_in plain_marker t) :
    (response_of_output t).body =
      (match strstr t "\n\n".toList with
       | some body_start => body_start.drop 2
       | none => t) := by
  by_cases h1 : occurs_in html_marker t
  · rw [response_of_output_html t h1]
    rfl
  · rw [response_of_output_plain t h1 (h.resolve_left h1)]
    rfl

/-- C14. Content type and body extraction. For every captured output text `t`: the content
type is `text/html` if `t` contains `Content-Type: text/html` and `text/plain` otherwise;
if `t` contains either marker, the body is the part of `t` after the first occurrence of
`\n\n` (all of `t` when there is no `\n\n`); if `t` contains neither marker the body is all
of `t`. -/
theorem content_type_and_body (t : CStr) :
    (occurs_in html_marker t → (response_of_output t).content_type = "text/html".toList) ∧
    (¬ occurs_in html_marker t → (response_of_output t).content_type = "text/plain".toList) ∧
    ((occurs_in html_marker t ∨ occurs_in plain_marker t) →
      ∀ before after, t = before ++ "\n\n".toList ++ after →
        (∀ before1 after1, t = before1 ++ "\n\n".toList ++ after1 →
          before.length ≤ before1.length) →
        (response_of_output t).body = after) ∧
    ((occurs_in html_marker t ∨ occurs_in plain_marker t) →
      ¬ occurs_in "\n\n".toList t → (response_of_output t).body = t) ∧
    (¬ occurs_in html_marker t → ¬ occurs_in plain_marker t →
      (response_of_output t).body = t) := by
  refine ⟨?_, ?_, ?_, ?_, ?_⟩
  · intro h
    rw [response_of_output_html t h]
    rfl
  · intro h
    by_cases h2 : occurs_in plain_marker t
    · rw [response_of_output_plain t h h2]
      rfl
    · rw [response_of_output_bare t h h2]
      rfl
  · intro h before after ht hfirst
    rw [response_of_output_marked t h]
    subst ht
    rw [strstr_first _ before after hfirst]
    rfl
  · intro h hno
    rw [response_of_output_marked t h, (strstr_eq_none_iff t _).mpr hno]
  · intro h1 h2
    rw [response_of_output_bare t h1 h2]
    rfl

/-! ### The dispatcher on one connection -/

theorem received_of_request_path (conn : Connection) (path : CStr)
    (hpath : request_path conn = some path) : conn.received.take 4095 ≠ [] := by
  intro h
  rw [request_path, h] at hpath
  simp [http_request_parse, strtok] at hpath

theorem handle_client_matched (ops : DoubleOps F) (server : HTTPServer F) (conn : Connection)
    (path : CStr) (route : ASTNode F) (interp1 : Interpreter F)
    (hpath : request_path conn = some path)
    (hfind : find_matching_route server.program path server.interpreter = (some route, interp1))
    (hmem : conn.mem_stream_ok = true) :
    handle_client ops server conn =
      some { server := { server with interpreter := interpreter_init },
             response := some (response_of_output
               ((execute_statement ops { interp1 with output := [] }
                 (route_body route)).1.output.take 4095)),
             diagnostics :=
               (execute_statement ops { interp1 with output := [] } (route_body route)).2 } := by
  have hrecv := received_of_request_path conn path hpath
  rw [request_path] at hpath
  simp only [handle_client, if_neg hrecv, hpath, hfind, hmem, if_true]

theorem handle_client_no_stream (ops : DoubleOps F) (server : HTTPServer F) (conn : Connection)
    (path : CStr) (route : ASTNode F) (interp1 : Interpreter F)
    (hpath : request_path conn = some path)
    (hfind : find_matching_route server.program path server.interpreter = (some route, interp1))
    (hmem : conn.mem_stream_ok = false) :
    handle_client ops server conn =
      some { server := { server with interpreter := interpreter_init },
             response := some (http_response_create 500 "text/plain".toList
               "Internal Server Error".toList),
             diagnostics := [] } := by
  have hrecv := received_of_request_path conn path hpath
  rw [request_path] at hpath
  simp only [handle_client, if_neg hrecv, hpath, hfind, hmem]
  rfl

theorem handle_client_unmatched (ops : DoubleOps F) (server : HTTPServer F) (conn : Connection)
    (path : CStr) (interp1 : Interpreter F)
    (hpath : request_path conn = some path)
    (hfind : find_matching_route server.program path server.interpreter = (none, interp1)) :
    handle_client ops server conn =
      some { server := { server with interpreter := interp1 },
             response := some (http_response_create 404 "text/plain".toList
               (("404 Not Found - Route '".toList ++ path ++ "' not defined".toList).take 255)),
             diagnostics := [] } := by
  have hrecv := received_of_request_path conn path hpath
  rw [request_path] at hpath
  simp only [handle_client, if_neg hrecv, hpath, hfind]

theorem set_variable_output (interp : Interpreter F) (name : CStr) (value : Value F) :
    (set_variable interp name value).output = interp.output := by
  unfold set_variable
  cases update_existing name value interp.vars <;> rfl

mutual
theorem execute_statement_silent (ops : DoubleOps F) :
    ∀ (node : ASTNode F) (interp : Interpreter F), has_response node = false →
      (execute_statement ops interp node).1.output = interp.output
  | .assignment name value, interp, _ => by
    simp [execute_statement, set_variable_output]
  | .block statements, interp, h => by
    rw [has_response] at h
    rw [execute_statement]
    exact execute_statements_silent ops statements interp h
  | .response _ _, interp, h => by simp [has_response] at h
  | .program _, interp, _ => by simp [execute_statement]
  | .route _ _, interp, _ => by simp [execute_statement]
  | .identifier _, interp, _ => by simp [execute_statement]
  | .string _, interp, _ => by simp [execute_statement]
  | .number _, interp, _ => by simp [execute_statement]
  | .binary_op _ _ _, interp, _ => by simp [execute_statement]
  | .if_stmt _ _ _, interp, _ => by simp [execute_statement]
  | .while_stmt _ _, interp, _ => by simp [execute_statement]
  | .function _ _ _, interp, _ => by simp [execute_statement]
  | .function_call _ _, interp, _ => by simp [execute_statement]
  | .return_stmt _, interp, _ => by simp [execute_statement]
theorem execute_statements_silent (ops : DoubleOps F) :
    ∀ (statements : List (ASTNode F)) (interp : Interpreter F),
      any_has_response statements = false →
      (execute_statements ops interp statements).1.output = interp.output
  | [], interp, _ => by simp [execute_statements]
  | stmt :: rest, interp, h => by
    rw [any_has_response, Bool.or_eq_false_iff] at h
    rw [execute_statements]
    simp only []
    rw [execute_statements_silent ops rest _ h.2, execute_statement_silent ops stmt interp h.1]
end

theorem response_of_output_status (t : CStr) : (response_of_output t).status_code = 200 := by
  unfold response_of_output
  split
  · rfl
  · split <;> rfl

theorem strstr_skip_newline (needle : CStr) (hne : needle ≠ []) (hn : '\n' ∉ needle)
    (text rest : CStr) (h : strstr text needle = none) :
    strstr (text ++ '\n' :: rest) needle = strstr rest needle := by
  induction text with
  | nil =>
    rw [List.nil_append, strstr, if_neg]
    intro hhead
    cases needle with
    | nil => exact hne rfl
    | cons c cs =>
      simp only [List.length_cons, List.take_succ_cons, List.cons.injEq] at hhead
      exact hn (hhead.1 ▸ List.mem_cons_self _ _)
  | cons a as ih =>
    rw [strstr] at h
    by_cases hhead : (a :: as).take needle.length = needle
    · rw [if_pos hhead] at h
      exact absurd h (by simp)
    · rw [if_neg hhead] at h
      rw [List.cons_append, strstr, if_neg, ih h]
      intro hcat
      rw [← List.cons_append, List.take_append_eq_append_take] at hcat
      by_cases hlen : needle.length ≤ (a :: as).length
      · rw [Nat.sub_eq_zero_of_le hlen, List.take_zero, List.append_nil] at hcat
        exact hhead hcat
      · have hpos : needle.length - (a :: as).length = (needle.length - (a :: as).length - 1) + 1 := by
          omega
        rw [hpos, List.take_succ_cons] at hcat
        apply hn
        rw [← hcat]
        simp

theorem strstr_blank_line (text rest : CStr) (h : '\n' ∉ text) :
    strstr (text ++ '\n' :: '\n' :: rest) "\n\n".toList = some ('\n' :: '\n' :: rest) := by
  induction text with
  | nil => simp [strstr]
  | cons a as ih =>
    have ha : a ≠ '\n' := fun e => h (e ▸ List.mem_cons_self _ _)
    rw [List.cons_append, strstr, if_neg, ih (fun hm => h (List.mem_cons_of_mem _ hm))]
    intro hhead
    simp only [String.toList, List.length_cons, List.length_nil, List.take_succ_cons,
      List.cons.injEq] at hhead
    exact ha hhead.1

theorem response_of_plain_text (s : CStr) (hs : ¬ occurs_in html_marker s) :
    response_of_output ("Content-Type: text/plain\n\n".toList ++ s ++ "\n".toList) =
      http_response_create 200 "text/plain".toList (s ++ "\n".toList) := by
  have hshape : "Content-Type: text/plain\n\n".toList ++ s ++ "\n".toList =
      plain_marker ++ '\n' :: '\n' :: (s ++ ['\n']) := by
    simp [plain_marker]
  have hnl : '\n' ∉ html_marker := by decide
  have hne : html_marker ≠ [] := by decide
  have h0 : strstr plain_marker html_marker = none := by decide
  have hnone : strstr (plain_marker ++ '\n' :: '\n' :: (s ++ ['\n'])) html_marker = none := by
    rw [strstr_skip_newline html_marker hne hnl plain_marker _ h0]
    have h1 := strstr_skip_newline html_marker hne hnl [] (s ++ ['\n']) (by decide)
    rw [List.nil_append] at h1
    rw [h1, strstr_skip_newline html_marker hne hnl s [] ((strstr_eq_none_iff s _).mpr hs)]
    decide
  rw [hshape, response_of_output_plain _ ((strstr_eq_none_iff _ _).mp hnone)
    ⟨[], '\n' :: '\n' :: (s ++ ['\n']), by simp⟩,
    strstr_blank_line plain_marker (s ++ ['\n']) (by decide)]
  rfl

/-- C15 (as amended). End-to-end plain response. For every string literal `s` (at most
1023 bytes) that does not contain the text `Content-Type: text/html`, and every route whose
body is the single statement `response s`: handling a request for which that route is
selected, with the memory stream opened, produces status 200, content type `text/plain`
and a body equal to `s` followed by one newline. -/
theorem plain_response_end_to_end (ops : DoubleOps F) (server : HTTPServer F)
    (conn : Connection) (path pattern s : CStr) (interp1 : Interpreter F)
    (hpath : request_path conn = some path)
    (hfind : find_matching_route server.program path server.interpreter =
      (some (ASTNode.route pattern (ASTNode.block [ASTNode.response (ASTNode.string s) false])),
        interp1))
    (hmem : conn.mem_stream_ok = true)
    (hs : ¬ occurs_in html_marker s) (hlen : s.length ≤ 1023) :
    ∃ handled, handle_client ops server conn = some handled ∧
      handled.response = some
        { status_code := 200, status_text := "OK".toList,
          content_type := "text/plain".toList, body := s ++ "\n".toList } := by
  refine ⟨_, handle_client_matched ops server conn path _ interp1 hpath hfind hmem, ?_⟩
  have hout : (execute_statement ops { interp1 with output := [] }
      (route_body (ASTNode.route pattern
        (ASTNode.block [ASTNode.response (ASTNode.string s) false])))).1.output =
      "Content-Type: text/plain\n\n".toList ++ s ++ "\n".toList := by
    simp [route_body, execute_statement, execute_statements, eval_expression, response_text,
      value_create_string, value_print]
  simp only [hout]
  rw [List.take_of_length_le (by simp; omega), response_of_plain_text s hs]
  rfl

/-- C16 (as amended). Not-found response. For every request path `p` that no declared route
matches, the dispatcher builds a response with status 404, content type `text/plain` and
as body the first 255 bytes of `404 Not Found - Route '<p>' not defined`, which is that
whole text when `p` has at most 219 bytes. -/
theorem not_found_response (ops : DoubleOps F) (server : HTTPServer F) (conn : Connection)
    (path : CStr) (hpath : request_path conn = some path)
    (hnone : (find_matching_route server.program path server.interpreter).1 = none) :
    ∃ handled, handle_client ops server conn = some handled ∧
      handled.response = some
        { status_code := 404, status_text := "Not Found".toList,
          content_type := "text/plain".toList,
          body := ("404 Not Found - Route '".toList ++ path ++ "' not defined".toList).take 255 } ∧
      (path.length ≤ 219 →
        handled.response = some
          { status_code := 404, status_text := "Not Found".toList,
            content_type := "text/plain".toList,
            body := "404 Not Found - Route '".toList ++ path ++ "' not defined".toList }) := by
  refine ⟨_, handle_client_unmatched ops server conn path
    (find_matching_route server.program path server.interpreter).2 hpath
    (by rw [← hnone]), rfl, ?_⟩
  intro hlen
  rw [List.take_of_length_le (by simp; omega)]
  rfl

/-- C17 (as amended). For every program, request path and route body: when a route matches
and the memory stream for the output opens, the response has status 200 whatever the body
does, and a body with no response statement gives content type `text/plain` and an empty
body; when a route matches and the stream cannot be opened the response is 500
`Internal Server Error`; the status is 404 exactly when no route matches. -/
theorem dispatch_status (ops : DoubleOps F) (server : HTTPServer F) (conn : Connection)
    (path : CStr) (hpath : request_path conn = some path) :
    ∃ handled response, handle_client ops server conn = some handled ∧
      handled.response = some response ∧
      (∀ route, (find_matching_route server.program path server.interpreter).1 = some route →
        conn.mem_stream_ok = true → response.status_code = 200) ∧
      (∀ route, (find_matching_route server.program path server.interpreter).1 = some route →
        conn.mem_stream_ok = true → has_response (route_body route) = false →
        response.content_type = "text/plain".toList ∧ response.body = []) ∧
      (∀ route, (find_matching_route server.program path server.interpreter).1 = some route →
        conn.mem_stream_ok = false →
        response.status_code = 500 ∧ response.body = "Internal Server Error".toList) ∧
      (response.status_code = 404 ↔
        (find_matching_route server.program path server.interpreter).1 = none) := by
  cases hf : (find_matching_route server.program path server.interpreter).1 with
  | none =>
    refine ⟨_, _, handle_client_unmatched ops server conn path
      (find_matching_route server.program path server.interpreter).2 hpath (by rw [← hf]),
      rfl, ?_, ?_, ?_, ?_⟩
    · intro route h
      exact absurd h (by simp)
    · intro route h
      exact absurd h (by simp)
    · intro route h
      exact absurd h (by simp)
    · simp [http_response_create]
  | some route =>
    have hfind : find_matching_route server.program path server.interpreter =
        (some route, (find_matching_route server.program path server.interpreter).2) := by
      rw [← hf]
    cases hmem : conn.mem_stream_ok with
    | true =>
      refine ⟨_, _, handle_client_matched ops server conn path route _ hpath hfind hmem,
        rfl, ?_, ?_, ?_, ?_⟩
      · intro _ _ _
        exact response_of_output_status _
      · intro route1 h1 _ hsilent
        obtain rfl := Option.some.inj h1
        rw [execute_statement_silent ops _ _ hsilent]
        exact ⟨rfl, rfl⟩
      · intro _ _ h
        exact absurd h (by simp)
      · rw [response_of_output_status]
        simp
    | false =>
      refine ⟨_, _, handle_client_no_stream ops server conn path route _ hpath hfind hmem,
        rfl, ?_, ?_, ?_, ?_⟩
      · intro _ _ h
        exact absurd h (by simp)
      · intro _ _ h
        exact absurd h (by simp)
      · intro _ _ _
        exact ⟨rfl, rfl⟩
      · simp [http_response_create]

/-! ### Concrete requests -/

/-- C11 at `"a" == "a"`, `1 == "1"` and `1 != "1"`. -/
theorem equality_semantics_witness :
    eval_expression wholeOps interpreter_init
        (ASTNode.binary_op "==".toList (ASTNode.string "a".toList) (ASTNode.string "a".toList)) =
      (Value.bool true, []) ∧
    ∃ b, eval_expression wholeOps interpreter_init
        (ASTNode.binary_op "==".toList (ASTNode.number 1) (ASTNode.string "1".toList)) =
      (Value.bool b, []) ∧
      eval_expression wholeOps interpreter_init
        (ASTNode.binary_op "!=".toList (ASTNode.number 1) (ASTNode.string "1".toList)) =
      (Value.bool (!b), []) :=
  ⟨(equality_semantics wholeOps interpreter_init (ASTNode.string "a".toList)
      (ASTNode.string "a".toList) (Value.string "a".toList) (Value.string "a".toList) [] []
      rfl rfl).2.1 _ _ rfl rfl,
   (equality_semantics wholeOps interpreter_init (ASTNode.number 1)
      (ASTNode.string "1".toList) (Value.number 1) (Value.string "1".toList) [] []
      rfl rfl).2.2.2⟩

/-- C15, the claim as stated fails: the route `/hello` with body `response "Content-Type:
text/html"` is selected for `GET /hello`, and the response has content type `text/html`. -/
theorem plain_response_served_as_html :
    (find_matching_route marker_program "/hello".toList interpreter_init).1 =
      some (ASTNode.route "/hello".toList
        (ASTNode.block [ASTNode.response (ASTNode.string "Content-Type: text/html".toList)
          false])) ∧
    (handle_client wholeOps (http_server_create 8080 marker_program)
        (get_request "/hello".toList)).map (fun handled => handled.response) =
      some (some { status_code := 200, status_text := "OK".toList,
                   content_type := "text/html".toList,
                   body := "Content-Type: text/html\n".toList }) :=
  ⟨by rfl, by rfl⟩

/-- C15 on scenario 1 of the spec: `GET /hello` gives 200, `text/plain`, `Hello, World!\n`. -/
theorem plain_response_end_to_end_witness :
    ∃ handled, handle_client wholeOps (http_server_create 8080 hello_program)
        (get_request "/hello".toList) = some handled ∧
      handled.response = some
        { status_code := 200, status_text := "OK".toList,
          content_type := "text/plain".toList, body := "Hello, World!\n".toList } :=
  plain_response_end_to_end wholeOps (http_server_create 8080 hello_program)
    (get_request "/hello".toList) "/hello".toList "/hello".toList "Hello, World!".toList
    interpreter_init (by rfl) (by rfl) (by rfl)
    ((strstr_eq_none_iff _ _).mp (by decide)) (by decide)

set_option maxRecDepth 8000 in
/-- C16, the claim as stated fails: for the 220-byte path no route of the script matches,
and the body of the 404 response stops after 255 bytes, one short of the whole text. -/
theorem not_found_body_truncated :
    request_path (get_request path_of_220_bytes) = some path_of_220_bytes ∧
    (find_matching_route set_get_program path_of_220_bytes interpreter_init).1 = none ∧
    (handle_client wholeOps (http_server_create 8080 set_get_program)
        (get_request path_of_220_bytes)).map (fun handled => handled.response) =
      some (some { status_code := 404, status_text := "Not Found".toList,
                   content_type := "text/plain".toList,
                   body := "404 Not Found - Route '".toList ++ path_of_220_bytes ++
                     "' not define".toList }) :=
  ⟨by rfl, by rfl, by rfl⟩

/-- C16 at `GET /nowhere` on the script of scenario 6. -/
theorem not_found_response_witness :
    ∃ handled, handle_client wholeOps (http_server_create 8080 set_get_program)
        (get_request "/nowhere".toList) = some handled ∧
      handled.response = some
        { status_code := 404, status_text := "Not Found".toList,
          content_type := "text/plain".toList,
          body := "404 Not Found - Route '/nowhere' not defined".toList } := by
  obtain ⟨handled, h1, _, h3⟩ := not_found_response wholeOps
    (http_server_create 8080 set_get_program) (get_request "/nowhere".toList)
    "/nowhere".toList (by rfl) (by rfl)
  exact ⟨handled, h1, h3 (by decide)⟩

/-- C17, the claim as stated fails: `GET /get` matches the route `/get`, and when the
memory stream cannot be opened the response has status 500. -/
theorem matched_route_answers_500 :
    pattern_matches "/get".toList "/get".toList = true ∧
    (handle_client wholeOps (http_server_create 8080 set_get_program)
        { received := "GET /get HTTP/1.1\r\n\r\n".toList, mem_stream_ok := false }).map
        (fun handled => handled.response) =
      some (some { status_code := 500, status_text := "Internal Server Error".toList,
                   content_type := "text/plain".toList,
                   body := "Internal Server Error".toList }) :=
  ⟨by rfl, by rfl⟩

/-- C17 on scenario 5 of the spec: `GET /a` on `route "/a" { y = x }` gives status 200,
`text/plain` and an empty body, with the undefined-variable diagnostic. -/
theorem dispatch_status_witness :
    ∃ handled response, handle_client wholeOps (http_server_create 8080 undefined_program)
        (get_request "/a".toList) = some handled ∧
      handled.response = some response ∧ response.status_code = 200 ∧
      response.content_type = "text/plain".toList ∧ response.body = [] ∧
      handled.diagnostics = ["Runtime error: Undefined variable 'x'\n".toList] := by
  obtain ⟨handled, response, h1, h2, h200, hsilent, _, _⟩ := dispatch_status wholeOps
    (http_server_create 8080 undefined_program) (get_request "/a".toList) "/a".toList (by rfl)
  have hd : (handle_client wholeOps (http_server_create 8080 undefined_program)
      (get_request "/a".toList)).map (fun h => h.diagnostics) =
      some ["Runtime error: Undefined variable 'x'\n".toList] := by rfl
  rw [h1] at hd
  exact ⟨handled, response, h1, h2, h200 _ (by rfl) (by rfl),
    (hsilent _ (by rfl) (by rfl) (by rfl)).1, (hsilent _ (by rfl) (by rfl) (by rfl)).2,
    Option.some.inj hd⟩

/-! ### Response framing -/

theorem http_response_to_string_eq (code : Int) (content_type body : CStr) :
    http_response_to_string (http_response_create code content_type body) =
      (framed_head code content_type body ++ body).take (511 + body.length) := by
  simp [http_response_to_string, http_response_create, framed_head, status_reason,
    List.append_assoc]

/-- C18 (as amended). Response framing. For every status code `c`, content type `ct` and
body `b`, `http_response_to_string(http_response_create(c, ct, b))` is the first
`511 + len(b)` bytes of `HTTP/1.1 <c> <reason(c)>\r\nContent-Type: <ct>\r\nContent-Length:
<len(b)>\r\nConnection: close\r\n\r\n<b>`, and is that whole text whenever the part before
`b` has at most 511 bytes; `reason` maps 200 to OK, 404 to Not Found, 500 to Internal
Server Error and every other code to Unknown. -/
theorem response_framing (code : Int) (content_type body : CStr) :
    http_response_to_string (http_response_create code content_type body) =
      (framed_head code content_type body ++ body).take (511 + body.length) ∧
    ((framed_head code content_type body).length ≤ 511 →
      http_response_to_string (http_response_create code content_type body) =
        framed_head code content_type body ++ body) ∧
    status_reason 200 = "OK".toList ∧ status_reason 404 = "Not Found".toList ∧
    status_reason 500 = "Internal Server Error".toList ∧
    (code ≠ 200 → code ≠ 404 → code ≠ 500 → status_reason code = "Unknown".toList) := by
  refine ⟨http_response_to_string_eq code content_type body, ?_, rfl, rfl, rfl, ?_⟩
  · intro h
    rw [http_response_to_string_eq, List.take_of_length_le (by simp; omega)]
  · intro h1 h2 h3
    simp [status_reason, h1, h2, h3]

/-- C18 on the response of scenario 1. -/
theorem response_framing_witness :
    http_response_to_string
        (http_response_create 200 "text/plain".toList "Hello, World!\n".toList) =
      "HTTP/1.1 200 OK\r\nContent-Type: text/plain\r\nContent-Length: 14\r\nConnection: close\r\n\r\nHello, World!\n".toList :=
  (response_framing 200 "text/plain".toList "Hello, World!\n".toList).2.1 (by decide)

set_option maxRecDepth 8000 in
/-- C18, the claim as stated fails: with a content type of 500 bytes and an empty body the
result has 511 bytes, and the text of the claim has 573. -/
theorem response_framing_truncated :
    (http_response_to_string
      (http_response_create 200 (List.replicate 500 'a') [])).length = 511 ∧
    (framed_head 200 (List.replicate 500 'a') [] ++ []).length = 573 ∧
    http_response_to_string (http_response_create 200 (List.replicate 500 'a') []) ≠
      framed_head 200 (List.replicate 500 'a') [] ++ [] := by
  refine ⟨by decide, by decide, fun h => ?_⟩
  have h1 := congrArg List.length h
  revert h1
  decide

/-! ### The request line -/

theorem takeWhile_run {α : Type} (q : α → Bool) (w rest : List α)
    (hw : ∀ c ∈ w, q c = true) (hrest : ∀ c cs, rest = c :: cs → q c = false) :
    (w ++ rest).takeWhile q = w ∧ (w ++ rest).dropWhile q = rest := by
  induction w with
  | nil =>
    cases rest with
    | nil => simp
    | cons c cs => simp [hrest c cs rfl]
  | cons a as ih =>
    have ha : q a = true := hw a (List.mem_cons_self _ _)
    have := ih (fun c hc => hw c (List.mem_cons_of_mem _ hc))
    simp [ha, this.1, this.2]

theorem dropWhile_of_head {α : Type} (q : α → Bool) (a : α) (as : List α) (h : q a = false) :
    (a :: as).dropWhile q = a :: as := by
  simp [h]

theorem scan_word_token (width : Nat) (w rest : CStr) (hw : is_token w)
    (hlen : w.length ≤ width) (hrest : ∀ c cs, rest = c :: cs → isspace c = true) :
    scan_word width (w ++ rest) = some (w, rest) := by
  obtain ⟨hne, hns⟩ := hw
  cases w with
  | nil => exact absurd rfl hne
  | cons a as =>
    have ha : isspace a = false := hns a (List.mem_cons_self _ _)
    have hrun := takeWhile_run (fun c => !isspace c) (a :: as) rest
      (fun c hc => by simp [hns c hc]) (fun c cs h => by simp [hrest c cs h])
    have hdrop : ((a :: as) ++ rest).dropWhile isspace = (a :: as) ++ rest := by
      rw [List.cons_append]
      exact dropWhile_of_head isspace a _ ha
    simp only [scan_word, hdrop, hrun.1]
    rw [List.take_of_length_le hlen, if_neg (by simp)]
    simp

theorem scan_word_space (width : Nat) (s : CStr) :
    scan_word width (' ' :: s) = scan_word width s := by
  have h : (' ' :: s).dropWhile isspace = s.dropWhile isspace :=
    List.dropWhile_cons_of_pos (by decide)
  simp only [scan_word, h]

theorem scan_word_nil (width : Nat) : scan_word width [] = none := by
  simp [scan_word]

theorem strtok_first_line (line tail : CStr) (hne : line ≠ [])
    (hline : ∀ c ∈ line, c ≠ '\r' ∧ c ≠ '\n') (htail : ends_line tail) :
    ∃ rest, strtok ['\r', '\n'] (line ++ tail) = some (line, rest) := by
  cases line with
  | nil => exact absurd rfl hne
  | cons a as =>
    have ha := hline a (List.mem_cons_self _ _)
    have hdrop : ((a :: as) ++ tail).dropWhile (fun c => decide (c ∈ ['\r', '\n'])) =
        a :: (as ++ tail) := by
      rw [List.cons_append]
      exact dropWhile_of_head _ a _ (by simp [ha.1, ha.2])
    have hrun := takeWhile_run (fun d => !decide (d ∈ ['\r', '\n'])) (a :: as) tail
      (fun c hc => by simp [(hline c hc).1, (hline c hc).2])
      (fun c cs h => by
        rcases htail with h0 | ⟨rest, h1 | h1⟩
        · rw [h0] at h
          exact absurd h (by simp)
        · rw [h1] at h
          obtain ⟨rfl, _⟩ := List.cons.inj h
          simp
        · rw [h1] at h
          obtain ⟨rfl, _⟩ := List.cons.inj h
          simp)
    rw [List.cons_append] at hrun
    refine ⟨tail.drop 1, ?_⟩
    rw [strtok, hdrop]
    simp only [hrun.1, hrun.2]

theorem token_no_line_break (w : CStr) (hw : is_token w) : ∀ c ∈ w, c ≠ '\r' ∧ c ≠ '\n' := by
  intro c hc
  have := hw.2 c hc
  constructor <;> intro h <;> subst h <;> simp [isspace] at this

theorem http_request_parse_line (line tail : CStr) (hne : line ≠ [])
    (hline : ∀ c ∈ line, c ≠ '\r' ∧ c ≠ '\n') (htail : ends_line tail) :
    http_request_parse (line ++ tail) =
      match scan_request_line line with
      | some (method, path, version) =>
        { method := some method, path := some path, version := some version,
          headers := some [], body := some [] }
      | none => default_request := by
  obtain ⟨rest, h⟩ := strtok_first_line line tail hne hline htail
  rw [http_request_parse, h]
  rfl

theorem http_request_parse_defined (raw : CStr) (h : ∃ c ∈ raw, c ≠ '\r' ∧ c ≠ '\n') :
    ∃ m p v, (http_request_parse raw).method = some m ∧
      (http_request_parse raw).path = some p ∧ (http_request_parse raw).version = some v := by
  have hdrop : raw.dropWhile (fun c => decide (c ∈ ['\r', '\n'])) ≠ [] := by
    intro hnil
    obtain ⟨c, hc, h1, h2⟩ := h
    have := List.dropWhile_eq_nil_iff.mp hnil c hc
    simp [h1, h2] at this
  cases hd : raw.dropWhile (fun c => decide (c ∈ ['\r', '\n'])) with
  | nil => exact absurd hd hdrop
  | cons a as =>
    simp only [http_request_parse, strtok, hd]
    split
    · exact ⟨_, _, _, rfl, rfl, rfl⟩
    · exact ⟨_, _, _, rfl, rfl, rfl⟩

theorem space_rest (s c : Char) (cs rest : CStr) (hs : isspace s = true)
    (h : s :: rest = c :: cs) : isspace c = true := by
  obtain ⟨rfl, _⟩ := List.cons.inj h
  exact hs

theorem scan_three_tokens (m p v : CStr) (hm : is_token m) (hp : is_token p) (hv : is_token v)
    (hml : m.length ≤ 15) (hpl : p.length ≤ 255) (hvl : v.length ≤ 15) :
    scan_request_line (m ++ ' ' :: (p ++ ' ' :: v)) = some (m, p, v) := by
  have h1 := scan_word_token 15 m (' ' :: (p ++ ' ' :: v)) hm hml
    (fun c cs h => space_rest ' ' c cs _ (by decide) h)
  have h2 := scan_word_token 255 p (' ' :: v) hp hpl
    (fun c cs h => space_rest ' ' c cs _ (by decide) h)
  have h3 := scan_word_token 15 v [] hv hvl (fun c cs h => absurd h (by simp))
  rw [List.append_nil] at h3
  simp only [scan_request_line, h1, scan_word_space, h2, h3]

theorem scan_one_token (m : CStr) (hm : is_token m) (hml : m.length ≤ 15) :
    scan_request_line m = none := by
  have h1 := scan_word_token 15 m [] hm hml (fun c cs h => absurd h (by simp))
  rw [List.append_nil] at h1
  simp only [scan_request_line, h1, scan_word_nil]

theorem scan_two_tokens (m p : CStr) (hm : is_token m) (hp : is_token p)
    (hml : m.length ≤ 15) (hpl : p.length ≤ 255) :
    scan_request_line (m ++ ' ' :: p) = none := by
  have h1 := scan_word_token 15 m (' ' :: p) hm hml
    (fun c cs h => space_rest ' ' c cs _ (by decide) h)
  have h2 := scan_word_token 255 p [] hp hpl (fun c cs h => absurd h (by simp))
  rw [List.append_nil] at h2
  simp only [scan_request_line, h1, scan_word_space, h2, scan_word_nil]

theorem no_line_break_join (a b : CStr) (ha : ∀ c ∈ a, c ≠ '\r' ∧ c ≠ '\n')
    (hb : ∀ c ∈ b, c ≠ '\r' ∧ c ≠ '\n') : ∀ c ∈ a ++ ' ' :: b, c ≠ '\r' ∧ c ≠ '\n' := by
  intro c hc
  rcases List.mem_append.mp hc with h | h
  · exact ha c h
  · rcases List.mem_cons.mp h with h | h
    · subst h
      exact ⟨by decide, by decide⟩
    · exact hb c h

/-- C19 (as amended). Request-line parsing. For every raw request text that has a first
line (some byte other than CR and LF), `http_request_parse` returns a request whose
method, path and version are all defined. When the text starts with a line of the form
METHOD SP PATH SP VERSION, three non-empty tokens without white space of at most 15, 255
and 15 bytes, they are exactly those three tokens; when it starts with a line of only one
or two such tokens they are GET, / and HTTP/1.1. -/
theorem request_line_parsing (raw : CStr) :
    ((∃ c ∈ raw, c ≠ '\r' ∧ c ≠ '\n') →
      ∃ m p v, (http_request_parse raw).method = some m ∧
        (http_request_parse raw).path = some p ∧ (http_request_parse raw).version = some v) ∧
    (∀ m p v tail, is_token m → is_token p → is_token v →
      m.length ≤ 15 → p.length ≤ 255 → v.length ≤ 15 → ends_line tail →
      raw = (m ++ ' ' :: (p ++ ' ' :: v)) ++ tail →
      http_request_parse raw =
        { method := some m, path := some p, version := some v,
          headers := some [], body := some [] }) ∧
    (∀ m tail, is_token m → m.length ≤ 15 → ends_line tail → raw = m ++ tail →
      http_request_parse raw = default_request) ∧
    (∀ m p tail, is_token m → is_token p → m.length ≤ 15 → p.length ≤ 255 →
      ends_line tail → raw = (m ++ ' ' :: p) ++ tail →
      http_request_parse raw = default_request) := by
  refine ⟨http_request_parse_defined raw, ?_, ?_, ?_⟩
  · intro m p v tail hm hp hv hml hpl hvl htail hraw
    subst hraw
    have hline : ∀ c ∈ m ++ ' ' :: (p ++ ' ' :: v), c ≠ '\r' ∧ c ≠ '\n' :=
      no_line_break_join m _ (token_no_line_break m hm)
        (no_line_break_join p v (token_no_line_break p hp) (token_no_line_break v hv))
    rw [http_request_parse_line _ tail (by simp) hline htail,
      scan_three_tokens m p v hm hp hv hml hpl hvl]
  · intro m tail hm hml htail hraw
    subst hraw
    rw [http_request_parse_line m tail hm.1 (token_no_line_break m hm) htail,
      scan_one_token m hm hml]
  · intro m p tail hm hp hml hpl htail hraw
    subst hraw
    have hline : ∀ c ∈ m ++ ' ' :: p, c ≠ '\r' ∧ c ≠ '\n' :=
      no_line_break_join m p (token_no_line_break m hm) (token_no_line_break p hp)
    rw [http_request_parse_line _ tail (by simp) hline htail, scan_two_tokens m p hm hp hml hpl]

/-- C19 at `GET /user/42 HTTP/1.1` followed by CR LF, and at the one-token line `PING`. -/
theorem request_line_parsing_witness :
    http_request_parse "GET /user/42 HTTP/1.1\r\nHost: x\r\n\r\n".toList =
      { method := some "GET".toList, path := some "/user/42".toList,
        version := some "HTTP/1.1".toList, headers := some [], body := some [] } ∧
    http_request_parse "PING\r\n".toList = default_request :=
  ⟨(request_line_parsing "GET /user/42 HTTP/1.1\r\nHost: x\r\n\r\n".toList).2.1
      "GET".toList "/user/42".toList "HTTP/1.1".toList "\r\nHost: x\r\n\r\n".toList
      ⟨by decide, by decide⟩ ⟨by decide, by decide⟩ ⟨by decide, by decide⟩
      (by decide) (by decide) (by decide) (Or.inr ⟨_, Or.inl rfl⟩) rfl,
   (request_line_parsing "PING\r\n".toList).2.2.1 "PING".toList "\r\n".toList
      ⟨by decide, by decide⟩ (by decide) (Or.inr ⟨_, Or.inl rfl⟩) rfl⟩

/-- C19, the claim as stated fails: the line `ABCDEFGHIJKLMNOP /x HTTP/1.1` has three
tokens, and the parsed method, path and version are `ABCDEFGHIJKLMNO`, `P` and `/x`. -/
theorem request_line_long_method :
    http_request_parse "ABCDEFGHIJKLMNOP /x HTTP/1.1\r\n\r\n".toList =
      { method := some "ABCDEFGHIJKLMNO".toList, path := some "P".toList,
        version := some "/x".toList, headers := some [], body := some [] } := by
  decide

/-- A request text that is only CR LF has no line: `http_request_parse` assigns no field. -/
theorem request_without_line :
    http_request_parse "\r\n".toList =
      { method := none, path := none, version := none, headers := none, body := none } := by
  decide

/-! ### The scanner makes progress -/

theorem position_lt_of_current (lexer : Lexer) (hwf : well_formed lexer)
    (hc : lexer.current_char ≠ '\x00') : lexer.position < lexer.source.length := by
  by_contra hge
  apply hc
  rw [hwf.2]
  simp [List.getD, List.getElem?_eq_none (Nat.le_of_not_lt hge)]

theorem advance_well_formed (lexer : Lexer) (hwf : well_formed lexer)
    (hc : lexer.current_char ≠ '\x00') : well_formed lexer.advance := by
  have hlt := position_lt_of_current lexer hwf hc
  refine ⟨hlt, ?_⟩
  simp only [Lexer.advance]
  by_cases h : lexer.position + 1 < lexer.source.length
  · rw [if_pos h]
  · rw [if_neg h]
    simp [List.getD, List.getElem?_eq_none (Nat.le_of_not_lt h)]

theorem lexer_init_well_formed (source : CStr) : well_formed (lexer_init source) :=
  ⟨Nat.zero_le _, rfl⟩

/-- What every loop of the scanner guarantees when it starts on a well-formed lexer with
enough steps: it does not run out of steps; a fatal error is the one of its limit; and
when it returns, the lexer is well formed, over the same source, not behind where it
started, strictly ahead when the first test succeeded, and the test now fails. -/
theorem scan_loop_spec (test : Char → Bool) (limit : Option (Nat × ScanError)) :
    ∀ (steps : Nat) (lexer : Lexer) (buffer : CStr), well_formed lexer →
      lexer.source.length - lexer.position < steps →
      scan_loop test limit steps lexer buffer ≠ Scan.out_of_steps ∧
      (limit = none → ∀ e, scan_loop test limit steps lexer buffer ≠ Scan.fatal e) ∧
      ∀ r, scan_loop test limit steps lexer buffer = Scan.ok r →
        well_formed r.1 ∧ r.1.source = lexer.source ∧ lexer.position ≤ r.1.position ∧
        ((lexer.current_char ≠ '\x00' ∧ test lexer.current_char = true) →
          lexer.position < r.1.position) ∧
        ¬(r.1.current_char ≠ '\x00' ∧ test r.1.current_char = true) := by
  intro steps
  induction steps with
  | zero =>
    intro lexer buffer _ h
    exact absurd h (Nat.not_lt_zero _)
  | succ steps ih =>
    intro lexer buffer hwf hsteps
    by_cases hcond : lexer.current_char ≠ '\x00' ∧ test lexer.current_char = true
    · have hlt := position_lt_of_current lexer hwf hcond.1
      have hadv := advance_well_formed lexer hwf hcond.1
      have hnext : lexer.advance.source.length - lexer.advance.position < steps := by
        simp only [Lexer.advance]
        omega
      have hrec := ih lexer.advance (buffer ++ [lexer.current_char]) hadv hnext
      have hstep : ∀ r, scan_loop test limit steps lexer.advance
          (buffer ++ [lexer.current_char]) = Scan.ok r →
          well_formed r.1 ∧ r.1.source = lexer.source ∧ lexer.position ≤ r.1.position ∧
          ((lexer.current_char ≠ '\x00' ∧ test lexer.current_char = true) →
            lexer.position < r.1.position) ∧
          ¬(r.1.current_char ≠ '\x00' ∧ test r.1.current_char = true) := by
        intro r hr
        obtain ⟨h1, h2, h3, _, h5⟩ := hrec.2.2 r hr
        have hpos : lexer.advance.position = lexer.position + 1 := rfl
        have hsrc : lexer.advance.source = lexer.source := rfl
        exact ⟨h1, h2.trans hsrc, by omega, fun _ => by omega, h5⟩
      cases limit with
      | none =>
        simp only [scan_loop, if_pos hcond]
        exact ⟨hrec.1, fun _ => hrec.2.1 rfl, hstep⟩
      | some bound =>
        obtain ⟨size, error⟩ := bound
        by_cases hfull : buffer.length ≥ size
        · simp only [scan_loop, if_pos hcond, if_pos hfull]
          exact ⟨by simp, fun h => by simp at h, fun r hr => by simp at hr⟩
        · simp only [scan_loop, if_pos hcond, if_neg hfull]
          exact ⟨hrec.1, fun h => by simp at h, hstep⟩
    · simp only [scan_loop, if_neg hcond]
      refine ⟨by simp, fun _ e => by simp, ?_⟩
      intro r hr
      obtain rfl := Scan.ok.inj hr
      exact ⟨hwf, rfl, Nat.le_refl _, fun h => absurd h hcond, hcond⟩

theorem scan_loop_result (test : Char → Bool) (limit : Option (Nat × ScanError))
    (lexer : Lexer) (hwf : well_formed lexer) :
    (∃ r, scan_loop test limit (steps_left lexer) lexer [] = Scan.ok r ∧
      well_formed r.1 ∧ r.1.source = lexer.source ∧ lexer.position ≤ r.1.position ∧
      ((lexer.current_char ≠ '\x00' ∧ test lexer.current_char = true) →
        lexer.position < r.1.position)) ∨
    (∃ e, scan_loop test limit (steps_left lexer) lexer [] = Scan.fatal e ∧ limit ≠ none) := by
  obtain ⟨h1, h2, h3⟩ := scan_loop_spec test limit (steps_left lexer) lexer [] hwf
    (Nat.lt_succ_self _)
  cases hr : scan_loop test limit (steps_left lexer) lexer [] with
  | ok r =>
    obtain ⟨a, b, c, d, _⟩ := h3 r hr
    exact Or.inl ⟨r, rfl, a, b, c, d⟩
  | fatal e =>
    refine Or.inr ⟨e, rfl, fun hnone => h2 hnone e hr⟩
  | out_of_steps => exact absurd hr h1

theorem skip_whitespace_spec (lexer : Lexer) (hwf : well_formed lexer)
    (hc : lexer.current_char ≠ '\x00') (hs : isspace lexer.current_char = true) :
    ∃ l1, skip_whitespace lexer = Scan.ok l1 ∧ well_formed l1 ∧ l1.source = lexer.source ∧
      lexer.position < l1.position := by
  rcases scan_loop_result isspace none lexer hwf with ⟨r, hr, a, b, _, d⟩ | ⟨e, _, he⟩
  · exact ⟨r.1, by unfold skip_whitespace; rw [hr]; rfl, a, b, d ⟨hc, hs⟩⟩
  · exact absurd rfl he

theorem skip_comment_spec (lexer : Lexer) (hwf : well_formed lexer)
    (hs : at_comment lexer = true) :
    ∃ l1, skip_comment lexer = Scan.ok l1 ∧ well_formed l1 ∧ l1.source = lexer.source ∧
      lexer.position < l1.position := by
  have hslash : lexer.current_char = '/' := by
    simp only [at_comment, Bool.and_eq_true, decide_eq_true_eq] at hs
    exact hs.1.1
  rcases scan_loop_result (fun c => c ≠ '\n') none lexer hwf with ⟨r, hr, a, b, _, d⟩ | ⟨e, _, he⟩
  · refine ⟨r.1, by unfold skip_comment; rw [if_pos hs, hr]; rfl, a, b, d ?_⟩
    rw [hslash]
    exact ⟨by decide, by decide⟩
  · exact absurd rfl he

theorem read_string_spec (lexer : Lexer) (hwf : well_formed lexer)
    (hc : lexer.current_char ≠ '\x00') :
    read_string lexer ≠ Scan.out_of_steps ∧
    ∀ token l1, read_string lexer = Scan.ok (token, l1) →
      well_formed l1 ∧ l1.source = lexer.source ∧ lexer.position < l1.position := by
  have hadv := advance_well_formed lexer hwf hc
  rcases scan_loop_result (fun c => c ≠ '"')
    (some (1023, ScanError.string_too_long lexer.line)) lexer.advance hadv with
    ⟨r, hr, a, b, c, _⟩ | ⟨e, he, _⟩
  · by_cases hq : r.1.current_char = '"'
    · have hne : r.1.current_char ≠ '\x00' := by
        rw [hq]
        decide
      simp only [read_string, hr, Scan.and_then, if_pos hq]
      refine ⟨by simp, ?_⟩
      intro token l1 h
      obtain ⟨_, rfl⟩ := Prod.mk.inj (Scan.ok.inj h)
      refine ⟨advance_well_formed r.1 a hne, b, ?_⟩
      have h1 : r.1.advance.position = r.1.position + 1 := rfl
      have h2 : lexer.advance.position = lexer.position + 1 := rfl
      omega
    · simp only [read_string, hr, Scan.and_then, if_neg hq]
      exact ⟨by simp, fun _ _ h => by simp at h⟩
  · simp only [read_string, he, Scan.and_then]
    exact ⟨by simp, fun _ _ h => by simp at h⟩

theorem read_buffered_spec (test : Char → Bool) (bound : Nat × ScanError)
    (make : CStr → Token) (lexer : Lexer) (hwf : well_formed lexer)
    (hc : lexer.current_char ≠ '\x00') (ht : test lexer.current_char = true) :
    (scan_loop test (some bound) (steps_left lexer) lexer []).and_then
        (fun r => Scan.ok (make r.2, r.1)) ≠ Scan.out_of_steps ∧
    ∀ token l1, (scan_loop test (some bound) (steps_left lexer) lexer []).and_then
        (fun r => Scan.ok (make r.2, r.1)) = Scan.ok (token, l1) →
      well_formed l1 ∧ l1.source = lexer.source ∧ lexer.position < l1.position := by
  rcases scan_loop_result test (some bound) lexer hwf with ⟨r, hr, a, b, _, d⟩ | ⟨e, he, _⟩
  · simp only [hr, Scan.and_then]
    refine ⟨by simp, ?_⟩
    intro token l1 h
    obtain ⟨_, rfl⟩ := Prod.mk.inj (Scan.ok.inj h)
    exact ⟨a, b, d ⟨hc, ht⟩⟩
  · simp only [he, Scan.and_then]
    exact ⟨by simp, fun _ _ h => by simp at h⟩

theorem ite_type_ne_eof (p : Prop) [Decidable p] (a b : TokenType × Option CStr)
    (ha : a.1 ≠ TokenType.TOKEN_EOF) (hb : b.1 ≠ TokenType.TOKEN_EOF) :
    (if p then a else b).1 ≠ TokenType.TOKEN_EOF := by
  split <;> assumption

theorem single_char_type_ne_eof (c : Char) :
    (single_char_type c).1 ≠ TokenType.TOKEN_EOF := by
  unfold single_char_type
  repeat' apply ite_type_ne_eof
  all_goals decide

theorem operator_token_spec (lexer : Lexer) (hwf : well_formed lexer)
    (hc : lexer.current_char ≠ '\x00') :
    well_formed (operator_token lexer).2 ∧ (operator_token lexer).2.source = lexer.source ∧
      lexer.position < (operator_token lexer).2.position ∧
      (operator_token lexer).1.type ≠ TokenType.TOKEN_EOF := by
  have hadv := advance_well_formed lexer hwf hc
  have hpos : lexer.advance.position = lexer.position + 1 := rfl
  have htwo : ∀ c : Char, c ≠ '\x00' → lexer.advance.current_char = c →
      well_formed lexer.advance.advance ∧ lexer.advance.advance.source = lexer.source ∧
        lexer.position < lexer.advance.advance.position := by
    intro c hne h
    refine ⟨advance_well_formed _ hadv (by rw [h]; exact hne), rfl, ?_⟩
    have : lexer.advance.advance.position = lexer.advance.position + 1 := rfl
    omega
  have hone : well_formed lexer.advance ∧ lexer.advance.source = lexer.source ∧
      lexer.position < lexer.advance.position := ⟨hadv, rfl, by omega⟩
  have hsingle := single_char_type_ne_eof
  unfold operator_token
  simp only []
  split
  · rename_i h
    exact ⟨(htwo '=' (by decide) h.2).1, (htwo '=' (by decide) h.2).2.1,
      (htwo '=' (by decide) h.2).2.2, by simp [token_create]⟩
  · split
    · rename_i h
      exact ⟨(htwo '=' (by decide) h.2).1, (htwo '=' (by decide) h.2).2.1,
        (htwo '=' (by decide) h.2).2.2, by simp [token_create]⟩
    · split
      · rename_i h
        exact ⟨(htwo '=' (by decide) h.2).1, (htwo '=' (by decide) h.2).2.1,
          (htwo '=' (by decide) h.2).2.2, by simp [token_create]⟩
      · split
        · rename_i h
          exact ⟨(htwo '=' (by decide) h.2).1, (htwo '=' (by decide) h.2).2.1,
            (htwo '=' (by decide) h.2).2.2, by simp [token_create]⟩
        · split
          · rename_i h
            exact ⟨(htwo '&' (by decide) h.2).1, (htwo '&' (by decide) h.2).2.1,
              (htwo '&' (by decide) h.2).2.2, by simp [token_create]⟩
          · split
            · rename_i h
              exact ⟨(htwo '|' (by decide) h.2).1, (htwo '|' (by decide) h.2).2.1,
                (htwo '|' (by decide) h.2).2.2, by simp [token_create]⟩
            · exact ⟨hone.1, hone.2.1, hone.2.2, hsingle _⟩

theorem next_token_loop_spec :
    ∀ (steps : Nat) (lexer : Lexer), well_formed lexer →
      lexer.source.length - lexer.position < steps →
      next_token_loop steps lexer ≠ Scan.out_of_steps ∧
      ∀ token l1, next_token_loop steps lexer = Scan.ok (token, l1) →
        well_formed l1 ∧ l1.source = lexer.source ∧ lexer.position ≤ l1.position ∧
        (token.type ≠ TokenType.TOKEN_EOF → lexer.position < l1.position) := by
  intro steps
  induction steps with
  | zero =>
    intro lexer _ h
    exact absurd h (Nat.not_lt_zero _)
  | succ steps ih =>
    intro lexer hwf hsteps
    have hafter : ∀ l1, well_formed l1 → l1.source = lexer.source →
        lexer.position < l1.position →
        next_token_loop steps l1 ≠ Scan.out_of_steps ∧
        ∀ token l2, next_token_loop steps l1 = Scan.ok (token, l2) →
          well_formed l2 ∧ l2.source = lexer.source ∧ lexer.position ≤ l2.position ∧
          (token.type ≠ TokenType.TOKEN_EOF → lexer.position < l2.position) := by
      intro l1 hw1 hs1 hp1
      have hle : l1.position ≤ lexer.source.length := hs1 ▸ hw1.1
      have hbound : l1.source.length - l1.position < steps := by
        rw [hs1]
        omega
      obtain ⟨h1, h2⟩ := ih l1 hw1 hbound
      refine ⟨h1, fun token l2 h => ?_⟩
      obtain ⟨a, b, c, _⟩ := h2 token l2 h
      exact ⟨a, b.trans hs1, by omega, fun _ => by omega⟩
    have hstrict : ∀ (result : Scan (Token × Lexer)),
        (result ≠ Scan.out_of_steps ∧ ∀ token l1, result = Scan.ok (token, l1) →
          well_formed l1 ∧ l1.source = lexer.source ∧ lexer.position < l1.position) →
        result ≠ Scan.out_of_steps ∧ ∀ token l1, result = Scan.ok (token, l1) →
          well_formed l1 ∧ l1.source = lexer.source ∧ lexer.position ≤ l1.position ∧
          (token.type ≠ TokenType.TOKEN_EOF → lexer.position < l1.position) := by
      intro result h
      refine ⟨h.1, fun token l1 hr => ?_⟩
      obtain ⟨a, b, c⟩ := h.2 token l1 hr
      exact ⟨a, b, Nat.le_of_lt c, fun _ => c⟩
    rw [next_token_loop]
    by_cases h0 : lexer.current_char = '\x00'
    · rw [if_pos h0]
      refine ⟨by simp, fun token l1 h => ?_⟩
      obtain ⟨rfl, rfl⟩ := Prod.mk.inj (Scan.ok.inj h)
      exact ⟨hwf, rfl, Nat.le_refl _, fun hne => absurd rfl hne⟩
    · rw [if_neg h0]
      by_cases hsp : isspace lexer.current_char = true
      · rw [if_pos hsp]
        obtain ⟨l1, hl1, hw1, hs1, hp1⟩ := skip_whitespace_spec lexer hwf h0 hsp
        rw [hl1]
        exact hafter l1 hw1 hs1 hp1
      · rw [if_neg hsp]
        by_cases hcm : at_comment lexer = true
        · rw [if_pos hcm]
          obtain ⟨l1, hl1, hw1, hs1, hp1⟩ := skip_comment_spec lexer hwf hcm
          rw [hl1]
          exact hafter l1 hw1 hs1 hp1
        · rw [if_neg hcm]
          by_cases hq : lexer.current_char = '"'
          · rw [if_pos hq]
            exact hstrict _ (read_string_spec lexer hwf h0)
          · rw [if_neg hq]
            by_cases hd : isdigit lexer.current_char = true
            · rw [if_pos hd]
              exact hstrict _ (read_buffered_spec _ _
                (fun b => token_create TokenType.TOKEN_NUMBER (some b) lexer.line lexer.column)
                lexer hwf h0 (by simp [hd]))
            · rw [if_neg hd]
              by_cases ha : (isalpha lexer.current_char || lexer.current_char = '_') = true
              · rw [if_pos ha]
                refine hstrict _ (read_buffered_spec _ _
                  (fun b => token_create (keyword_type b) (some b) lexer.line lexer.column)
                  lexer hwf h0 ?_)
                simp only [isalpha, Bool.or_eq_true, decide_eq_true_eq] at ha
                rcases ha with ha | ha
                · simp [isalnum, ha]
                · simp [ha]
              · rw [if_neg ha]
                obtain ⟨a, b, c, d⟩ := operator_token_spec lexer hwf h0
                refine ⟨by simp, fun token l1 h => ?_⟩
                obtain ⟨rfl, rfl⟩ := Prod.mk.inj (Scan.ok.inj h)
                exact ⟨a, b, Nat.le_of_lt c, fun _ => c⟩

/-- One call of `lexer_next_token` on a well-formed lexer: it does not run out of steps,
and when it returns a token the lexer is well formed, over the same source, and strictly
ahead unless the token is EOF. -/
theorem lexer_next_token_spec (lexer : Lexer) (hwf : well_formed lexer) :
    lexer_next_token lexer ≠ Scan.out_of_steps ∧
    ∀ token l1, lexer_next_token lexer = Scan.ok (token, l1) →
      well_formed l1 ∧ l1.source = lexer.source ∧ lexer.position ≤ l1.position ∧
      (token.type ≠ TokenType.TOKEN_EOF → lexer.position < l1.position) :=
  next_token_loop_spec (steps_left lexer) lexer hwf (Nat.lt_succ_self _)

theorem scan_all_spec :
    ∀ (calls : Nat) (lexer : Lexer), well_formed lexer →
      lexer.source.length - lexer.position < calls →
      (∃ before last, scan_all calls lexer = Scan.ok (before ++ [last]) ∧
        last.type = TokenType.TOKEN_EOF ∧ (∀ t ∈ before, t.type ≠ TokenType.TOKEN_EOF) ∧
        before.length ≤ lexer.source.length - lexer.position) ∨
      (∃ e, scan_all calls lexer = Scan.fatal e) := by
  intro calls
  induction calls with
  | zero =>
    intro lexer _ h
    exact absurd h (Nat.not_lt_zero _)
  | succ calls ih =>
    intro lexer hwf hcalls
    obtain ⟨h1, h2⟩ := lexer_next_token_spec lexer hwf
    rw [scan_all]
    cases hr : lexer_next_token lexer with
    | out_of_steps => exact absurd hr h1
    | fatal e => exact Or.inr ⟨e, rfl⟩
    | ok r =>
      obtain ⟨token, l1⟩ := r
      obtain ⟨hw1, hs1, hp1, hadv⟩ := h2 token l1 hr
      simp only [Scan.and_then]
      by_cases heof : token.type = TokenType.TOKEN_EOF
      · rw [if_pos heof]
        exact Or.inl ⟨[], token, rfl, heof, fun _ h => absurd h (List.not_mem_nil _),
          Nat.zero_le _⟩
      · rw [if_neg heof]
        have hlt := hadv heof
        have hle : l1.position ≤ lexer.source.length := hs1 ▸ hw1.1
        rcases ih l1 hw1 (by rw [hs1]; omega) with ⟨before, last, hb, hl, hall, hlen⟩ | ⟨e, he⟩
        · rw [hb]
          refine Or.inl ⟨token :: before, last, rfl, hl, ?_, ?_⟩
          · intro t ht
            rcases List.mem_cons.mp ht with rfl | ht
            · exact heof
            · exact hall t ht
          · rw [hs1] at hlen
            simp only [List.length_cons]
            omega
        · rw [he]
          exact Or.inr ⟨e, rfl⟩

set_option maxRecDepth 100000 in
/-- C20, the claim as stated fails: a source of 256 letters `a` has no string literal and no
unknown byte, and the first call of `lexer_next_token` ends in the fatal error
`Identifier too long`. -/
theorem long_identifier_is_fatal :
    (∀ c ∈ List.replicate 256 'a', c = 'a') ∧
    lexer_next_token (lexer_init (List.replicate 256 'a')) =
      Scan.fatal (ScanError.identifier_too_long 1) ∧
    tokenize (List.replicate 256 'a') = Scan.fatal (ScanError.identifier_too_long 1) :=
  ⟨fun _ h => List.eq_of_mem_replicate h, by rfl, by rfl⟩

/-! ### Assignment and the environment -/

/-- C29. Environment set/get. For every environment, names `n` and `m` and value `v`:
looking up `n` after `set_variable(E, n, v)` returns `v`, and for `m` different from `n`
looking up `m` after `set_variable(E, n, v)` returns what looking up `m` in `E` returns
(the bound value, or nothing). -/
theorem environment_set_get (interp : Interpreter F) (n m : CStr) (v : Value F) :
    get_variable (set_variable interp n v) n = some v ∧
    (m ≠ n → get_variable (set_variable interp n v) m = get_variable interp m) := by
  constructor
  · rw [get_set_variable, if_pos rfl]
  · intro h
    rw [get_set_variable, if_neg h]

/-- C30. Assignment. Executing `Assignment(n, e)` in an environment `E` evaluates `e` in `E`
to a value `v` and leaves an environment where `n` is bound to `v` and every other name
has the binding it had in `E`; nothing is written to the output sink, the diagnostics are
those of evaluating `e`, and a later Assignment to the same name replaces the value. -/
theorem assignment_semantics (ops : DoubleOps F) (interp : Interpreter F) (n : CStr)
    (e e2 : ASTNode F) :
    get_variable (execute_statement ops interp (ASTNode.assignment n e)).1 n =
      some (eval_expression ops interp e).1 ∧
    (∀ m, m ≠ n →
      get_variable (execute_statement ops interp (ASTNode.assignment n e)).1 m =
        get_variable interp m) ∧
    (execute_statement ops interp (ASTNode.assignment n e)).1.output = interp.output ∧
    (execute_statement ops interp (ASTNode.assignment n e)).2 = (eval_expression ops interp e).2 ∧
    get_variable (execute_statement ops
        (execute_statement ops interp (ASTNode.assignment n e)).1 (ASTNode.assignment n e2)).1 n =
      some (eval_expression ops
        (execute_statement ops interp (ASTNode.assignment n e)).1 e2).1 := by
  refine ⟨?_, ?_, ?_, ?_, ?_⟩
  · simp only [execute_statement]
    rw [get_set_variable, if_pos rfl]
  · intro m hm
    simp only [execute_statement]
    rw [get_set_variable, if_neg hm]
  · simp only [execute_statement]
    exact set_variable_output _ _ _
  · simp only [execute_statement]
  · simp only [execute_statement]
    rw [get_set_variable, if_pos rfl]

/-! ### Two-character operators -/

theorem current_of_getElem (lexer : Lexer) (hwf : well_formed lexer) (c : Char)
    (h : lexer.source[lexer.position]? = some c) : lexer.current_char = c := by
  rw [hwf.2]
  simp [List.getD, h]

theorem advance_current_of_getElem (lexer : Lexer) (c : Char)
    (h : lexer.source[lexer.position + 1]? = some c) : lexer.advance.current_char = c := by
  have hlt : lexer.position + 1 < lexer.source.length := by
    by_contra hge
    rw [List.getElem?_eq_none (Nat.le_of_not_lt hge)] at h
    exact Option.noConfusion h
  simp only [Lexer.advance, if_pos hlt]
  simp [List.getD, h]

/-- C22. Two-character operators. Whenever the cursor is at one of the character pairs
`==`, `!=`, `<=`, `>=`, `&&` or `||`, `lexer_next_token` returns the single corresponding
two-character token (EQ, NEQ, LTE, GTE, AND, OR), whose lexeme is the pair, and leaves the
cursor two characters further. -/
theorem two_character_operators (lexer : Lexer) (c1 c2 : Char) (type : TokenType)
    (hwf : well_formed lexer)
    (h1 : lexer.source[lexer.position]? = some c1)
    (h2 : lexer.source[lexer.position + 1]? = some c2)
    (hpair : (c1, c2, type) ∈
      [('=', '=', TokenType.TOKEN_EQ), ('!', '=', TokenType.TOKEN_NEQ),
       ('<', '=', TokenType.TOKEN_LTE), ('>', '=', TokenType.TOKEN_GTE),
       ('&', '&', TokenType.TOKEN_AND), ('|', '|', TokenType.TOKEN_OR)]) :
    lexer_next_token lexer =
      Scan.ok (token_create type (some [c1, c2]) lexer.line lexer.column,
        lexer.advance.advance) ∧
    lexer.advance.advance.position = lexer.position + 2 := by
  have hc1 := current_of_getElem lexer hwf c1 h1
  have hc2 := advance_current_of_getElem lexer c2 h2
  refine ⟨?_, rfl⟩
  have hsteps : steps_left lexer = (lexer.source.length - lexer.position) + 1 := rfl
  simp only [List.mem_cons, Prod.mk.injEq, List.mem_singleton, List.not_mem_nil, or_false]
    at hpair
  rw [lexer_next_token, hsteps]
  rcases hpair with h | h | h | h | h | h <;> obtain ⟨e1, e2, e3⟩ := h <;> subst e1 e2 e3 <;>
    simp [next_token_loop, at_comment, operator_token, hc1, hc2, isspace, isdigit, isalpha]

theorem two_character_operators_witness :
    lexer_next_token (lexer_init "a<=b".toList).advance =
      Scan.ok (token_create TokenType.TOKEN_LTE (some ['<', '=']) 1 1,
        (lexer_init "a<=b".toList).advance.advance.advance) ∧
    (lexer_init "a<=b".toList).advance.advance.advance.position = 1 + 2 :=
  two_character_operators (lexer_init "a<=b".toList).advance '<' '=' TokenType.TOKEN_LTE
    (by constructor <;> decide) (by decide) (by decide) (by decide)

/-! ### The scanner on the unread text -/

theorem unread_nil (lexer : Lexer) (hwf : well_formed lexer) (h : unread lexer = []) :
    lexer.current_char = '\x00' ∧ lexer.position = lexer.source.length := by
  have hle : lexer.source.length ≤ lexer.position := by
    have := congrArg List.length h
    simp only [unread, List.length_drop, List.length_nil] at this
    omega
  refine ⟨?_, Nat.le_antisymm hwf.1 hle⟩
  rw [hwf.2]
  simp [List.getD, List.getElem?_eq_none hle]

theorem unread_cons (lexer : Lexer) (hwf : well_formed lexer)
    (hnul : ∀ x ∈ lexer.source, x ≠ '\x00') (c : Char) (cs : CStr)
    (h : unread lexer = c :: cs) :
    lexer.current_char = c ∧ c ≠ '\x00' ∧ well_formed lexer.advance ∧
      lexer.advance.source = lexer.source ∧ unread lexer.advance = cs ∧
      lexer.advance.position = lexer.position + 1 := by
  have hlt : lexer.position < lexer.source.length := by
    by_contra hge
    have := congrArg List.length h
    simp only [unread, List.length_drop, List.length_cons] at this
    omega
  have hd : lexer.source.drop lexer.position =
      lexer.source[lexer.position] :: lexer.source.drop (lexer.position + 1) :=
    List.drop_eq_getElem_cons hlt
  rw [unread, hd] at h
  have hc : lexer.source[lexer.position] = c := (List.cons.inj h).1
  have hcs : lexer.source.drop (lexer.position + 1) = cs := (List.cons.inj h).2
  have hcur : lexer.current_char = c := by
    rw [hwf.2]
    simp [List.getD, List.getElem?_eq_getElem hlt, hc]
  have hne : c ≠ '\x00' := by
    rw [← hc]
    exact hnul _ (List.getElem_mem _)
  refine ⟨hcur, hne, advance_well_formed lexer hwf (hcur ▸ hne), rfl, hcs, rfl⟩

theorem unread_length (lexer : Lexer) :
    (unread lexer).length = lexer.source.length - lexer.position := by
  simp [unread]

theorem scan_loop_run (test : Char → Bool) (limit : Option (Nat × ScanError)) :
    ∀ (steps : Nat) (lexer : Lexer) (buffer : CStr), well_formed lexer →
      (∀ x ∈ lexer.source, x ≠ '\x00') → (unread lexer).length < steps →
      (∀ size e, limit = some (size, e) → (unread lexer).takeWhile test ≠ [] →
        size < buffer.length + ((unread lexer).takeWhile test).length →
        scan_loop test limit steps lexer buffer = Scan.fatal e) ∧
      ((∀ size e, limit = some (size, e) →
          buffer.length + ((unread lexer).takeWhile test).length ≤ size ∨
            (unread lexer).takeWhile test = []) →
        ∃ l1, scan_loop test limit steps lexer buffer =
            Scan.ok (l1, buffer ++ (unread lexer).takeWhile test) ∧
          well_formed l1 ∧ l1.source = lexer.source ∧
          unread l1 = (unread lexer).dropWhile test ∧
          l1.position = lexer.position + ((unread lexer).takeWhile test).length) := by
  intro steps
  induction steps with
  | zero =>
    intro lexer buffer _ _ h
    exact absurd h (Nat.not_lt_zero _)
  | succ steps ih =>
    intro lexer buffer hwf hnul hsteps
    cases hu : unread lexer with
    | nil =>
      have h0 := (unread_nil lexer hwf hu).1
      have hcond : ¬(lexer.current_char ≠ '\x00' ∧ test lexer.current_char = true) :=
        fun h => h.1 h0
      constructor
      · intro size e _ hne
        exact absurd rfl hne
      · intro _
        refine ⟨lexer, ?_, hwf, rfl, ?_, ?_⟩
        · simp only [scan_loop, if_neg hcond, List.takeWhile_nil, List.append_nil]
        · rw [hu]; rfl
        · simp
    | cons c cs =>
      obtain ⟨hcur, hne, hwfa, hsrc, hua, hpos⟩ := unread_cons lexer hwf hnul c cs hu
      rw [hu] at hsteps
      by_cases ht : test c = true
      · have hcond : lexer.current_char ≠ '\x00' ∧ test lexer.current_char = true := by
          rw [hcur]; exact ⟨hne, ht⟩
        have htw : (c :: cs).takeWhile test = c :: cs.takeWhile test := by
          rw [List.takeWhile_cons, if_pos ht]
        have hdw : (c :: cs).dropWhile test = cs.dropWhile test := by
          rw [List.dropWhile_cons, if_pos ht]
        have hnula : ∀ x ∈ lexer.advance.source, x ≠ '\x00' := hnul
        have hstepsa : (unread lexer.advance).length < steps := by
          rw [hua]; simp only [List.length_cons] at hsteps; omega
        have ih1 := ih lexer.advance (buffer ++ [c]) hwfa hnula hstepsa
        rw [hua] at ih1
        rw [htw, hdw]
        constructor
        · intro size e hl _ hsize
          simp only [scan_loop, if_pos hcond, hl]
          by_cases hb : buffer.length ≥ size
          · rw [if_pos hb]
          · rw [if_neg hb, hcur, ← hl]
            apply ih1.1 size e hl
            · intro hnil
              rw [hnil] at hsize
              simp only [List.length_cons, List.length_nil] at hsize
              omega
            · simp only [List.length_append, List.length_cons, List.length_nil] at hsize ⊢
              omega
        · intro hl
          have hok : ∀ size e, limit = some (size, e) →
              (buffer ++ [c]).length + (cs.takeWhile test).length ≤ size ∨
                cs.takeWhile test = [] := by
            intro size e hlim
            left
            rcases hl size e hlim with h | h
            · simp only [List.length_append, List.length_cons, List.length_nil] at h ⊢
              omega
            · exact absurd h (List.cons_ne_nil _ _)
          obtain ⟨l1, hr, hwf1, hs1, hu1, hp1⟩ := ih1.2 hok
          refine ⟨l1, ?_, hwf1, hs1.trans hsrc, hu1, ?_⟩
          · cases hlim : limit with
            | none =>
              simp only [scan_loop, if_pos hcond]
              rw [hcur, ← hlim, hr]
              simp
            | some bound =>
              obtain ⟨size, e⟩ := bound
              have hb : ¬ buffer.length ≥ size := by
                rcases hl size e hlim with h | h
                · simp only [List.length_cons] at h
                  omega
                · exact absurd h (List.cons_ne_nil _ _)
              simp only [scan_loop, if_pos hcond, if_neg hb]
              rw [hcur, ← hlim, hr]
              simp
          · rw [hp1, hpos]
            simp only [List.length_cons]
            omega
      · have hcond : ¬(lexer.current_char ≠ '\x00' ∧ test lexer.current_char = true) := by
          rw [hcur]; exact fun h => ht h.2
        have htw : (c :: cs).takeWhile test = [] := by
          rw [List.takeWhile_cons, if_neg ht]
        have hdw : (c :: cs).dropWhile test = c :: cs := by
          rw [List.dropWhile_cons, if_neg ht]
        rw [htw, hdw]
        constructor
        · intro size e _ hne
          exact absurd rfl hne
        · intro _
          refine ⟨lexer, ?_, hwf, rfl, hu, ?_⟩
          · simp only [scan_loop, if_neg hcond, List.append_nil]
          · simp

theorem skip_blanks_space (t : CStr) :
    skip_blanks false (t.dropWhile isspace) = skip_blanks false t := by
  induction t with
  | nil => rfl
  | cons c cs ih =>
    by_cases hc : isspace c = true
    · rw [List.dropWhile_cons_of_pos hc, ih]
      simp only [skip_blanks, if_pos hc]
    · rw [List.dropWhile_cons_of_neg hc]

theorem skip_blanks_comment (t : CStr) :
    skip_blanks false (t.dropWhile (fun c => c ≠ '\n')) = skip_blanks true t := by
  induction t with
  | nil => rfl
  | cons c cs ih =>
    by_cases hc : c = '\n'
    · have hd : (c :: cs).dropWhile (fun c => c ≠ '\n') = c :: cs := by
        rw [List.dropWhile_cons]; simp [hc]
      rw [hd]
      subst hc
      simp only [skip_blanks]
      rw [if_pos (by decide), if_pos trivial]
    · have hd : (c :: cs).dropWhile (fun c => c ≠ '\n') =
          cs.dropWhile (fun c => c ≠ '\n') := by
        rw [List.dropWhile_cons]; simp [hc]
      rw [hd, ih]
      simp only [skip_blanks, if_neg hc]

theorem dropWhile_length_le {α : Type} (p : α → Bool) (l : List α) :
    (l.dropWhile p).length ≤ l.length :=
  (List.dropWhile_sublist p).length_le

theorem at_comment_eq (lexer : Lexer) (hwf : well_formed lexer)
    (hnul : ∀ x ∈ lexer.source, x ≠ '\x00') (c : Char) (cs : CStr)
    (hu : unread lexer = c :: cs) :
    at_comment lexer = (decide (c = '/') && decide (cs.head? = some '/')) := by
  obtain ⟨hcur, hne, hwfa, hsrc, hua, hpos⟩ := unread_cons lexer hwf hnul c cs hu
  have h2 := hwfa.2
  rw [hpos, hsrc] at h2
  cases cs with
  | nil =>
    have hend := (unread_nil lexer.advance hwfa hua).2
    rw [hpos, hsrc] at hend
    have : ¬ (lexer.position + 1 < lexer.source.length) := by omega
    simp [at_comment, this]
  | cons d ds =>
    obtain ⟨hcur1, hne1, -, -, -, -⟩ := unread_cons lexer.advance hwfa hnul d ds hua
    have hlt : lexer.position + 1 < lexer.source.length := by
      have := congrArg List.length hua
      rw [unread_length, hpos, hsrc] at this
      simp only [List.length_cons] at this
      omega
    rw [hcur1] at h2
    simp only [at_comment, hcur, ← h2, hlt, decide_True, Bool.and_true, List.head?_cons,
      Option.some.injEq]

theorem steps_left_enough (lexer : Lexer) : (unread lexer).length < steps_left lexer := by
  rw [unread_length, steps_left]
  exact Nat.lt_succ_self _

theorem read_string_refines (lexer : Lexer) (hwf : well_formed lexer)
    (hnul : ∀ x ∈ lexer.source, x ≠ '\x00') (cs : CStr) (hu : unread lexer = '"' :: cs) :
    agrees lexer.source (read_string lexer) (lex_token ('"' :: cs)) := by
  obtain ⟨hcur, hne, hwfa, hsrc, hua, hpos⟩ := unread_cons lexer hwf hnul '"' cs hu
  have hrun := scan_loop_run (fun c => c ≠ '"')
    (some (1023, ScanError.string_too_long lexer.line)) (steps_left lexer.advance)
    lexer.advance [] hwfa hnul (steps_left_enough _)
  rw [hua] at hrun
  by_cases hlong : 1023 < (cs.takeWhile (fun x => x ≠ '"')).length
  · have hf := hrun.1 1023 _ rfl
      (by intro h; rw [h] at hlong; exact absurd hlong (by decide))
      (by simp only [List.length_nil]; omega)
    simp only [lex_token, if_pos, if_pos hlong]
    unfold read_string
    rw [hf]
    rfl
  · obtain ⟨l1, hr, hwf1, hs1, hu1, -⟩ := hrun.2 (by
      intro size e h
      obtain ⟨rfl, -⟩ := Prod.mk.inj (Option.some.inj h)
      left
      simp only [List.length_nil]
      omega)
    rw [List.nil_append] at hr
    have hnul1 : ∀ x ∈ l1.source, x ≠ '\x00' := by rw [hs1]; exact hnul
    cases hd : cs.dropWhile (fun x => x ≠ '"') with
    | nil =>
      rw [hd] at hu1
      have h0 := (unread_nil l1 hwf1 hu1).1
      have hq : ¬ (l1.current_char = '"') := by rw [h0]; decide
      simp only [lex_token, if_pos, if_neg hlong, hd]
      unfold read_string
      rw [hr]
      simp only [Scan.and_then, if_neg hq]
      rfl
    | cons d rest =>
      have hdq : d = '"' := by
        have := dropWhile_head_false _ _ _ _ hd
        simpa using this
      subst hdq
      rw [hd] at hu1
      obtain ⟨hcur1, -, hwf2, hs2, hu2, -⟩ := unread_cons l1 hwf1 hnul1 '"' rest hu1
      simp only [lex_token, if_pos, if_neg hlong, hd]
      unfold read_string
      rw [hr]
      simp only [Scan.and_then, if_pos hcur1]
      exact ⟨rfl, rfl, hwf2, hs2.trans (hs1.trans hsrc), hu2⟩

theorem read_buffered_refines (test : Char → Bool) (error : ScanError) (lexer : Lexer)
    (hwf : well_formed lexer) (hnul : ∀ x ∈ lexer.source, x ≠ '\x00') :
    (255 < ((unread lexer).takeWhile test).length →
      scan_loop test (some (255, error)) (steps_left lexer) lexer [] = Scan.fatal error) ∧
    (¬ 255 < ((unread lexer).takeWhile test).length →
      ∃ l1, scan_loop test (some (255, error)) (steps_left lexer) lexer [] =
          Scan.ok (l1, (unread lexer).takeWhile test) ∧
        well_formed l1 ∧ l1.source = lexer.source ∧
        unread l1 = (unread lexer).dropWhile test) := by
  have hrun := scan_loop_run test (some (255, error)) (steps_left lexer) lexer [] hwf hnul
    (steps_left_enough _)
  constructor
  · intro hlong
    exact hrun.1 255 _ rfl
      (by intro h; rw [h] at hlong; exact absurd hlong (by decide))
      (by simp only [List.length_nil]; omega)
  · intro hlong
    obtain ⟨l1, hr, hwf1, hs1, hu1, -⟩ := hrun.2 (by
      intro size e h
      obtain ⟨rfl, -⟩ := Prod.mk.inj (Option.some.inj h)
      left
      simp only [List.length_nil]
      omega)
    rw [List.nil_append] at hr
    exact ⟨l1, hr, hwf1, hs1, hu1⟩

theorem read_number_refines (lexer : Lexer) (hwf : well_formed lexer)
    (hnul : ∀ x ∈ lexer.source, x ≠ '\x00') (c : Char) (cs : CStr)
    (hu : unread lexer = c :: cs) (hq : c ≠ '"') (hdig : isdigit c = true) :
    agrees lexer.source (read_number lexer) (lex_token (c :: cs)) := by
  have hb := read_buffered_refines (fun c => isdigit c || c = '.')
    (ScanError.number_too_long lexer.line) lexer hwf hnul
  rw [hu] at hb
  by_cases hlong : 255 < ((c :: cs).takeWhile (fun x => isdigit x || x = '.')).length
  · simp only [lex_token, if_neg hq, hdig, if_pos, if_pos hlong]
    unfold read_number
    rw [hb.1 hlong]
    rfl
  · obtain ⟨l1, hr, hwf1, hs1, hu1⟩ := hb.2 hlong
    simp only [lex_token, if_neg hq, hdig, if_pos, if_neg hlong]
    unfold read_number
    rw [hr]
    exact ⟨rfl, rfl, hwf1, hs1, hu1⟩

theorem read_identifier_refines (lexer : Lexer) (hwf : well_formed lexer)
    (hnul : ∀ x ∈ lexer.source, x ≠ '\x00') (c : Char) (cs : CStr)
    (hu : unread lexer = c :: cs) (hq : c ≠ '"') (hdig : isdigit c = false)
    (hal : (isalpha c || c = '_') = true) :
    agrees lexer.source (read_identifier lexer) (lex_token (c :: cs)) := by
  have hb := read_buffered_refines (fun c => isalnum c || c = '_')
    (ScanError.identifier_too_long lexer.line) lexer hwf hnul
  rw [hu] at hb
  by_cases hlong : 255 < ((c :: cs).takeWhile (fun x => isalnum x || x = '_')).length
  · simp only [lex_token, if_neg hq, hdig, hal, if_pos, if_pos hlong]
    unfold read_identifier
    rw [hb.1 hlong]
    simp
    rfl
  · obtain ⟨l1, hr, hwf1, hs1, hu1⟩ := hb.2 hlong
    simp only [lex_token, if_neg hq, hdig, hal, if_pos, if_neg hlong]
    unfold read_identifier
    rw [hr]
    simp
    exact ⟨rfl, rfl, hwf1, hs1, hu1⟩

theorem operator_token_pair (lexer : Lexer) (c d : Char) (hc : lexer.current_char = c)
    (hd : lexer.advance.current_char = d) :
    operator_token lexer =
      match two_char_type c d with
      | some type =>
        (token_create type (some [c, d]) lexer.line lexer.column, lexer.advance.advance)
      | none =>
        (token_create (single_char_type c).1 (single_char_type c).2 lexer.line lexer.column,
          lexer.advance) := by
  subst hc hd
  unfold operator_token two_char_type
  by_cases h1 : lexer.current_char = '=' ∧ lexer.advance.current_char = '='
  · simp only [if_pos h1]; rw [h1.1, h1.2]; rfl
  rw [if_neg h1, if_neg h1]
  by_cases h2 : lexer.current_char = '!' ∧ lexer.advance.current_char = '='
  · simp only [if_pos h2]; rw [h2.1, h2.2]; rfl
  rw [if_neg h2, if_neg h2]
  by_cases h3 : lexer.current_char = '<' ∧ lexer.advance.current_char = '='
  · simp only [if_pos h3]; rw [h3.1, h3.2]; rfl
  rw [if_neg h3, if_neg h3]
  by_cases h4 : lexer.current_char = '>' ∧ lexer.advance.current_char = '='
  · simp only [if_pos h4]; rw [h4.1, h4.2]; rfl
  rw [if_neg h4, if_neg h4]
  by_cases h5 : lexer.current_char = '&' ∧ lexer.advance.current_char = '&'
  · simp only [if_pos h5]; rw [h5.1, h5.2]; rfl
  rw [if_neg h5, if_neg h5]
  by_cases h6 : lexer.current_char = '|' ∧ lexer.advance.current_char = '|'
  · simp only [if_pos h6]; rw [h6.1, h6.2]; rfl
  rw [if_neg h6, if_neg h6]

theorem two_char_type_nul (c : Char) : two_char_type c '\x00' = none := by
  unfold two_char_type
  simp

theorem operator_token_refines (lexer : Lexer) (hwf : well_formed lexer)
    (hnul : ∀ x ∈ lexer.source, x ≠ '\x00') (c : Char) (cs : CStr)
    (hu : unread lexer = c :: cs) (hq : c ≠ '"') (hdig : isdigit c = false)
    (hal : (isalpha c || c = '_') = false) :
    agrees lexer.source (Scan.ok (operator_token lexer)) (lex_token (c :: cs)) := by
  obtain ⟨hcur, hne, hwfa, hsrc, hua, hpos⟩ := unread_cons lexer hwf hnul c cs hu
  cases cs with
  | nil =>
    have h0 := (unread_nil lexer.advance hwfa hua).1
    rw [operator_token_pair lexer c '\x00' hcur h0, two_char_type_nul]
    simp only [lex_token, if_neg hq, hdig, hal]
    exact ⟨rfl, rfl, hwfa, hsrc, hua⟩
  | cons d ds =>
    obtain ⟨hcur1, -, hwf2, hs2, hu2, -⟩ := unread_cons lexer.advance hwfa hnul d ds hua
    rw [operator_token_pair lexer c d hcur hcur1]
    simp only [lex_token, if_neg hq, hdig, hal]
    cases h2 : two_char_type c d with
    | none => exact ⟨rfl, rfl, hwfa, hsrc, hua⟩
    | some type => exact ⟨rfl, rfl, hwf2, hs2.trans hsrc, hu2⟩

theorem skip_blanks_token (c : Char) (cs : CStr) (hsp : isspace c = false)
    (hcom : (decide (c = '/') && decide (cs.head? = some '/')) = false) :
    skip_blanks false (c :: cs) = c :: cs := by
  have h : ¬ (c = '/' ∧ cs.head? = some '/') := by
    intro h
    simp [h.1, h.2] at hcom
  simp only [skip_blanks, hsp, if_neg h]
  simp

theorem next_token_loop_refines :
    ∀ (steps : Nat) (lexer : Lexer), well_formed lexer →
      (∀ x ∈ lexer.source, x ≠ '\x00') → (unread lexer).length < steps →
      agrees lexer.source (next_token_loop steps lexer) (lex_step (unread lexer)) := by
  intro steps
  induction steps with
  | zero =>
    intro lexer _ _ h
    exact absurd h (Nat.not_lt_zero _)
  | succ steps ih =>
    intro lexer hwf hnul hsteps
    cases hu : unread lexer with
    | nil =>
      have h0 := (unread_nil lexer hwf hu).1
      simp only [next_token_loop, if_pos h0]
      exact ⟨rfl, rfl, hwf, rfl, hu⟩
    | cons c cs =>
      obtain ⟨hcur, hne, hwfa, hsrc, hua, hpos⟩ := unread_cons lexer hwf hnul c cs hu
      have hne0 : ¬ lexer.current_char = '\x00' := by rw [hcur]; exact hne
      rw [hu] at hsteps
      simp only [List.length_cons] at hsteps
      by_cases hsp : isspace c = true
      · have hrun := scan_loop_run isspace none (steps_left lexer) lexer [] hwf hnul
          (steps_left_enough _)
        obtain ⟨l1, hr, hwf1, hs1, hu1, -⟩ := hrun.2 (fun _ _ h => Option.noConfusion h)
        have hsk : skip_whitespace lexer = Scan.ok l1 := by
          unfold skip_whitespace; rw [hr]; rfl
        rw [hu, List.dropWhile_cons_of_pos hsp] at hu1
        have hlen : (unread l1).length < steps := by
          rw [hu1]
          have := dropWhile_length_le isspace cs
          omega
        have h1 := ih l1 hwf1 (by rw [hs1]; exact hnul) hlen
        rw [hs1, hu1] at h1
        simp only [next_token_loop, if_neg hne0, hcur, if_neg hne, Bool.false_eq_true,
          if_false, hsp, if_pos, hsk, Scan.and_then]
        have hst : lex_step (c :: cs) = lex_step (cs.dropWhile isspace) := by
          unfold lex_step
          rw [skip_blanks_space, skip_blanks, if_pos hsp]
        rw [hst]
        exact h1
      · have hsp0 : isspace c = false := by simpa using hsp
        have hac := at_comment_eq lexer hwf hnul c cs hu
        by_cases hcom : (decide (c = '/') && decide (cs.head? = some '/')) = true
        · rw [hcom] at hac
          have hrun := scan_loop_run (fun c => c ≠ '\n') none (steps_left lexer) lexer []
            hwf hnul (steps_left_enough _)
          obtain ⟨l1, hr, hwf1, hs1, hu1, -⟩ := hrun.2 (fun _ _ h => Option.noConfusion h)
          have hsk : skip_comment lexer = Scan.ok l1 := by
            unfold skip_comment; rw [if_pos hac, hr]; rfl
          have hc : c = '/' := by
            simp only [Bool.and_eq_true, decide_eq_true_eq] at hcom
            exact hcom.1
          have hh : cs.head? = some '/' := by
            simp only [Bool.and_eq_true, decide_eq_true_eq] at hcom
            exact hcom.2
          have hd : (c :: cs).dropWhile (fun c => c ≠ '\n') =
              cs.dropWhile (fun c => c ≠ '\n') := by
            rw [List.dropWhile_cons]; simp [hc]
          rw [hu, hd] at hu1
          have hlen : (unread l1).length < steps := by
            rw [hu1]
            have := dropWhile_length_le (fun c => decide (c ≠ '\n')) cs
            omega
          have h1 := ih l1 hwf1 (by rw [hs1]; exact hnul) hlen
          rw [hs1, hu1] at h1
          simp only [next_token_loop, if_neg hne0, hcur, if_neg hne, Bool.false_eq_true,
            if_false, hsp0, hac, if_pos, hsk, Scan.and_then]
          have hst : lex_step (c :: cs) = lex_step (cs.dropWhile (fun c => c ≠ '\n')) := by
            unfold lex_step
            rw [skip_blanks_comment, skip_blanks, if_neg (by rw [hsp0]; decide),
              if_pos ⟨hc, hh⟩]
          rw [hst]
          exact h1
        · have hcom0 : (decide (c = '/') && decide (cs.head? = some '/')) = false := by
            simpa using hcom
          rw [hcom0] at hac
          have hst : lex_step (c :: cs) = lex_token (c :: cs) := by
            unfold lex_step
            rw [skip_blanks_token c cs hsp0 hcom0]
          rw [hst]
          by_cases hq : c = '"'
          · subst hq
            simp only [next_token_loop, if_neg hne0, hcur, if_neg hne, Bool.false_eq_true,
              if_false, hsp0, hac, if_pos]
            exact read_string_refines lexer hwf hnul cs hu
          · by_cases hdig : isdigit c = true
            · simp only [next_token_loop, if_neg hne0, hcur, if_neg hne, Bool.false_eq_true,
                if_false, hsp0, hac, if_neg hq, hdig, if_pos]
              exact read_number_refines lexer hwf hnul c cs hu hq hdig
            · have hdig0 : isdigit c = false := by simpa using hdig
              by_cases hal : (isalpha c || c = '_') = true
              · simp only [next_token_loop, if_neg hne0, hcur, if_neg hne, Bool.false_eq_true,
                  if_false, hsp0, hac, if_neg hq, hdig0, hal, if_pos]
                exact read_identifier_refines lexer hwf hnul c cs hu hq hdig0 hal
              · have hal0 : (isalpha c || c = '_') = false := by simpa using hal
                simp only [next_token_loop, if_neg hne0, hcur, if_neg hne, Bool.false_eq_true,
                  if_false, hsp0, hac, if_neg hq, hdig0, hal0]
                exact operator_token_refines lexer hwf hnul c cs hu hq hdig0 hal0

theorem lexer_next_token_refines (lexer : Lexer) (hwf : well_formed lexer)
    (hnul : ∀ x ∈ lexer.source, x ≠ '\x00') :
    agrees lexer.source (lexer_next_token lexer) (lex_step (unread lexer)) :=
  next_token_loop_refines (steps_left lexer) lexer hwf hnul (steps_left_enough lexer)

/-! ### Words, keywords and string literals -/

theorem agrees_token (source : CStr) (r : Scan (Token × Lexer)) (type : TokenType)
    (value : Option CStr) (rest : CStr) (h : agrees source r (Lexed.token type value rest)) :
    ∃ token l1, r = Scan.ok (token, l1) ∧ token.type = type ∧ token.value = value ∧
      well_formed l1 ∧ l1.source = source ∧ unread l1 = rest := by
  cases r with
  | ok p => exact ⟨p.1, p.2, rfl, h⟩
  | fatal e => exact False.elim h
  | out_of_steps => exact False.elim h

theorem agrees_eof (source : CStr) (r : Scan (Token × Lexer)) (h : agrees source r Lexed.eof) :
    ∃ token l1, r = Scan.ok (token, l1) ∧ token.type = TokenType.TOKEN_EOF ∧
      token.value = none ∧ well_formed l1 ∧ l1.source = source ∧ unread l1 = [] := by
  cases r with
  | ok p => exact ⟨p.1, p.2, rfl, h⟩
  | fatal e => exact False.elim h
  | out_of_steps => exact False.elim h

theorem agrees_fatal (source : CStr) (r : Scan (Token × Lexer)) (kind : ErrorKind)
    (h : agrees source r (Lexed.fatal kind)) : ∃ e, r = Scan.fatal e ∧ e.kind = kind := by
  cases r with
  | ok p => exact False.elim h
  | fatal e => exact ⟨e, rfl, h⟩
  | out_of_steps => exact False.elim h

theorem alpha_not_digit (c : Char) (h : isalpha c = true) : isdigit c = false := by
  simp only [isalpha, isdigit, Char.isAlpha, Char.isUpper, Char.isLower, Char.isDigit,
    Bool.or_eq_true, Bool.and_eq_true, decide_eq_true_eq, Bool.and_eq_false_imp,
    decide_eq_false_iff_not, ge_iff_le, UInt32.le_def, Fin.le_def, BitVec.le_def] at *
  have h1 : (UInt32.toBitVec 65).toNat = 65 := rfl
  have h2 : (UInt32.toBitVec 90).toNat = 90 := rfl
  have h3 : (UInt32.toBitVec 97).toNat = 97 := rfl
  have h4 : (UInt32.toBitVec 122).toNat = 122 := rfl
  have h5 : (UInt32.toBitVec 48).toNat = 48 := rfl
  have h6 : (UInt32.toBitVec 57).toNat = 57 := rfl
  rw [h1, h2, h3, h4] at h
  rw [h5, h6]
  omega

theorem word_start (c : Char) (h : (isalpha c || c = '_') = true) :
    isspace c = false ∧ c ≠ '/' ∧ c ≠ '"' ∧ isdigit c = false := by
  rcases Bool.or_eq_true _ _ ▸ h with ha | hu
  · refine ⟨?_, ?_, ?_, alpha_not_digit c ha⟩
    · by_contra hs
      simp only [isspace, Bool.not_eq_false, Bool.or_eq_true, decide_eq_true_eq] at hs
      rcases hs with ((((hs | hs) | hs) | hs) | hs) | hs <;> subst hs <;>
        exact absurd ha (by decide)
    · intro hc; subst hc; exact absurd ha (by decide)
    · intro hc; subst hc; exact absurd ha (by decide)
  · have hc : c = '_' := by simpa using hu
    subst hc
    exact ⟨by decide, by decide, by decide, by decide⟩

theorem lex_step_word (c : Char) (cs rest : CStr) (hfirst : (isalpha c || c = '_') = true)
    (hword : ∀ x ∈ c :: cs, is_word_char x = true)
    (hmax : ∀ x xs, rest = x :: xs → is_word_char x = false)
    (hlen : (c :: cs).length ≤ 255) :
    lex_step (c :: cs ++ rest) =
      Lexed.token (keyword_type (c :: cs)) (some (c :: cs)) rest := by
  obtain ⟨hsp, hsl, hq, hdig⟩ := word_start c hfirst
  have htw := takeWhile_run (fun x => isalnum x || x = '_') (c :: cs) rest hword hmax
  have hlong : ¬ 255 < (c :: cs).length := by omega
  unfold lex_step
  rw [List.cons_append, skip_blanks_token c (cs ++ rest) hsp (by simp [hsl])]
  rw [← List.cons_append]
  simp only [List.cons_append] at htw
  simp only [List.cons_append, lex_token, if_neg hq, hdig, hfirst, if_pos, htw.1, htw.2,
    Bool.false_eq_true, if_false, if_neg hlong]

theorem keyword_type_keywords (w : CStr) :
    (∀ k ∈ keywords, w = k.1 → keyword_type w = k.2) ∧
    ((∀ k ∈ keywords, w ≠ k.1) → keyword_type w = TokenType.TOKEN_IDENTIFIER) ∧
    (keyword_type w = TokenType.TOKEN_IDENTIFIER → ∀ k ∈ keywords, w ≠ k.1) := by
  refine ⟨?_, ?_, ?_⟩
  · intro k hk hw
    subst hw
    simp only [keywords, List.mem_cons, List.mem_singleton, List.not_mem_nil, or_false] at hk
    rcases hk with h | h | h | h | h | h | h | h | h <;> subst h <;> rfl
  · intro h
    have h1 := h _ (by simp [keywords] : ("route".toList, TokenType.TOKEN_ROUTE) ∈ keywords)
    have h2 := h _ (by simp [keywords] :
      ("response".toList, TokenType.TOKEN_RESPONSE) ∈ keywords)
    have h3 := h _ (by simp [keywords] : ("html".toList, TokenType.TOKEN_HTML) ∈ keywords)
    have h4 := h _ (by simp [keywords] : ("if".toList, TokenType.TOKEN_IF) ∈ keywords)
    have h5 := h _ (by simp [keywords] : ("else".toList, TokenType.TOKEN_ELSE) ∈ keywords)
    have h6 := h _ (by simp [keywords] : ("while".toList, TokenType.TOKEN_WHILE) ∈ keywords)
    have h7 := h _ (by simp [keywords] : ("for".toList, TokenType.TOKEN_FOR) ∈ keywords)
    have h8 := h _ (by simp [keywords] :
      ("function".toList, TokenType.TOKEN_FUNCTION) ∈ keywords)
    have h9 := h _ (by simp [keywords] : ("return".toList, TokenType.TOKEN_RETURN) ∈ keywords)
    unfold keyword_type
    rw [if_neg h1, if_neg h2, if_neg h3, if_neg h4, if_neg h5, if_neg h6, if_neg h7, if_neg h8,
      if_neg h9]
  · intro h k hk hw
    subst hw
    simp only [keywords, List.mem_cons, List.mem_singleton, List.not_mem_nil, or_false] at hk
    rcases hk with h1 | h1 | h1 | h1 | h1 | h1 | h1 | h1 | h1 <;> subst h1 <;>
      exact absurd h (by decide)

/-- C21 (as amended). Keyword recognition. When the cursor is at the start of a maximal run `w`
of letters, digits and underscores that starts with a letter or underscore and is at most
255 bytes long, `lexer_next_token` returns a single token with lexeme `w` and leaves the
cursor behind `w`; its tag is the keyword tag if `w` is exactly one of the nine keywords
and IDENTIFIER otherwise, so an IDENTIFIER token never has a keyword as its lexeme. -/
theorem keyword_recognition (lexer : Lexer) (w rest : CStr) (hwf : well_formed lexer)
    (hnul : is_c_string lexer.source) (hu : unread lexer = w ++ rest)
    (hfirst : ∃ c cs, w = c :: cs ∧ (isalpha c || c = '_') = true)
    (hword : ∀ x ∈ w, is_word_char x = true)
    (hmax : ∀ x xs, rest = x :: xs → is_word_char x = false)
    (hlen : w.length ≤ 255) :
    ∃ token l1, lexer_next_token lexer = Scan.ok (token, l1) ∧
      token.value = some w ∧ l1.source = lexer.source ∧ unread l1 = rest ∧
      (∀ k ∈ keywords, w = k.1 → token.type = k.2) ∧
      ((∀ k ∈ keywords, w ≠ k.1) → token.type = TokenType.TOKEN_IDENTIFIER) ∧
      (token.type = TokenType.TOKEN_IDENTIFIER → ∀ k ∈ keywords, w ≠ k.1) := by
  obtain ⟨c, cs, rfl, hc⟩ := hfirst
  have h := lexer_next_token_refines lexer hwf hnul
  rw [hu, lex_step_word c cs rest hc hword hmax hlen] at h
  obtain ⟨token, l1, hr, ht, hv, -, hs, hu1⟩ := agrees_token _ _ _ _ _ h
  have hk := keyword_type_keywords (c :: cs)
  rw [← ht] at hk
  exact ⟨token, l1, hr, hv, hs, hu1, hk⟩

/-- C21 on the text `routes = 1`: the word `routes` starts with a keyword and is an
identifier. -/
theorem keyword_recognition_witness :
    ∃ token l1, lexer_next_token (lexer_init "routes = 1".toList) = Scan.ok (token, l1) ∧
      token.value = some "routes".toList ∧ l1.source = "routes = 1".toList ∧
      unread l1 = " = 1".toList ∧
      (∀ k ∈ keywords, "routes".toList = k.1 → token.type = k.2) ∧
      ((∀ k ∈ keywords, "routes".toList ≠ k.1) → token.type = TokenType.TOKEN_IDENTIFIER) ∧
      (token.type = TokenType.TOKEN_IDENTIFIER → ∀ k ∈ keywords, "routes".toList ≠ k.1) :=
  keyword_recognition (lexer_init "routes = 1".toList) "routes".toList " = 1".toList
    (lexer_init_well_formed _) (by unfold is_c_string; decide) rfl
    ⟨'r', "outes".toList, rfl, by decide⟩ (by decide)
    (by intro x xs h; obtain ⟨rfl, -⟩ := List.cons.inj h.symm; decide) (by decide)

set_option maxRecDepth 100000 in
/-- C21, the claim as stated fails: the source `route` followed by 251 letters `s` is one
maximal run of 256 letters, and `lexer_next_token` ends in the fatal error `Identifier too
long` instead of returning a token. -/
theorem long_word_is_fatal :
    (∀ x ∈ "route".toList ++ List.replicate 251 's', is_word_char x = true) ∧
    lexer_next_token (lexer_init ("route".toList ++ List.replicate 251 's')) =
      Scan.fatal (ScanError.identifier_too_long 1) :=
  ⟨by decide, by rfl⟩

theorem lex_step_quote (t : CStr) : lex_step ('"' :: t) = lex_token ('"' :: t) := by
  unfold lex_step
  rw [skip_blanks_token '"' t (by decide) (by simp)]

theorem lex_step_string (s rest : CStr) (hs : ∀ x ∈ s, x ≠ '"') :
    lex_step ('"' :: s ++ '"' :: rest) =
      if 1023 < s.length then Lexed.fatal ErrorKind.string_too_long
      else Lexed.token TokenType.TOKEN_STRING (some s) rest := by
  have htw := takeWhile_run (fun x => decide (x ≠ '"')) s ('"' :: rest)
    (fun x hx => by simpa using hs x hx)
    (fun x xs h => by obtain ⟨rfl, -⟩ := List.cons.inj h.symm; decide)
  rw [List.cons_append, lex_step_quote]
  simp only [lex_token, if_pos, htw.1, htw.2]

theorem lex_step_unterminated (s : CStr) (hs : ∀ x ∈ s, x ≠ '"') :
    lex_step ('"' :: s) =
      if 1023 < s.length then Lexed.fatal ErrorKind.string_too_long
      else Lexed.fatal ErrorKind.unterminated_string := by
  have htw := takeWhile_run (fun x => decide (x ≠ '"')) s []
    (fun x hx => by simpa using hs x hx) (fun x xs h => List.noConfusion h)
  rw [List.append_nil] at htw
  rw [lex_step_quote]
  simp only [lex_token, if_pos, htw.1, htw.2]

theorem unread_lexer_init (source : CStr) : unread (lexer_init source) = source := rfl

theorem string_over_limit (s : CStr) (hs : ∀ x ∈ s, x ≠ '"') (hnul : is_c_string s)
    (hlong : 1023 < s.length) :
    ∃ e, lexer_next_token (lexer_init ('"' :: s ++ ['"'])) = Scan.fatal e ∧
      e.kind = ErrorKind.string_too_long := by
  have hn : ∀ x ∈ (lexer_init ('"' :: s ++ ['"'])).source, x ≠ '\x00' := by
    intro x hx
    simp only [lexer_init, List.cons_append, List.mem_cons, List.mem_append,
      List.mem_singleton, List.not_mem_nil, or_false] at hx
    rcases hx with h | h | h
    · rw [h]; decide
    · exact hnul x h
    · rw [h]; decide
  have h := lexer_next_token_refines _ (lexer_init_well_formed _) hn
  rw [unread_lexer_init, lex_step_string _ [] hs, if_pos hlong] at h
  exact agrees_fatal _ _ _ h

/-- C23 (as amended). String literals. For every text `s` of at most 1023 bytes that contains
no double quote, when the unread input is `"`, `s`, `"` and `rest`, `lexer_next_token`
returns a STRING token whose lexeme is exactly `s` and leaves the cursor at the start of
`rest`; when the unread input is a double quote and a text with no later double quote,
`lexer_next_token` ends in a fatal error. -/
theorem string_literals (lexer : Lexer) (s rest : CStr) (hwf : well_formed lexer)
    (hnul : is_c_string lexer.source) (hs : ∀ x ∈ s, x ≠ '"') :
    (s.length ≤ 1023 → unread lexer = '"' :: s ++ '"' :: rest →
      ∃ token l1, lexer_next_token lexer = Scan.ok (token, l1) ∧
        token.type = TokenType.TOKEN_STRING ∧ token.value = some s ∧
        l1.source = lexer.source ∧ unread l1 = rest) ∧
    (unread lexer = '"' :: s → ∃ e, lexer_next_token lexer = Scan.fatal e) := by
  have h := lexer_next_token_refines lexer hwf hnul
  constructor
  · intro hlen hu
    rw [hu, lex_step_string s rest hs, if_neg (by omega)] at h
    obtain ⟨token, l1, hr, ht, hv, -, hsrc, hu1⟩ := agrees_token _ _ _ _ _ h
    exact ⟨token, l1, hr, ht, hv, hsrc, hu1⟩
  · intro hu
    rw [hu, lex_step_unterminated s hs] at h
    by_cases hlong : 1023 < s.length
    · rw [if_pos hlong] at h
      obtain ⟨e, he, -⟩ := agrees_fatal _ _ _ h
      exact ⟨e, he⟩
    · rw [if_neg hlong] at h
      obtain ⟨e, he, -⟩ := agrees_fatal _ _ _ h
      exact ⟨e, he⟩

/-- C23 on the texts `"a b" + 1` and `"a b`. -/
theorem string_literals_witness :
    (∃ token l1, lexer_next_token (lexer_init "\"a b\" + 1".toList) = Scan.ok (token, l1) ∧
        token.type = TokenType.TOKEN_STRING ∧ token.value = some "a b".toList ∧
        l1.source = "\"a b\" + 1".toList ∧ unread l1 = " + 1".toList) ∧
    (∃ e, lexer_next_token (lexer_init "\"a b".toList) = Scan.fatal e) :=
  ⟨(string_literals (lexer_init "\"a b\" + 1".toList) "a b".toList " + 1".toList
      (lexer_init_well_formed _) (by unfold is_c_string; decide) (by decide)).1
      (by decide) rfl,
    (string_literals (lexer_init "\"a b".toList) "a b".toList []
      (lexer_init_well_formed _) (by unfold is_c_string; decide) (by decide)).2 rfl⟩

/-- C23, the claim as stated fails: the text of 1024 letters `a` contains no double quote,
and scanning it between double quotes ends in the fatal error `String too long` instead of
giving a STRING token. -/
theorem long_string_is_fatal :
    (∀ x ∈ List.replicate 1024 'a', x ≠ '"') ∧
    ∃ e, lexer_next_token (lexer_init ('"' :: List.replicate 1024 'a' ++ ['"'])) =
        Scan.fatal e ∧ e.kind = ErrorKind.string_too_long :=
  ⟨fun x hx => by rw [List.eq_of_mem_replicate hx]; decide,
    string_over_limit (List.replicate 1024 'a')
      (fun x hx => by rw [List.eq_of_mem_replicate hx]; decide)
      (fun x hx => by rw [List.eq_of_mem_replicate hx]; decide)
      (by rw [List.length_replicate]; decide)⟩

/-! ### Token streams of texts -/

theorem ite_ne_eof (p : Prop) [Decidable p] (a b : TokenType)
    (ha : a ≠ TokenType.TOKEN_EOF) (hb : b ≠ TokenType.TOKEN_EOF) :
    (if p then a else b) ≠ TokenType.TOKEN_EOF := by
  split_ifs <;> assumption

theorem keyword_type_ne_eof (w : CStr) : keyword_type w ≠ TokenType.TOKEN_EOF := by
  unfold keyword_type
  repeat' apply ite_ne_eof
  all_goals decide

theorem two_char_type_ne_eof (c d : Char) (type : TokenType)
    (h : two_char_type c d = some type) : type ≠ TokenType.TOKEN_EOF := by
  unfold two_char_type at h
  split_ifs at h <;> (obtain rfl := Option.some.inj h; decide)

theorem lex_token_ne_eof (t : CStr) (type : TokenType) (value : Option CStr) (rest : CStr)
    (h : lex_token t = Lexed.token type value rest) : type ≠ TokenType.TOKEN_EOF := by
  cases t with
  | nil => exact Lexed.noConfusion h
  | cons c cs =>
    simp only [lex_token] at h
    split_ifs at h
    · split at h
      · exact Lexed.noConfusion h
      · obtain ⟨rfl, -, -⟩ := Lexed.token.inj h
        decide
    · obtain ⟨rfl, -, -⟩ := Lexed.token.inj h
      decide
    · obtain ⟨rfl, -, -⟩ := Lexed.token.inj h
      exact keyword_type_ne_eof _
    · split at h
      · obtain ⟨rfl, -, -⟩ := Lexed.token.inj h
        exact single_char_type_ne_eof c
      · split at h
        · rename_i h2
          obtain ⟨rfl, -, -⟩ := Lexed.token.inj h
          exact two_char_type_ne_eof _ _ _ h2
        · obtain ⟨rfl, -, -⟩ := Lexed.token.inj h
          exact single_char_type_ne_eof c

theorem lex_step_ne_eof (t : CStr) (type : TokenType) (value : Option CStr) (rest : CStr)
    (h : lex_step t = Lexed.token type value rest) : type ≠ TokenType.TOKEN_EOF :=
  lex_token_ne_eof _ _ _ _ h

theorem lex_step_rest (t : CStr) (hnul : is_c_string t) (type : TokenType)
    (value : Option CStr) (rest : CStr) (h : lex_step t = Lexed.token type value rest) :
    rest.length < t.length ∧ is_c_string rest := by
  have ha := lexer_next_token_refines (lexer_init t) (lexer_init_well_formed t) hnul
  rw [unread_lexer_init, h] at ha
  obtain ⟨token, l1, hr, ht, -, hwf1, hs1, hu1⟩ := agrees_token _ _ _ _ _ ha
  have hpos := ((lexer_next_token_spec (lexer_init t) (lexer_init_well_formed t)).2
    token l1 hr).2.2.2 (by rw [ht]; exact lex_step_ne_eof t type value rest h)
  have hle := hwf1.1
  have hs1' : l1.source = t := hs1
  rw [hs1'] at hle
  have hp0 : (lexer_init t).position = 0 := rfl
  rw [hp0] at hpos
  rw [← hu1, unread, hs1']
  constructor
  · rw [List.length_drop]
    omega
  · intro x hx
    exact hnul x (List.mem_of_mem_drop hx)

theorem scan_all_refines :
    ∀ (calls : Nat) (lexer : Lexer), well_formed lexer → is_c_string lexer.source →
      (unread lexer).length < calls →
      lexemes_of (scan_all calls lexer) = lex_all calls (unread lexer) := by
  intro calls
  induction calls with
  | zero =>
    intro lexer _ _ h
    exact absurd h (Nat.not_lt_zero _)
  | succ calls ih =>
    intro lexer hwf hnul hcalls
    have ha := lexer_next_token_refines lexer hwf hnul
    cases hl : lex_step (unread lexer) with
    | eof =>
      rw [hl] at ha
      obtain ⟨token, l1, hr, ht, hv, -, -, -⟩ := agrees_eof _ _ ha
      simp only [scan_all, hr, Scan.and_then, ht, if_true, lex_all, hl, lexemes_of, List.map,
        hv]
    | fatal kind =>
      rw [hl] at ha
      obtain ⟨e, hr, hk⟩ := agrees_fatal _ _ _ ha
      simp only [scan_all, hr, Scan.and_then, lex_all, hl, lexemes_of, hk]
    | token type value rest =>
      rw [hl] at ha
      obtain ⟨token, l1, hr, ht, hv, hwf1, hs1, hu1⟩ := agrees_token _ _ _ _ _ ha
      have hne : token.type ≠ TokenType.TOKEN_EOF := by
        rw [ht]; exact lex_step_ne_eof _ _ _ _ hl
      have hpos := ((lexer_next_token_spec lexer hwf).2 token l1 hr).2.2.2 hne
      have hlen : (unread l1).length < calls := by
        rw [unread_length] at hcalls ⊢
        have h1 := hwf1.1
        rw [hs1] at h1 ⊢
        omega
      have h1 := ih l1 hwf1 (by rw [hs1]; exact hnul) hlen
      rw [hu1] at h1
      simp only [scan_all, hr, Scan.and_then, if_neg hne, lex_all, hl]
      rw [← h1]
      cases scan_all calls l1 with
      | ok tokens => simp only [lexemes_of, Lexemes.push, List.map, ht, hv]
      | fatal e => rfl
      | out_of_steps => rfl

theorem tokenize_lexemes (source : CStr) (hnul : is_c_string source) :
    lexemes_of (tokenize source) = lexemes source :=
  scan_all_refines (source.length + 1) (lexer_init source) (lexer_init_well_formed source)
    hnul (by rw [unread_lexer_init]; exact Nat.lt_succ_self _)

theorem lex_all_fuel :
    ∀ (n m : Nat) (t : CStr), is_c_string t → t.length < n → t.length < m →
      lex_all n t = lex_all m t := by
  intro n
  induction n with
  | zero =>
    intro m t _ h
    exact absurd h (Nat.not_lt_zero _)
  | succ n ih =>
    intro m t hnul hn hm
    cases m with
    | zero => exact absurd hm (Nat.not_lt_zero _)
    | succ m =>
      cases hl : lex_step t with
      | eof => simp only [lex_all, hl]
      | fatal kind => simp only [lex_all, hl]
      | token type value rest =>
        obtain ⟨hlen, hnr⟩ := lex_step_rest t hnul type value rest hl
        simp only [lex_all, hl]
        rw [ih m rest hnr (by omega) (by omega)]

theorem lex_all_succ (n : Nat) (t : CStr) :
    lex_all (n + 1) t =
      match lex_step t with
      | Lexed.eof => Lexemes.tokens [(TokenType.TOKEN_EOF, none)]
      | Lexed.fatal kind => Lexemes.fatal kind
      | Lexed.token type value rest => (lex_all n rest).push (type, value) := rfl

theorem lexemes_step (t : CStr) (hnul : is_c_string t) :
    lexemes t =
      match lex_step t with
      | Lexed.eof => Lexemes.tokens [(TokenType.TOKEN_EOF, none)]
      | Lexed.fatal kind => Lexemes.fatal kind
      | Lexed.token type value rest => (lexemes rest).push (type, value) := by
  unfold lexemes
  rw [lex_all_succ]
  cases hl : lex_step t with
  | eof => rfl
  | fatal kind => rfl
  | token type value rest =>
    obtain ⟨hlen, hnr⟩ := lex_step_rest t hnul type value rest hl
    simp only []
    rw [lex_all_fuel t.length (rest.length + 1) rest hnr hlen (Nat.lt_succ_self _)]

/-! ### Token stream totality -/

/-- C20 (as amended). Token stream totality. Take a source text (a C string) in which the
lexical description of the spec (`lexemes`) finds no unterminated string literal, no string
literal longer than 1023 bytes and no number or identifier longer than 255 bytes; unknown
bytes need not be excluded. Calling `lexer_next_token` repeatedly on a fresh lexer ends
within one call per byte plus one with an EOF token, every earlier call having returned
another token, and never with a fatal scanner error. On every well-formed lexer a call ends
(the loops of the model never run out of steps), and a call that returns a token other than
EOF strictly advances the cursor position. -/
theorem token_stream_totality (source : CStr) (hnul : is_c_string source)
    (hunterminated : lexemes source ≠ Lexemes.fatal ErrorKind.unterminated_string)
    (hstring : lexemes source ≠ Lexemes.fatal ErrorKind.string_too_long)
    (hnumber : lexemes source ≠ Lexemes.fatal ErrorKind.number_too_long)
    (hidentifier : lexemes source ≠ Lexemes.fatal ErrorKind.identifier_too_long) :
    (∃ before last, tokenize source = Scan.ok (before ++ [last]) ∧
        last.type = TokenType.TOKEN_EOF ∧ (∀ t ∈ before, t.type ≠ TokenType.TOKEN_EOF) ∧
        before.length ≤ source.length) ∧
    (∀ e, tokenize source ≠ Scan.fatal e) ∧
    (∀ lexer, well_formed lexer →
      lexer_next_token lexer ≠ Scan.out_of_steps ∧
      ∀ token l1, lexer_next_token lexer = Scan.ok (token, l1) →
        well_formed l1 ∧ l1.source = lexer.source ∧
        (token.type ≠ TokenType.TOKEN_EOF → lexer.position < l1.position)) := by
  have hfatal : ∀ e, tokenize source ≠ Scan.fatal e := by
    intro e he
    have h := tokenize_lexemes source hnul
    rw [he] at h
    simp only [lexemes_of] at h
    cases hk : e.kind with
    | string_too_long => exact hstring (by rw [← h, hk])
    | unterminated_string => exact hunterminated (by rw [← h, hk])
    | number_too_long => exact hnumber (by rw [← h, hk])
    | identifier_too_long => exact hidentifier (by rw [← h, hk])
  refine ⟨?_, hfatal, ?_⟩
  · rcases scan_all_spec (source.length + 1) (lexer_init source)
      (lexer_init_well_formed source) (Nat.lt_succ_self _) with h | ⟨e, he⟩
    · exact h
    · exact absurd he (hfatal e)
  · intro lexer hwf
    obtain ⟨h1, h2⟩ := lexer_next_token_spec lexer hwf
    refine ⟨h1, fun token l1 h => ?_⟩
    obtain ⟨a, b, _, d⟩ := h2 token l1 h
    exact ⟨a, b, d⟩

/-- C20 on the text `x1 = "hi" + 12 // sum`: it has a string literal, a number and an
identifier within the limits and no unknown byte; six tokens are returned, the last of
them EOF, and no call is fatal. -/
theorem token_stream_totality_witness :
    is_c_string "x1 = \"hi\" + 12 // sum".toList ∧
    lexemes "x1 = \"hi\" + 12 // sum".toList =
      Lexemes.tokens [(TokenType.TOKEN_IDENTIFIER, some "x1".toList),
        (TokenType.TOKEN_EQUALS, some "=".toList),
        (TokenType.TOKEN_STRING, some "hi".toList), (TokenType.TOKEN_PLUS, some "+".toList),
        (TokenType.TOKEN_NUMBER, some "12".toList),
        (TokenType.TOKEN_EOF, none)] ∧
    ((∃ before last, tokenize "x1 = \"hi\" + 12 // sum".toList = Scan.ok (before ++ [last]) ∧
        last.type = TokenType.TOKEN_EOF ∧ (∀ t ∈ before, t.type ≠ TokenType.TOKEN_EOF) ∧
        before.length ≤ "x1 = \"hi\" + 12 // sum".toList.length) ∧
      (∀ e, tokenize "x1 = \"hi\" + 12 // sum".toList ≠ Scan.fatal e) ∧
      (∀ lexer, well_formed lexer →
        lexer_next_token lexer ≠ Scan.out_of_steps ∧
        ∀ token l1, lexer_next_token lexer = Scan.ok (token, l1) →
          well_formed l1 ∧ l1.source = lexer.source ∧
          (token.type ≠ TokenType.TOKEN_EOF → lexer.position < l1.position))) := by
  have hl : lexemes "x1 = \"hi\" + 12 // sum".toList =
      Lexemes.tokens [(TokenType.TOKEN_IDENTIFIER, some "x1".toList),
        (TokenType.TOKEN_EQUALS, some "=".toList),
        (TokenType.TOKEN_STRING, some "hi".toList), (TokenType.TOKEN_PLUS, some "+".toList),
        (TokenType.TOKEN_NUMBER, some "12".toList),
        (TokenType.TOKEN_EOF, none)] := by decide
  have hc : is_c_string "x1 = \"hi\" + 12 // sum".toList := by
    unfold is_c_string
    decide
  exact ⟨hc, hl,
    token_stream_totality "x1 = \"hi\" + 12 // sum".toList hc
      (by rw [hl]; exact Lexemes.noConfusion) (by rw [hl]; exact Lexemes.noConfusion)
      (by rw [hl]; exact Lexemes.noConfusion) (by rw [hl]; exact Lexemes.noConfusion)⟩

/-! ### Comments and white space -/

theorem skip_in_comment (c B : CStr) (hc : ∀ x ∈ c, x ≠ '\n') :
    skip_blanks true (c ++ '\n' :: B) = skip_blanks false B := by
  induction c with
  | nil => simp only [List.nil_append, skip_blanks, if_true]
  | cons x xs ih =>
    have hx : x ≠ '\n' := hc x (List.mem_cons_self _ _)
    rw [List.cons_append, skip_blanks, if_neg hx]
    exact ih (fun y hy => hc y (List.mem_cons_of_mem _ hy))

theorem skip_comment_tail (m : Bool) (c B : CStr) (hc : ∀ x ∈ c, x ≠ '\n') :
    skip_blanks m (' ' :: '/' :: '/' :: c ++ '\n' :: B) = skip_blanks false B := by
  cases m with
  | true =>
    have h := skip_in_comment (' ' :: '/' :: '/' :: c) B (by
      intro x hx
      simp only [List.mem_cons] at hx
      rcases hx with h | h | h | h
      · rw [h]; decide
      · rw [h]; decide
      · rw [h]; decide
      · exact hc x h)
    exact h
  | false =>
    have h := skip_in_comment ('/' :: c) B (by
      intro x hx
      simp only [List.mem_cons] at hx
      rcases hx with h | h
      · rw [h]; decide
      · exact hc x h)
    have h1 : skip_blanks false (' ' :: '/' :: '/' :: c ++ '\n' :: B) =
        skip_blanks false ('/' :: '/' :: c ++ '\n' :: B) := by
      simp only [List.cons_append, skip_blanks]
      rw [if_pos (by decide)]
    have h2 : skip_blanks false ('/' :: '/' :: c ++ '\n' :: B) =
        skip_blanks true ('/' :: c ++ '\n' :: B) := by
      simp [skip_blanks, isspace]
    rw [h1, h2]
    exact h

theorem skip_newline_tail (m : Bool) (B : CStr) :
    skip_blanks m (' ' :: '\n' :: B) = skip_blanks false B := by
  cases m with
  | true =>
    simp only [skip_blanks]
    rw [if_neg (by decide), if_pos trivial]
  | false =>
    simp only [skip_blanks]
    rw [if_pos (by decide), if_pos (by decide)]

theorem head_append_cons (a : Char) (A Z : CStr) : (a :: A ++ Z).head? = (a :: A).head? := rfl

theorem skip_blank_front (Z W : CStr) (hZ : ∀ m, skip_blanks m Z = W) :
    ∀ (A : CStr) (m : Bool), skip_blanks m A = [] → skip_blanks m (A ++ Z) = W := by
  intro A
  induction A with
  | nil =>
    intro m _
    exact hZ m
  | cons a A ih =>
    intro m h
    cases m with
    | true =>
      rw [List.cons_append]
      by_cases ha : a = '\n'
      · simp only [skip_blanks, if_pos ha] at h ⊢
        exact ih false h
      · simp only [skip_blanks, if_neg ha] at h ⊢
        exact ih true h
    | false =>
      rw [List.cons_append]
      by_cases ha : isspace a = true
      · simp only [skip_blanks, if_pos ha] at h ⊢
        exact ih false h
      · by_cases hcom : a = '/' ∧ A.head? = some '/'
        · simp only [skip_blanks, if_neg ha, if_pos hcom] at h
          have hcom1 : a = '/' ∧ (A ++ Z).head? = some '/' := by
            refine ⟨hcom.1, ?_⟩
            cases A with
            | nil => exact absurd hcom.2 (by simp)
            | cons b A1 => exact hcom.2
          simp only [skip_blanks, if_neg ha, if_pos hcom1]
          exact ih true h
        · simp only [skip_blanks, if_neg ha, if_neg hcom] at h
          exact absurd h (List.cons_ne_nil _ _)

theorem skip_token_front (Z : CStr) :
    ∀ (A : CStr) (m : Bool) (a : Char) (u : CStr), skip_blanks m A = a :: u →
      skip_blanks m (A ++ ' ' :: Z) = a :: u ++ ' ' :: Z := by
  intro A
  induction A with
  | nil =>
    intro m a u h
    cases m <;> exact absurd h (by simp [skip_blanks])
  | cons b A ih =>
    intro m a u h
    cases m with
    | true =>
      rw [List.cons_append]
      by_cases hb : b = '\n'
      · simp only [skip_blanks, if_pos hb] at h ⊢
        exact ih false a u h
      · simp only [skip_blanks, if_neg hb] at h ⊢
        exact ih true a u h
    | false =>
      rw [List.cons_append]
      by_cases hb : isspace b = true
      · simp only [skip_blanks, if_pos hb] at h ⊢
        exact ih false a u h
      · by_cases hcom : b = '/' ∧ A.head? = some '/'
        · simp only [skip_blanks, if_neg hb, if_pos hcom] at h
          have hcom1 : b = '/' ∧ (A ++ ' ' :: Z).head? = some '/' := by
            refine ⟨hcom.1, ?_⟩
            cases A with
            | nil => exact absurd hcom.2 (by simp)
            | cons b1 A1 => exact hcom.2
          simp only [skip_blanks, if_neg hb, if_pos hcom1]
          exact ih true a u h
        · simp only [skip_blanks, if_neg hb, if_neg hcom] at h
          have hcom1 : ¬ (b = '/' ∧ (A ++ ' ' :: Z).head? = some '/') := by
            intro hc
            apply hcom
            refine ⟨hc.1, ?_⟩
            cases A with
            | nil => exact absurd hc.2 (by simp)
            | cons b1 A1 => exact hc.2
          simp only [skip_blanks, if_neg hb, if_neg hcom1]
          obtain ⟨rfl, rfl⟩ := List.cons.inj h
          rfl

theorem run_append_stop {α : Type} (p : α → Bool) (z : α) (Z : List α) (hz : p z = false) :
    ∀ l : List α, (l ++ z :: Z).takeWhile p = l.takeWhile p ∧
      (l ++ z :: Z).dropWhile p = l.dropWhile p ++ z :: Z := by
  intro l
  induction l with
  | nil => simp [hz]
  | cons a l ih =>
    by_cases ha : p a = true
    · simp [ha, ih.1, ih.2]
    · simp [ha]

theorem run_append_inner {α : Type} (p : α → Bool) (Z : List α) :
    ∀ (l : List α) (q : α) (rest : List α), l.dropWhile p = q :: rest →
      (l ++ Z).takeWhile p = l.takeWhile p ∧ (l ++ Z).dropWhile p = q :: rest ++ Z := by
  intro l
  induction l with
  | nil =>
    intro q rest h
    exact absurd h (by simp)
  | cons a l ih =>
    intro q rest h
    by_cases ha : p a = true
    · rw [List.dropWhile_cons_of_pos ha] at h
      have := ih q rest h
      simp [ha, this.1, this.2]
    · rw [List.dropWhile_cons_of_neg ha] at h
      simp [ha, ← h]

theorem lex_token_append (a : Char) (u Z : CStr) :
    (∀ ty v rest, lex_token (a :: u) = Lexed.token ty v rest →
      lex_token (a :: u ++ ' ' :: Z) = Lexed.token ty v (rest ++ ' ' :: Z)) ∧
    (∀ k, lex_token (a :: u) = Lexed.fatal k → k ≠ ErrorKind.unterminated_string →
      lex_token (a :: u ++ ' ' :: Z) = Lexed.fatal k) ∧
    lex_token (a :: u) ≠ Lexed.eof := by
  by_cases hq : a = '"'
  · subst hq
    cases hd : u.dropWhile (fun x => decide (x ≠ '"')) with
    | nil =>
      have hall : ∀ x ∈ u, decide (x ≠ '"') = true := List.dropWhile_eq_nil_iff.mp hd
      have htw : u.takeWhile (fun x => decide (x ≠ '"')) = u :=
        List.takeWhile_eq_self_iff.mpr hall
      have hL : lex_token ('"' :: u) =
          if 1023 < u.length then Lexed.fatal ErrorKind.string_too_long
          else Lexed.fatal ErrorKind.unterminated_string := by
        simp only [lex_token, if_pos, hd, htw]
      have hR : 1023 < u.length →
          lex_token ('"' :: u ++ ' ' :: Z) = Lexed.fatal ErrorKind.string_too_long := by
        intro hlong
        have hlen : 1023 < ((u ++ ' ' :: Z).takeWhile (fun x => decide (x ≠ '"'))).length := by
          rw [List.takeWhile_append_of_pos hall, List.length_append]
          omega
        simp only [List.cons_append, lex_token, if_pos, if_pos hlen]
      rw [hL]
      by_cases hlong : 1023 < u.length
      · rw [if_pos hlong]
        refine ⟨fun _ _ _ h => Lexed.noConfusion h, ?_, fun h => Lexed.noConfusion h⟩
        intro k hk _
        obtain rfl := Lexed.fatal.inj hk
        exact hR hlong
      · rw [if_neg hlong]
        refine ⟨fun _ _ _ h => Lexed.noConfusion h, ?_, fun h => Lexed.noConfusion h⟩
        intro k hk hne
        exact absurd (Lexed.fatal.inj hk).symm hne
    | cons q rest1 =>
      have hrun := run_append_inner (fun x => decide (x ≠ '"')) (' ' :: Z) u q rest1 hd
      have hL : lex_token ('"' :: u) =
          if 1023 < (u.takeWhile (fun x => decide (x ≠ '"'))).length then
            Lexed.fatal ErrorKind.string_too_long
          else Lexed.token TokenType.TOKEN_STRING
            (some (u.takeWhile (fun x => decide (x ≠ '"')))) rest1 := by
        simp only [lex_token, if_pos, hd]
      have hR : lex_token ('"' :: u ++ ' ' :: Z) =
          if 1023 < (u.takeWhile (fun x => decide (x ≠ '"'))).length then
            Lexed.fatal ErrorKind.string_too_long
          else Lexed.token TokenType.TOKEN_STRING
            (some (u.takeWhile (fun x => decide (x ≠ '"')))) (rest1 ++ ' ' :: Z) := by
        simp only [List.cons_append, lex_token, if_pos, hrun.1, hrun.2]
      rw [hL, hR]
      by_cases hlong : 1023 < (u.takeWhile (fun x => decide (x ≠ '"'))).length
      · rw [if_pos hlong, if_pos hlong]
        exact ⟨fun _ _ _ h => Lexed.noConfusion h, fun k hk _ => hk,
          fun h => Lexed.noConfusion h⟩
      · rw [if_neg hlong, if_neg hlong]
        refine ⟨?_, fun k hk _ => Lexed.noConfusion hk, fun h => Lexed.noConfusion h⟩
        intro ty v rest h
        obtain ⟨rfl, rfl, rfl⟩ := Lexed.token.inj h
        rfl
  · by_cases hdig : isdigit a = true
    · have hrun := run_append_stop (fun x => isdigit x || decide (x = '.')) ' ' Z (by decide)
        (a :: u)
      have hL : lex_token (a :: u) =
          if 255 < ((a :: u).takeWhile (fun x => isdigit x || decide (x = '.'))).length then
            Lexed.fatal ErrorKind.number_too_long
          else Lexed.token TokenType.TOKEN_NUMBER
            (some ((a :: u).takeWhile (fun x => isdigit x || decide (x = '.'))))
            ((a :: u).dropWhile (fun x => isdigit x || decide (x = '.'))) := by
        simp only [lex_token, if_neg hq, hdig, if_pos]
      have hR : lex_token (a :: u ++ ' ' :: Z) =
          if 255 < ((a :: u).takeWhile (fun x => isdigit x || decide (x = '.'))).length then
            Lexed.fatal ErrorKind.number_too_long
          else Lexed.token TokenType.TOKEN_NUMBER
            (some ((a :: u).takeWhile (fun x => isdigit x || decide (x = '.'))))
            ((a :: u).dropWhile (fun x => isdigit x || decide (x = '.')) ++ ' ' :: Z) := by
        rw [← hrun.1, ← hrun.2]
        simp only [List.cons_append, lex_token, if_neg hq, hdig, if_pos]
      rw [hL, hR]
      by_cases hlong :
          255 < ((a :: u).takeWhile (fun x => isdigit x || decide (x = '.'))).length
      · rw [if_pos hlong, if_pos hlong]
        exact ⟨fun _ _ _ h => Lexed.noConfusion h, fun k hk _ => hk,
          fun h => Lexed.noConfusion h⟩
      · rw [if_neg hlong, if_neg hlong]
        refine ⟨?_, fun k hk _ => Lexed.noConfusion hk, fun h => Lexed.noConfusion h⟩
        intro ty v rest h
        obtain ⟨rfl, rfl, rfl⟩ := Lexed.token.inj h
        rfl
    · have hdig0 : isdigit a = false := by simpa using hdig
      by_cases hal : (isalpha a || decide (a = '_')) = true
      · have hrun := run_append_stop (fun x => isalnum x || decide (x = '_')) ' ' Z
          (by decide) (a :: u)
        have hL : lex_token (a :: u) =
            if 255 < ((a :: u).takeWhile (fun x => isalnum x || decide (x = '_'))).length then
              Lexed.fatal ErrorKind.identifier_too_long
            else Lexed.token
              (keyword_type ((a :: u).takeWhile (fun x => isalnum x || decide (x = '_'))))
              (some ((a :: u).takeWhile (fun x => isalnum x || decide (x = '_'))))
              ((a :: u).dropWhile (fun x => isalnum x || decide (x = '_'))) := by
          simp only [lex_token, if_neg hq, hdig0, hal, if_pos, Bool.false_eq_true, if_false]
        have hR : lex_token (a :: u ++ ' ' :: Z) =
            if 255 < ((a :: u).takeWhile (fun x => isalnum x || decide (x = '_'))).length then
              Lexed.fatal ErrorKind.identifier_too_long
            else Lexed.token
              (keyword_type ((a :: u).takeWhile (fun x => isalnum x || decide (x = '_'))))
              (some ((a :: u).takeWhile (fun x => isalnum x || decide (x = '_'))))
              ((a :: u).dropWhile (fun x => isalnum x || decide (x = '_')) ++ ' ' :: Z) := by
          rw [← hrun.1, ← hrun.2]
          simp only [List.cons_append, lex_token, if_neg hq, hdig0, hal, if_pos,
            Bool.false_eq_true, if_false]
        rw [hL, hR]
        by_cases hlong :
            255 < ((a :: u).takeWhile (fun x => isalnum x || decide (x = '_'))).length
        · rw [if_pos hlong, if_pos hlong]
          exact ⟨fun _ _ _ h => Lexed.noConfusion h, fun k hk _ => hk,
            fun h => Lexed.noConfusion h⟩
        · rw [if_neg hlong, if_neg hlong]
          refine ⟨?_, fun k hk _ => Lexed.noConfusion hk, fun h => Lexed.noConfusion h⟩
          intro ty v rest h
          obtain ⟨rfl, rfl, rfl⟩ := Lexed.token.inj h
          rfl
      · have hal0 : (isalpha a || decide (a = '_')) = false := by simpa using hal
        have h2 : two_char_type a ' ' = none := by
          unfold two_char_type
          simp
        cases u with
        | nil =>
          have hL : lex_token [a] =
              Lexed.token (single_char_type a).1 (single_char_type a).2 [] := by
            simp only [lex_token, if_neg hq, hdig0, hal0, Bool.false_eq_true, if_false]
          have hR : lex_token ([a] ++ ' ' :: Z) =
              Lexed.token (single_char_type a).1 (single_char_type a).2 (' ' :: Z) := by
            simp only [List.cons_append, List.nil_append, lex_token, if_neg hq, hdig0, hal0,
              Bool.false_eq_true, if_false, h2]
          rw [hL, hR]
          refine ⟨?_, fun k hk _ => Lexed.noConfusion hk, fun h => Lexed.noConfusion h⟩
          intro ty v rest h
          obtain ⟨rfl, rfl, rfl⟩ := Lexed.token.inj h
          rfl
        | cons d ds =>
          have hL : lex_token (a :: d :: ds) =
              match two_char_type a d with
              | some type => Lexed.token type (some [a, d]) ds
              | none => Lexed.token (single_char_type a).1 (single_char_type a).2 (d :: ds) := by
            simp only [lex_token, if_neg hq, hdig0, hal0, Bool.false_eq_true, if_false]
          have hR : lex_token (a :: d :: ds ++ ' ' :: Z) =
              match two_char_type a d with
              | some type => Lexed.token type (some [a, d]) (ds ++ ' ' :: Z)
              | none => Lexed.token (single_char_type a).1 (single_char_type a).2
                  (d :: ds ++ ' ' :: Z) := by
            simp only [List.cons_append, lex_token, if_neg hq, hdig0, hal0,
              Bool.false_eq_true, if_false]
          rw [hL, hR]
          cases two_char_type a d with
          | none =>
            refine ⟨?_, fun k hk _ => Lexed.noConfusion hk, fun h => Lexed.noConfusion h⟩
            intro ty v rest h
            obtain ⟨rfl, rfl, rfl⟩ := Lexed.token.inj h
            rfl
          | some type =>
            refine ⟨?_, fun k hk _ => Lexed.noConfusion hk, fun h => Lexed.noConfusion h⟩
            intro ty v rest h
            obtain ⟨rfl, rfl, rfl⟩ := Lexed.token.inj h
            rfl

theorem is_c_string_append (a b : CStr) (ha : is_c_string a) (hb : is_c_string b) :
    is_c_string (a ++ b) := by
  intro x hx
  rcases List.mem_append.mp hx with h | h
  · exact ha x h
  · exact hb x h

theorem push_ne_unterminated (head : TokenType × Option CStr) (l : Lexemes)
    (h : l.push head ≠ Lexemes.fatal ErrorKind.unterminated_string) :
    l ≠ Lexemes.fatal ErrorKind.unterminated_string := by
  intro hl
  apply h
  rw [hl]
  rfl

theorem lexemes_append_tail (X Y W : CStr) (hX : is_c_string (' ' :: X))
    (hY : is_c_string (' ' :: Y)) (hWX : ∀ m, skip_blanks m (' ' :: X) = W)
    (hWY : ∀ m, skip_blanks m (' ' :: Y) = W) :
    ∀ (n : Nat) (A : CStr), A.length < n → is_c_string A →
      lexemes A ≠ Lexemes.fatal ErrorKind.unterminated_string →
      lexemes (A ++ ' ' :: X) = lexemes (A ++ ' ' :: Y) := by
  intro n
  induction n with
  | zero =>
    intro A h
    exact absurd h (Nat.not_lt_zero _)
  | succ n ih =>
    intro A hlen hA hstr
    have hAX := is_c_string_append A _ hA hX
    have hAY := is_c_string_append A _ hA hY
    rw [lexemes_step _ hAX, lexemes_step _ hAY]
    rw [lexemes_step A hA] at hstr
    cases hs : skip_blanks false A with
    | nil =>
      have h1 : lex_step (A ++ ' ' :: X) = lex_token W := by
        unfold lex_step
        rw [skip_blank_front _ W hWX A false hs]
      have h2 : lex_step (A ++ ' ' :: Y) = lex_token W := by
        unfold lex_step
        rw [skip_blank_front _ W hWY A false hs]
      rw [h1, h2]
    | cons a u =>
      have h0 : lex_step A = lex_token (a :: u) := by
        unfold lex_step
        rw [hs]
      have h1 : lex_step (A ++ ' ' :: X) = lex_token (a :: u ++ ' ' :: X) := by
        unfold lex_step
        rw [skip_token_front X A false a u hs]
      have h2 : lex_step (A ++ ' ' :: Y) = lex_token (a :: u ++ ' ' :: Y) := by
        unfold lex_step
        rw [skip_token_front Y A false a u hs]
      obtain ⟨htX, hfX, hne⟩ := lex_token_append a u X
      obtain ⟨htY, hfY, -⟩ := lex_token_append a u Y
      rw [h1, h2]
      cases hl : lex_token (a :: u) with
      | eof => exact absurd hl hne
      | fatal k =>
        rw [h0, hl] at hstr
        have hk : k ≠ ErrorKind.unterminated_string := by
          intro hk
          apply hstr
          rw [hk]
        rw [hfX k hl hk, hfY k hl hk]
      | token ty v rest =>
        rw [h0, hl] at hstr
        have hstr1 := push_ne_unterminated _ _ hstr
        obtain ⟨hrl, hrc⟩ := lex_step_rest A hA ty v rest (h0.trans hl)
        rw [htX ty v rest hl, htY ty v rest hl]
        simp only []
        rw [ih rest (by omega) hrc hstr1]

/-- C24. Comments and white space are insignificant. For all source texts `A` and `B` and
every comment text `c` without a newline, where scanning `A` alone does not end in an
unterminated string literal: scanning `A`, ` //`, `c`, a newline and `B` gives the same
sequence of token tags and lexemes, or a fatal error of the same kind, as scanning `A`, a
space, a newline and `B`; neither scan runs out of steps. -/
theorem comments_are_insignificant (A B c : CStr) (hA : is_c_string A) (hB : is_c_string B)
    (hc : is_c_string c) (hline : ∀ x ∈ c, x ≠ '\n')
    (hstr : ∀ line, tokenize A ≠ Scan.fatal (ScanError.unterminated_string line)) :
    lexemes_of (tokenize (A ++ " //".toList ++ c ++ "\n".toList ++ B)) =
      lexemes_of (tokenize (A ++ " \n".toList ++ B)) ∧
    lexemes_of (tokenize (A ++ " \n".toList ++ B)) ≠ Lexemes.out_of_steps := by
  have hX : is_c_string (' ' :: ('/' :: '/' :: c ++ '\n' :: B)) := by
    intro x hx
    simp only [List.cons_append, List.mem_cons, List.mem_append] at hx
    rcases hx with h | h | h | h | h | h
    · rw [h]; decide
    · rw [h]; decide
    · rw [h]; decide
    · exact hc x h
    · rw [h]; decide
    · exact hB x h
  have hY : is_c_string (' ' :: ('\n' :: B)) := by
    intro x hx
    simp only [List.mem_cons] at hx
    rcases hx with h | h | h
    · rw [h]; decide
    · rw [h]; decide
    · exact hB x h
  have e1 : A ++ " //".toList ++ c ++ "\n".toList ++ B =
      A ++ ' ' :: ('/' :: '/' :: c ++ '\n' :: B) := by
    simp
  have e2 : A ++ " \n".toList ++ B = A ++ ' ' :: ('\n' :: B) := by
    simp
  have hlex : lexemes A ≠ Lexemes.fatal ErrorKind.unterminated_string := by
    rw [← tokenize_lexemes A hA]
    intro h
    cases ht : tokenize A with
    | ok tokens => rw [ht] at h; exact Lexemes.noConfusion h
    | out_of_steps => rw [ht] at h; exact Lexemes.noConfusion h
    | fatal e =>
      rw [ht] at h
      have hk : e.kind = ErrorKind.unterminated_string := Lexemes.fatal.inj h
      cases e with
      | unterminated_string line => exact hstr line ht
      | string_too_long line => exact ErrorKind.noConfusion hk
      | number_too_long line => exact ErrorKind.noConfusion hk
      | identifier_too_long line => exact ErrorKind.noConfusion hk
  rw [e1, e2, tokenize_lexemes _ (is_c_string_append A _ hA hX),
    tokenize_lexemes _ (is_c_string_append A _ hA hY)]
  constructor
  · exact lexemes_append_tail _ _ (skip_blanks false B) hX hY
      (fun m => skip_comment_tail m c B hline) (fun m => skip_newline_tail m B)
      (A.length + 1) A (Nat.lt_succ_self _) hA hlex
  · rw [← tokenize_lexemes _ (is_c_string_append A _ hA hY)]
    rcases scan_all_spec ((A ++ ' ' :: ('\n' :: B)).length + 1) _
      (lexer_init_well_formed (A ++ ' ' :: ('\n' :: B)))
      (Nat.lt_succ_self _) with ⟨before, last, h, -⟩ | ⟨e, h⟩
    · unfold tokenize
      rw [h]
      exact fun h => Lexemes.noConfusion h
    · unfold tokenize
      rw [h]
      exact fun h => Lexemes.noConfusion h

/-- C24 on `x = 1`, the comment ` set x` and the text `response x`. -/
theorem comments_are_insignificant_witness :
    lexemes_of (tokenize ("x = 1".toList ++ " //".toList ++ " set x".toList ++ "\n".toList ++
        "response x".toList)) =
      lexemes_of (tokenize ("x = 1".toList ++ " \n".toList ++ "response x".toList)) ∧
    lexemes_of (tokenize ("x = 1".toList ++ " \n".toList ++ "response x".toList)) ≠
      Lexemes.out_of_steps :=
  comments_are_insignificant "x = 1".toList "response x".toList " set x".toList
    (by unfold is_c_string; decide) (by unfold is_c_string; decide)
    (by unfold is_c_string; decide) (by decide)
    (by intro line h; exact Scan.noConfusion (h.symm.trans (by rfl : tokenize "x = 1".toList =
      Scan.ok [token_create TokenType.TOKEN_IDENTIFIER (some "x".toList) 1 0,
        token_create TokenType.TOKEN_EQUALS (some "=".toList) 1 2,
        token_create TokenType.TOKEN_NUMBER (some "1".toList) 1 4,
        token_create TokenType.TOKEN_EOF none 1 5])))

/-! ### Parser: associativity and precedence -/

theorem binary_level_pass (is_op : TokenType → Bool)
    (operand : Parser → Parse (ASTNode F × Parser)) (budget : Nat) (p0 p1 : Parser)
    (e1 : ASTNode F) (h1 : operand p0 = Parse.ok (e1, p1))
    (hend : is_op p1.current_token.type = false) :
    binary_level is_op operand (budget + 1) p0 = Parse.ok (e1, p1) := by
  simp only [binary_level, h1, Parse.and_then, binary_loop, hend, Bool.false_eq_true, if_false]

theorem binary_level_one (is_op : TokenType → Bool)
    (operand : Parser → Parse (ASTNode F × Parser)) (budget : Nat) (p0 p1 q1 p2 : Parser)
    (e1 e2 : ASTNode F) (h1 : operand p0 = Parse.ok (e1, p1))
    (ho1 : is_op p1.current_token.type = true) (ha1 : p1.advance = Parse.ok q1)
    (h2 : operand q1 = Parse.ok (e2, p2)) (hend : is_op p2.current_token.type = false) :
    binary_level is_op operand (budget + 2) p0 =
      Parse.ok (ASTNode.binary_op p1.lexeme e1 e2, p2) := by
  simp only [binary_level, h1, Parse.and_then, binary_loop, ho1, if_true, ha1, h2, hend,
    Bool.false_eq_true, if_false]

theorem binary_level_chain (is_op : TokenType → Bool)
    (operand : Parser → Parse (ASTNode F × Parser)) (budget : Nat)
    (p0 p1 q1 p2 q2 p3 : Parser) (e1 e2 e3 : ASTNode F)
    (h1 : operand p0 = Parse.ok (e1, p1))
    (ho1 : is_op p1.current_token.type = true) (ha1 : p1.advance = Parse.ok q1)
    (h2 : operand q1 = Parse.ok (e2, p2))
    (ho2 : is_op p2.current_token.type = true) (ha2 : p2.advance = Parse.ok q2)
    (h3 : operand q2 = Parse.ok (e3, p3)) (hend : is_op p3.current_token.type = false) :
    binary_level is_op operand (budget + 3) p0 =
      Parse.ok (ASTNode.binary_op p2.lexeme (ASTNode.binary_op p1.lexeme e1 e2) e3, p3) := by
  simp only [binary_level, h1, Parse.and_then, binary_loop, ho1, if_true, ha1, h2, ho2, ha2, h3,
    hend, Bool.false_eq_true, if_false]

theorem grammar_level_eq (atof : CStr → F) (budget : Nat)
    (level operand : Parser → Parse (ASTNode F × Parser)) (is_op : TokenType → Bool)
    (hlevel : (level, is_op, operand) ∈ grammar_levels atof budget) :
    level = binary_level is_op operand (budget + 1) := by
  simp only [grammar_levels, List.mem_cons, List.mem_singleton, List.not_mem_nil, or_false,
    Prod.mk.injEq] at hlevel
  rcases hlevel with h | h | h | h | h | h <;> obtain ⟨rfl, rfl, rfl⟩ := h
  · rfl
  · rfl
  · rfl
  · rfl
  · rfl
  · funext p
    rfl

/-- C25. Left associativity. For every operator level of the grammar and every chain
`e1 op1 e2 op2 e3` whose operators belong to that level (the operand parser of the level
returns `e1`, `e2` and `e3`, the tokens between them are operators of the level and the
token after `e3` is not), the parser of the level returns
`BinaryOp(op2, BinaryOp(op1, e1, e2), e3)`. -/
theorem left_associativity (atof : CStr → F) (budget : Nat)
    (level operand : Parser → Parse (ASTNode F × Parser)) (is_op : TokenType → Bool)
    (p0 p1 q1 p2 q2 p3 : Parser) (e1 e2 e3 : ASTNode F)
    (hlevel : (level, is_op, operand) ∈ grammar_levels atof budget) (hb : 2 ≤ budget)
    (h1 : operand p0 = Parse.ok (e1, p1))
    (ho1 : is_op p1.current_token.type = true) (ha1 : p1.advance = Parse.ok q1)
    (h2 : operand q1 = Parse.ok (e2, p2))
    (ho2 : is_op p2.current_token.type = true) (ha2 : p2.advance = Parse.ok q2)
    (h3 : operand q2 = Parse.ok (e3, p3)) (hend : is_op p3.current_token.type = false) :
    level p0 =
      Parse.ok (ASTNode.binary_op p2.lexeme (ASTNode.binary_op p1.lexeme e1 e2) e3, p3) := by
  rw [grammar_level_eq atof budget level operand is_op hlevel]
  obtain ⟨n, rfl⟩ : ∃ n, budget = n + 2 := ⟨budget - 2, by omega⟩
  exact binary_level_chain is_op operand n p0 p1 q1 p2 q2 p3 e1 e2 e3 h1 ho1 ha1 h2 ho2 ha2 h3
    hend

/-- C25 on the source `a - b - c`, at the level of `+` and `-`. -/
theorem left_associativity_witness :
    parse_additive atof_whole 3 (fun p => parse_expression atof_whole 2 p)
        (parser_at "a - b - c".toList 1 TokenType.TOKEN_IDENTIFIER (some "a".toList) 0) =
      Parse.ok (ASTNode.binary_op "-".toList
          (ASTNode.binary_op "-".toList (ASTNode.identifier "a".toList)
            (ASTNode.identifier "b".toList))
          (ASTNode.identifier "c".toList),
        parser_at "a - b - c".toList 9 TokenType.TOKEN_EOF none 9) :=
  left_associativity atof_whole 2
    (parse_additive atof_whole 3 (fun p => parse_expression atof_whole 2 p))
    (parse_multiplicative atof_whole 3 (fun p => parse_expression atof_whole 2 p))
    is_additive
    (parser_at "a - b - c".toList 1 TokenType.TOKEN_IDENTIFIER (some "a".toList) 0)
    (parser_at "a - b - c".toList 3 TokenType.TOKEN_MINUS (some "-".toList) 2)
    (parser_at "a - b - c".toList 5 TokenType.TOKEN_IDENTIFIER (some "b".toList) 4)
    (parser_at "a - b - c".toList 7 TokenType.TOKEN_MINUS (some "-".toList) 6)
    (parser_at "a - b - c".toList 9 TokenType.TOKEN_IDENTIFIER (some "c".toList) 8)
    (parser_at "a - b - c".toList 9 TokenType.TOKEN_EOF none 9)
    (ASTNode.identifier "a".toList) (ASTNode.identifier "b".toList)
    (ASTNode.identifier "c".toList)
    (List.mem_cons_of_mem _ (List.mem_cons_self _ _)) (by decide)
    rfl rfl rfl rfl rfl rfl rfl rfl

theorem level_parse_six (atof : CStr → F) (budget : Nat) (p : Parser) :
    parse_expression atof (budget + 1) p =
      level_parse atof (budget + 1) (fun q => parse_expression atof budget q) 6 p := rfl

theorem binding_level_le (t : TokenType) : binding_level t ≤ 6 := by
  cases t <;> decide

theorem level_ops_eq (k : Nat) (t : TokenType) :
    level_ops k t = decide (1 ≤ k ∧ binding_level t = k) := by
  rcases k with _ | _ | _ | _ | _ | _ | _ | k
  · simp [level_ops]
  · cases t <;> rfl
  · cases t <;> rfl
  · cases t <;> rfl
  · cases t <;> rfl
  · cases t <;> rfl
  · cases t <;> rfl
  · have := binding_level_le t
    have h : ¬ (1 ≤ k + 1 + 1 + 1 + 1 + 1 + 1 + 1 ∧
        binding_level t = k + 1 + 1 + 1 + 1 + 1 + 1 + 1) := by omega
    simp only [level_ops, h, decide_False]

theorem level_ops_false (k : Nat) (t : TokenType) (h : binding_level t ≠ k) :
    level_ops k t = false := by
  rw [level_ops_eq]
  simp [h]

theorem level_ops_true (t : TokenType) (h : 1 ≤ binding_level t) :
    level_ops (binding_level t) t = true := by
  rw [level_ops_eq]
  simp [h]

theorem level_parse_pass (atof : CStr → F) (budget : Nat)
    (expression : Parser → Parse (ASTNode F × Parser)) (q q1 : Parser) (n : ASTNode F)
    (i : Nat) (h : level_parse atof (budget + 1) expression i q = Parse.ok (n, q1)) :
    ∀ k, i ≤ k → (∀ j, i < j → j ≤ k → binding_level q1.current_token.type ≠ j) →
      level_parse atof (budget + 1) expression k q = Parse.ok (n, q1) := by
  intro k
  induction k with
  | zero =>
    intro hik _
    obtain rfl : i = 0 := by omega
    exact h
  | succ k ih =>
    intro hik hj
    by_cases hi : i = k + 1
    · subst hi
      exact h
    · have h1 := ih (by omega) (fun j h1 h2 => hj j h1 (by omega))
      exact binary_level_pass _ _ budget q q1 n h1
        (level_ops_false _ _ (hj (k + 1) (by omega) (Nat.le_refl _)))

theorem parse_primary_atom (atof : CStr → F) (expression : Parser → Parse (ASTNode F × Parser))
    (q q1 : Parser) (ha : is_atom q.current_token.type = true)
    (hadv : q.advance = Parse.ok q1) :
    parse_primary atof expression q = Parse.ok (atom_node atof q.current_token, q1) := by
  unfold parse_primary atom_node check Parser.lexeme
  by_cases h1 : q.current_token.type = TokenType.TOKEN_STRING
  · simp only [h1, decide_True, if_true, hadv, Parse.and_then]
  · by_cases h2 : q.current_token.type = TokenType.TOKEN_NUMBER
    · simp only [h2, decide_True, if_true, hadv, Parse.and_then]
      rfl
    · have h3 : q.current_token.type = TokenType.TOKEN_IDENTIFIER := by
        simp only [is_atom, Bool.or_eq_true, decide_eq_true_eq] at ha
        rcases ha with (h | h) | h
        · exact absurd h h1
        · exact absurd h h2
        · exact h
      simp only [h3, decide_True, if_true, hadv, Parse.and_then]
      rfl

theorem parse_primary_parenthesised (atof : CStr → F)
    (expression : Parser → Parse (ASTNode F × Parser)) (p p1 p2 p3 : Parser) (e : ASTNode F)
    (hp : p.current_token.type = TokenType.TOKEN_LPAREN) (h1 : p.advance = Parse.ok p1)
    (he : expression p1 = Parse.ok (e, p2))
    (hr : p2.current_token.type = TokenType.TOKEN_RPAREN) (h3 : p2.advance = Parse.ok p3) :
    parse_primary atof expression p = Parse.ok (e, p3) := by
  unfold parse_primary check expect check
  simp only [hp, h1, he, hr, h3, Parse.and_then, decide_True, if_true]
  rfl

theorem level_parse_one (atof : CStr → F) (budget : Nat)
    (expression : Parser → Parse (ASTNode F × Parser)) (k : Nat) (p0 p1 q1 p2 : Parser)
    (e1 e2 : ASTNode F)
    (h1 : level_parse atof (budget + 2) expression k p0 = Parse.ok (e1, p1))
    (ho1 : binding_level p1.current_token.type = k + 1) (ha1 : p1.advance = Parse.ok q1)
    (h2 : level_parse atof (budget + 2) expression k q1 = Parse.ok (e2, p2))
    (hend : binding_level p2.current_token.type ≠ k + 1) :
    level_parse atof (budget + 2) expression (k + 1) p0 =
      Parse.ok (ASTNode.binary_op p1.lexeme e1 e2, p2) :=
  binary_level_one _ _ budget p0 p1 q1 p2 e1 e2 h1
    (by rw [← ho1]; exact level_ops_true _ (by omega)) ha1 h2 (level_ops_false _ _ hend)

theorem level_parse_two (atof : CStr → F) (budget : Nat)
    (expression : Parser → Parse (ASTNode F × Parser)) (k : Nat)
    (p0 p1 q1 p2 q2 p3 : Parser) (e1 e2 e3 : ASTNode F)
    (h1 : level_parse atof (budget + 3) expression k p0 = Parse.ok (e1, p1))
    (ho1 : binding_level p1.current_token.type = k + 1) (ha1 : p1.advance = Parse.ok q1)
    (h2 : level_parse atof (budget + 3) expression k q1 = Parse.ok (e2, p2))
    (ho2 : binding_level p2.current_token.type = k + 1) (ha2 : p2.advance = Parse.ok q2)
    (h3 : level_parse atof (budget + 3) expression k q2 = Parse.ok (e3, p3))
    (hend : binding_level p3.current_token.type ≠ k + 1) :
    level_parse atof (budget + 3) expression (k + 1) p0 =
      Parse.ok (ASTNode.binary_op p2.lexeme (ASTNode.binary_op p1.lexeme e1 e2) e3, p3) :=
  binary_level_chain _ _ budget p0 p1 q1 p2 q2 p3 e1 e2 e3 h1
    (by rw [← ho1]; exact level_ops_true _ (by omega)) ha1 h2
    (by rw [← ho2]; exact level_ops_true _ (by omega)) ha2 h3 (level_ops_false _ _ hend)

theorem precedence_of_atoms (atof : CStr → F) (budget : Nat)
    (expression : Parser → Parse (ASTNode F × Parser)) (q0 q1 q2 q3 q4 q5 : Parser)
    (a0 : is_atom q0.current_token.type = true) (h01 : q0.advance = Parse.ok q1)
    (l1 : 1 ≤ binding_level q1.current_token.type) (h12 : q1.advance = Parse.ok q2)
    (a2 : is_atom q2.current_token.type = true) (h23 : q2.advance = Parse.ok q3)
    (l3 : 1 ≤ binding_level q3.current_token.type) (h34 : q3.advance = Parse.ok q4)
    (a4 : is_atom q4.current_token.type = true) (h45 : q4.advance = Parse.ok q5)
    (l5 : binding_level q5.current_token.type = 0) :
    level_parse atof (budget + 3) expression 6 q0 =
      Parse.ok
        (if binding_level q3.current_token.type < binding_level q1.current_token.type then
          ASTNode.binary_op q1.lexeme (atom_node atof q0.current_token)
            (ASTNode.binary_op q3.lexeme (atom_node atof q2.current_token)
              (atom_node atof q4.current_token))
        else
          ASTNode.binary_op q3.lexeme
            (ASTNode.binary_op q1.lexeme (atom_node atof q0.current_token)
              (atom_node atof q2.current_token))
            (atom_node atof q4.current_token), q5) := by
  have A0 : level_parse atof (budget + 3) expression 0 q0 =
      Parse.ok (atom_node atof q0.current_token, q1) :=
        parse_primary_atom atof expression q0 q1 a0 h01
  have A2 : level_parse atof (budget + 3) expression 0 q2 =
      Parse.ok (atom_node atof q2.current_token, q3) :=
        parse_primary_atom atof expression q2 q3 a2 h23
  have A4 : level_parse atof (budget + 3) expression 0 q4 =
      Parse.ok (atom_node atof q4.current_token, q5) :=
        parse_primary_atom atof expression q4 q5 a4 h45
  have m1 := binding_level_le q1.current_token.type
  have m3 := binding_level_le q3.current_token.type
  obtain ⟨k1, hk1⟩ : ∃ k1, binding_level q1.current_token.type = k1 + 1 :=
    ⟨binding_level q1.current_token.type - 1, by omega⟩
  obtain ⟨k3, hk3⟩ : ∃ k3, binding_level q3.current_token.type = k3 + 1 :=
    ⟨binding_level q3.current_token.type - 1, by omega⟩
  rw [hk1, hk3]
  rw [hk1] at m1
  rw [hk3] at m3
  have E := level_parse_pass atof (budget + 2) expression q0 q1 _ 0 A0 k1 (Nat.zero_le _)
    (fun j _ h2 => by rw [hk1]; omega)
  have T5 : ∀ j, 0 < j → binding_level q5.current_token.type ≠ j := by
    intro j hj
    rw [l5]
    omega
  rcases Nat.lt_trichotomy k3 k1 with hlt | heq | hgt
  · rw [if_pos (by omega)]
    have B2 := level_parse_pass atof (budget + 2) expression q2 q3 _ 0 A2 k3 (Nat.zero_le _)
      (fun j _ h2 => by rw [hk3]; omega)
    have B4 := level_parse_pass atof (budget + 2) expression q4 q5 _ 0 A4 k3 (Nat.zero_le _)
      (fun j h1 _ => T5 j h1)
    have C := level_parse_one atof (budget + 1) expression k3 q2 q3 q4 q5 _ _ B2 hk3 h34 B4
      (T5 _ (Nat.succ_pos _))
    have D := level_parse_pass atof (budget + 2) expression q2 q5 _ (k3 + 1) C k1 (by omega)
      (fun j h1 _ => T5 j (by omega))
    have G := level_parse_one atof (budget + 1) expression k1 q0 q1 q2 q5 _ _ E hk1 h12 D
      (T5 _ (Nat.succ_pos _))
    exact level_parse_pass atof (budget + 2) expression q0 q5 _ (k1 + 1) G 6 (by omega)
      (fun j h1 _ => T5 j (by omega))
  · subst heq
    rw [if_neg (Nat.lt_irrefl _)]
    have B2 := level_parse_pass atof (budget + 2) expression q2 q3 _ 0 A2 k3 (Nat.zero_le _)
      (fun j _ h2 => by rw [hk3]; omega)
    have B4 := level_parse_pass atof (budget + 2) expression q4 q5 _ 0 A4 k3 (Nat.zero_le _)
      (fun j h1 _ => T5 j h1)
    have G := level_parse_two atof budget expression k3 q0 q1 q2 q3 q4 q5 _ _ _ E hk1 h12 B2
      hk3 h34 B4 (T5 _ (Nat.succ_pos _))
    exact level_parse_pass atof (budget + 2) expression q0 q5 _ (k3 + 1) G 6 (by omega)
      (fun j h1 _ => T5 j (by omega))
  · rw [if_neg (by omega)]
    have B2 := level_parse_pass atof (budget + 2) expression q2 q3 _ 0 A2 k1 (Nat.zero_le _)
      (fun j _ h2 => by rw [hk3]; omega)
    have G := level_parse_one atof (budget + 1) expression k1 q0 q1 q2 q3 _ _ E hk1 h12 B2
      (by rw [hk3]; omega)
    have D := level_parse_pass atof (budget + 2) expression q0 q3 _ (k1 + 1) G k3 (by omega)
      (fun j _ h2 => by rw [hk3]; omega)
    have B4 := level_parse_pass atof (budget + 2) expression q4 q5 _ 0 A4 k3 (Nat.zero_le _)
      (fun j h1 _ => T5 j h1)
    have C := level_parse_one atof (budget + 1) expression k3 q0 q3 q4 q5 _ _ D hk3 h34 B4
      (T5 _ (Nat.succ_pos _))
    exact level_parse_pass atof (budget + 2) expression q0 q5 _ (k3 + 1) C 6 (by omega)
      (fun j h1 _ => T5 j (by omega))

/-- C26. Operator precedence. On the tokens `a op1 b op2 c` (operands that are single
tokens, the token after `c` not an operator), `parse_expression` gives
`BinaryOp(op1, a, BinaryOp(op2, b, c))` when `op2` binds tighter than `op1` in the order
`* /`, `+ -`, `< > <= >=`, `== !=`, `&&`, `||`, and `BinaryOp(op2, BinaryOp(op1, a, b), c)`
otherwise; and `parse_primary` at `(` returns the tree of the expression between the
parentheses, with no extra node. -/
theorem operator_precedence (atof : CStr → F) (budget : Nat) (q0 q1 q2 q3 q4 q5 : Parser)
    (hb : 2 ≤ budget)
    (a0 : is_atom q0.current_token.type = true) (h01 : q0.advance = Parse.ok q1)
    (l1 : 1 ≤ binding_level q1.current_token.type) (h12 : q1.advance = Parse.ok q2)
    (a2 : is_atom q2.current_token.type = true) (h23 : q2.advance = Parse.ok q3)
    (l3 : 1 ≤ binding_level q3.current_token.type) (h34 : q3.advance = Parse.ok q4)
    (a4 : is_atom q4.current_token.type = true) (h45 : q4.advance = Parse.ok q5)
    (l5 : binding_level q5.current_token.type = 0) :
    parse_expression atof (budget + 1) q0 =
      Parse.ok
        (if binding_level q3.current_token.type < binding_level q1.current_token.type then
          ASTNode.binary_op q1.lexeme (atom_node atof q0.current_token)
            (ASTNode.binary_op q3.lexeme (atom_node atof q2.current_token)
              (atom_node atof q4.current_token))
        else
          ASTNode.binary_op q3.lexeme
            (ASTNode.binary_op q1.lexeme (atom_node atof q0.current_token)
              (atom_node atof q2.current_token))
            (atom_node atof q4.current_token), q5) ∧
    ∀ (p p1 p2 p3 : Parser) (e : ASTNode F),
      p.current_token.type = TokenType.TOKEN_LPAREN → p.advance = Parse.ok p1 →
      parse_expression atof budget p1 = Parse.ok (e, p2) →
      p2.current_token.type = TokenType.TOKEN_RPAREN → p2.advance = Parse.ok p3 →
      parse_primary atof (fun q => parse_expression atof budget q) p = Parse.ok (e, p3) := by
  constructor
  · obtain ⟨n, rfl⟩ : ∃ n, budget = n + 2 := ⟨budget - 2, by omega⟩
    rw [level_parse_six]
    exact precedence_of_atoms atof n _ q0 q1 q2 q3 q4 q5 a0 h01 l1 h12 a2 h23 l3 h34 a4 h45 l5
  · intro p p1 p2 p3 e hp h1 he hr h3
    exact parse_primary_parenthesised atof _ p p1 p2 p3 e hp h1 he hr h3

/-- C26 on the sources `a + b * c` and `(a + b) * c`. -/
theorem operator_precedence_witness :
    (parse_expression atof_whole 3
        (parser_at "a + b * c".toList 1 TokenType.TOKEN_IDENTIFIER (some "a".toList) 0) =
      Parse.ok (ASTNode.binary_op "+".toList (ASTNode.identifier "a".toList)
          (ASTNode.binary_op "*".toList (ASTNode.identifier "b".toList)
            (ASTNode.identifier "c".toList)),
        parser_at "a + b * c".toList 9 TokenType.TOKEN_EOF none 9)) ∧
    parse_primary atof_whole (fun q => parse_expression atof_whole 2 q)
        (parser_at "(a + b) * c".toList 1 TokenType.TOKEN_LPAREN (some "(".toList) 0) =
      Parse.ok (ASTNode.binary_op "+".toList (ASTNode.identifier "a".toList)
          (ASTNode.identifier "b".toList),
        parser_at "(a + b) * c".toList 9 TokenType.TOKEN_STAR (some "*".toList) 8) ∧
    parse_expression atof_whole 3
        (parser_at "(a + b) * c".toList 1 TokenType.TOKEN_LPAREN (some "(".toList) 0) =
      Parse.ok (ASTNode.binary_op "*".toList
          (ASTNode.binary_op "+".toList (ASTNode.identifier "a".toList)
            (ASTNode.identifier "b".toList))
          (ASTNode.identifier "c".toList),
        parser_at "(a + b) * c".toList 11 TokenType.TOKEN_EOF none 11) :=
  have h := operator_precedence atof_whole 2
    (parser_at "a + b * c".toList 1 TokenType.TOKEN_IDENTIFIER (some "a".toList) 0)
    (parser_at "a + b * c".toList 3 TokenType.TOKEN_PLUS (some "+".toList) 2)
    (parser_at "a + b * c".toList 5 TokenType.TOKEN_IDENTIFIER (some "b".toList) 4)
    (parser_at "a + b * c".toList 7 TokenType.TOKEN_STAR (some "*".toList) 6)
    (parser_at "a + b * c".toList 9 TokenType.TOKEN_IDENTIFIER (some "c".toList) 8)
    (parser_at "a + b * c".toList 9 TokenType.TOKEN_EOF none 9)
    (by decide) rfl rfl (by decide) rfl rfl rfl (by decide) rfl rfl rfl rfl
  ⟨h.1,
    h.2 (parser_at "(a + b) * c".toList 1 TokenType.TOKEN_LPAREN (some "(".toList) 0)
      (parser_at "(a + b) * c".toList 2 TokenType.TOKEN_IDENTIFIER (some "a".toList) 1)
      (parser_at "(a + b) * c".toList 7 TokenType.TOKEN_RPAREN (some ")".toList) 6)
      (parser_at "(a + b) * c".toList 9 TokenType.TOKEN_STAR (some "*".toList) 8)
      _ rfl rfl rfl rfl rfl,
    rfl⟩

/-! ### Parser: statements and routes -/

theorem peek_next_eq (parser : Parser) (next : Token) (l1 : Lexer)
    (hwf : well_formed parser.lexer)
    (hnext : lexer_next_token parser.lexer = Scan.ok (next, l1)) :
    peek_next parser = Parse.ok (next, parser) := by
  have hs := ((lexer_next_token_spec parser.lexer hwf).2 next l1 hnext).2.1
  unfold peek_next
  rw [hnext]
  simp only [hs]

theorem advance_eq (parser : Parser) (next : Token) (l1 : Lexer)
    (hnext : lexer_next_token parser.lexer = Scan.ok (next, l1)) :
    parser.advance = Parse.ok { lexer := l1, current_token := next } := by
  unfold Parser.advance
  rw [hnext]

theorem parse_statement_identifier (atof : CStr → F) (budget : Nat) (parser : Parser)
    (next : Token) (l1 : Lexer)
    (hid : parser.current_token.type = TokenType.TOKEN_IDENTIFIER)
    (hwf : well_formed parser.lexer)
    (hnext : lexer_next_token parser.lexer = Scan.ok (next, l1)) :
    parse_statement atof (budget + 1) parser =
      if next.type = TokenType.TOKEN_EQUALS then
        (Parser.advance { lexer := l1, current_token := next }).and_then (fun p2 =>
          (parse_expression atof (budget + 1) p2).and_then
            (fun r => Parse.ok (ASTNode.assignment parser.lexeme r.1, r.2)))
      else
        Parse.ok (ASTNode.identifier parser.lexeme, { lexer := l1, current_token := next }) := by
  have hr : ¬ parser.current_token.type = TokenType.TOKEN_RESPONSE := by
    rw [hid]; decide
  simp only [parse_statement, check, hr, hid, decide_False, decide_True, Bool.false_eq_true,
    if_false, if_true, peek_next_eq parser next l1 hwf hnext, Parse.and_then]
  by_cases he : next.type = TokenType.TOKEN_EQUALS
  · simp only [if_pos he, parse_assignment, advance_eq parser next l1 hnext, Parse.and_then,
      expect, check, he, decide_True, if_true]
    rfl
  · simp only [if_neg he, advance_eq parser next l1 hnext]
    rfl

/-- C27. Statement disambiguation. When `parse_statement` starts at an IDENTIFIER token and
`next` is the token that follows it: if `next` is `=` (tag EQUALS, not the tag EQ of `==`),
the statement is parsed as an assignment, consuming the identifier, the `=` and one
expression and giving `Assignment(name, expr)`; otherwise the result is the bare
`Identifier(name)` and exactly the identifier is consumed (`next` is the current token
afterwards). So a statement that is returned is an Assignment if and only if `next` is
`=`. -/
theorem statement_disambiguation (atof : CStr → F) (budget : Nat) (parser : Parser)
    (next : Token) (l1 : Lexer)
    (hid : parser.current_token.type = TokenType.TOKEN_IDENTIFIER)
    (hwf : well_formed parser.lexer)
    (hnext : lexer_next_token parser.lexer = Scan.ok (next, l1)) :
    (next.type = TokenType.TOKEN_EQUALS →
      parse_statement atof (budget + 1) parser =
        (Parser.advance { lexer := l1, current_token := next }).and_then (fun p2 =>
          (parse_expression atof (budget + 1) p2).and_then
            (fun r => Parse.ok (ASTNode.assignment parser.lexeme r.1, r.2)))) ∧
    (next.type ≠ TokenType.TOKEN_EQUALS →
      parse_statement atof (budget + 1) parser =
        Parse.ok (ASTNode.identifier parser.lexeme,
          { lexer := l1, current_token := next })) ∧
    (∀ node p1, parse_statement atof (budget + 1) parser = Parse.ok (node, p1) →
      ((∃ e, node = ASTNode.assignment parser.lexeme e) ↔
        next.type = TokenType.TOKEN_EQUALS)) := by
  have h := parse_statement_identifier atof budget parser next l1 hid hwf hnext
  refine ⟨fun he => by rw [h, if_pos he], fun he => by rw [h, if_neg he], ?_⟩
  intro node p1 hp
  rw [h] at hp
  by_cases he : next.type = TokenType.TOKEN_EQUALS
  · rw [if_pos he] at hp
    refine ⟨fun _ => he, fun _ => ?_⟩
    cases ha : Parser.advance { lexer := l1, current_token := next } with
    | ok p2 =>
      rw [ha] at hp
      simp only [Parse.and_then] at hp
      cases hx : parse_expression atof (budget + 1) p2 with
      | ok r =>
        rw [hx] at hp
        simp only [] at hp
        exact ⟨r.1, ((Prod.mk.inj (Parse.ok.inj hp)).1).symm⟩
      | scan_error e => rw [hx] at hp; exact Parse.noConfusion hp
      | parse_error e => rw [hx] at hp; exact Parse.noConfusion hp
      | out_of_budget => rw [hx] at hp; exact Parse.noConfusion hp
    | scan_error e => rw [ha] at hp; exact Parse.noConfusion hp
    | parse_error e => rw [ha] at hp; exact Parse.noConfusion hp
    | out_of_budget => rw [ha] at hp; exact Parse.noConfusion hp
  · rw [if_neg he] at hp
    refine ⟨fun ⟨e, hn⟩ => ?_, fun h1 => absurd h1 he⟩
    have := (Prod.mk.inj (Parse.ok.inj hp)).1
    rw [hn] at this
    exact ASTNode.noConfusion this

/-- C27 on the statements `x = 1 + 2` and `x == 1`. -/
theorem statement_disambiguation_witness :
    parse_statement atof_whole 3
        (parser_at "x = 1 + 2".toList 1 TokenType.TOKEN_IDENTIFIER (some "x".toList) 0) =
      Parse.ok (ASTNode.assignment "x".toList
          (ASTNode.binary_op "+".toList (ASTNode.number 1) (ASTNode.number 2)),
        parser_at "x = 1 + 2".toList 9 TokenType.TOKEN_EOF none 9) ∧
    parse_statement atof_whole 3
        (parser_at "x == 1".toList 1 TokenType.TOKEN_IDENTIFIER (some "x".toList) 0) =
      Parse.ok (ASTNode.identifier "x".toList,
        parser_at "x == 1".toList 4 TokenType.TOKEN_EQ (some "==".toList) 2) :=
  ⟨(statement_disambiguation atof_whole 2
      (parser_at "x = 1 + 2".toList 1 TokenType.TOKEN_IDENTIFIER (some "x".toList) 0)
      (token_create TokenType.TOKEN_EQUALS (some "=".toList) 1 2)
      (parser_at "x = 1 + 2".toList 3 TokenType.TOKEN_EOF none 0).lexer
      rfl (by constructor <;> decide) rfl).1 rfl,
    (statement_disambiguation atof_whole 2
      (parser_at "x == 1".toList 1 TokenType.TOKEN_IDENTIFIER (some "x".toList) 0)
      (token_create TokenType.TOKEN_EQ (some "==".toList) 1 2)
      (parser_at "x == 1".toList 4 TokenType.TOKEN_EOF none 0).lexer
      rfl (by constructor <;> decide) rfl).2.1 (by decide)⟩

theorem parse_route_path (atof : CStr → F) (budget : Nat) (parser p1 : Parser)
    (node : ASTNode F) (h : parse_route atof budget parser = Parse.ok (node, p1)) :
    route_path node = declared_path parser ∧ ∃ path, route_path node = some path := by
  unfold parse_route expect check at h
  unfold declared_path
  by_cases hr : parser.current_token.type = TokenType.TOKEN_ROUTE
  · simp only [hr, decide_True, if_true] at h ⊢
    cases ha : parser.advance with
    | ok q =>
      rw [ha] at h
      simp only [Parse.and_then] at h ⊢
      by_cases hs : q.current_token.type = TokenType.TOKEN_STRING
      · simp only [hs, decide_True, Bool.not_true, Bool.false_eq_true, if_false, if_true] at h ⊢
        cases hq : q.advance with
        | ok q2 =>
          rw [hq] at h
          simp only [] at h
          cases hb : parse_block (fun q => parse_statement atof budget q) budget q2 with
          | ok r =>
            rw [hb] at h
            simp only [] at h
            obtain ⟨hn, -⟩ := Prod.mk.inj (Parse.ok.inj h)
            rw [← hn]
            exact ⟨rfl, _, rfl⟩
          | scan_error e => rw [hb] at h; exact Parse.noConfusion h
          | parse_error e => rw [hb] at h; exact Parse.noConfusion h
          | out_of_budget => rw [hb] at h; exact Parse.noConfusion h
        | scan_error e => rw [hq] at h; exact Parse.noConfusion h
        | parse_error e => rw [hq] at h; exact Parse.noConfusion h
        | out_of_budget => rw [hq] at h; exact Parse.noConfusion h
      · simp only [hs, decide_False, Bool.not_false, if_true] at h
        exact Parse.noConfusion h
    | scan_error e => rw [ha] at h; exact Parse.noConfusion h
    | parse_error e => rw [ha] at h; exact Parse.noConfusion h
    | out_of_budget => rw [ha] at h; exact Parse.noConfusion h
  · simp only [hr, decide_False, Bool.false_eq_true, if_false, Parse.and_then] at h
    exact Parse.noConfusion h

theorem program_loop_routes (atof : CStr → F) (budget : Nat) :
    ∀ (steps : List (ASTNode F × Parser)) (tests : Nat) (routes : List (ASTNode F))
      (parser : Parser), parses_routes atof budget parser steps → steps.length < tests →
      ∃ pend, program_loop atof budget tests routes parser =
          Parse.ok (ASTNode.program (routes ++ steps.map (fun step => step.1)), pend) ∧
        pend.current_token.type = TokenType.TOKEN_EOF := by
  intro steps
  induction steps with
  | nil =>
    intro tests routes parser h ht
    obtain ⟨n, rfl⟩ : ∃ n, tests = n + 1 := ⟨tests - 1, by simp at ht; omega⟩
    have h0 : parser.current_token.type = TokenType.TOKEN_EOF := h
    refine ⟨parser, ?_, h0⟩
    simp only [program_loop, check, h0, decide_True, Bool.not_true, Bool.false_eq_true,
      if_false, List.map_nil, List.append_nil]
  | cons step rest ih =>
    intro tests routes parser h ht
    obtain ⟨n, rfl⟩ : ∃ n, tests = n + 1 := ⟨tests - 1, by simp at ht; omega⟩
    obtain ⟨h0, h1, h2⟩ := h
    obtain ⟨pend, hp, he⟩ := ih n (routes ++ [step.1]) step.2 h2
      (by simp only [List.length_cons] at ht; omega)
    refine ⟨pend, ?_, he⟩
    simp only [program_loop, check, h0, decide_False, Bool.not_false, if_true, h1,
      Parse.and_then, hp, List.map_cons, List.append_assoc, List.singleton_append]

theorem declared_paths (atof : CStr → F) (budget : Nat) :
    ∀ (steps : List (ASTNode F × Parser)) (parser : Parser),
      parses_routes atof budget parser steps →
      steps.map (fun step => route_path step.1) =
        (declaration_starts parser steps).map declared_path ∧
      ∀ step ∈ steps, ∃ path, route_path step.1 = some path := by
  intro steps
  induction steps with
  | nil =>
    intro parser _
    exact ⟨rfl, fun _ h => absurd h (List.not_mem_nil _)⟩
  | cons step rest ih =>
    intro parser h
    obtain ⟨-, h1, h2⟩ := h
    obtain ⟨hp, hsome⟩ := parse_route_path atof budget parser step.2 step.1 h1
    obtain ⟨ih1, ih2⟩ := ih step.2 h2
    constructor
    · simp only [declaration_starts, List.map_cons, List.length_cons, List.take_succ_cons,
        hp, List.cons.injEq, true_and]
      exact ih1
    · intro s hs
      rcases List.mem_cons.mp hs with h | h
      · rw [h]; exact hsome
      · exact ih2 s h

/-- C28. Route order is preserved by parsing. For a source of `n` route declarations (for
each one in turn `parse_route` succeeds, and EOF follows the last), `parser_parse` returns
a Program whose routes are the `n` Route nodes of the declarations in source order, and
the path of the i-th Route node is the string literal of the i-th declaration; the empty
source parses to a Program with zero routes. -/
theorem route_order_preserved (atof : CStr → F) (budget : Nat) (parser : Parser)
    (steps : List (ASTNode F × Parser)) (h : parses_routes atof budget parser steps)
    (hb : steps.length < budget) :
    (∃ pend, parser_parse atof budget parser =
        Parse.ok (ASTNode.program (steps.map (fun step => step.1)), pend) ∧
      pend.current_token.type = TokenType.TOKEN_EOF) ∧
    (steps.map (fun step => step.1)).length = steps.length ∧
    steps.map (fun step => route_path step.1) =
      (declaration_starts parser steps).map declared_path ∧
    (∀ step ∈ steps, ∃ path, route_path step.1 = some path) ∧
    ∀ b, parse_source atof (b + 1) [] =
      Parse.ok (ASTNode.program [], parser_at [] 0 TokenType.TOKEN_EOF none 0) := by
  obtain ⟨pend, hp, he⟩ := program_loop_routes atof budget steps budget [] parser h hb
  obtain ⟨h1, h2⟩ := declared_paths atof budget steps parser h
  refine ⟨⟨pend, ?_, he⟩, List.length_map _ _, h1, h2, fun b => rfl⟩
  rw [List.nil_append] at hp
  exact hp

/-- C28 on a source of two declarations, `/a` then `/b`. -/
theorem route_order_preserved_witness :
    (∃ pend, parser_parse atof_whole 3
          (parser_at two_routes 5 TokenType.TOKEN_ROUTE (some "route".toList) 0) =
        Parse.ok (ASTNode.program (two_routes_steps.map (fun step => step.1)), pend) ∧
      pend.current_token.type = TokenType.TOKEN_EOF) ∧
    (two_routes_steps.map (fun step => step.1)).length = two_routes_steps.length ∧
    two_routes_steps.map (fun step => route_path step.1) =
      (declaration_starts
        (parser_at two_routes 5 TokenType.TOKEN_ROUTE (some "route".toList) 0)
        two_routes_steps).map declared_path ∧
    (∀ step ∈ two_routes_steps, ∃ path, route_path step.1 = some path) ∧
    ∀ b, parse_source atof_whole (b + 1) [] =
      Parse.ok (ASTNode.program [], parser_at [] 0 TokenType.TOKEN_EOF none 0) :=
  route_order_preserved atof_whole 3
    (parser_at two_routes 5 TokenType.TOKEN_ROUTE (some "route".toList) 0) two_routes_steps
    ⟨by decide, rfl, by decide, rfl, rfl⟩ (by decide)

/-! ### Evaluation order and frame properties -/

theorem binary_op_result_diagnostics (ops : DoubleOps F) (op : CStr) (l r : Value F) :
    (binary_op_result ops op l r).2 = [] ∨
      (binary_op_result ops op l r).2 = [division_by_zero_message] := by
  unfold binary_op_result
  split_ifs
  · left; rfl
  · left
    split <;> rfl
  · cases hn : number_operands l r with
    | none => left; rfl
    | some ab =>
      simp only [Option.bind]
      cases hb : numeric_branch ops op ab.1 ab.2 with
      | none => left; rfl
      | some res =>
        simp only []
        unfold numeric_branch at hb
        split_ifs at hb <;> first
          | (obtain rfl := Option.some.inj hb; left; rfl)
          | (obtain rfl := Option.some.inj hb; right; rfl)

theorem binary_op_result_not_numbers (ops : DoubleOps F) (op : CStr) (l r : Value F)
    (h : number_operands l r = none) : (binary_op_result ops op l r).2 = [] := by
  unfold binary_op_result
  split_ifs
  · rfl
  · rw [h]
  · rw [h]
    rfl

/-- C33. Left-to-right evaluation. For every BinaryOp node and environment, the diagnostics
written while evaluating the node are those of the left operand, then those of the right
operand, then the diagnostic of the operator itself (none, or `Division by zero`); the
value is the operator applied to the two operand values, so both operands are evaluated
whatever the operator is: with two unbound identifiers as operands both `Undefined
variable` messages are written, left first. -/
theorem left_to_right_evaluation (ops : DoubleOps F) (interp : Interpreter F) (op : CStr)
    (left right : ASTNode F) :
    (eval_expression ops interp (ASTNode.binary_op op left right)).2 =
      (eval_expression ops interp left).2 ++ (eval_expression ops interp right).2 ++
        (binary_op_result ops op (eval_expression ops interp left).1
          (eval_expression ops interp right).1).2 ∧
    (eval_expression ops interp (ASTNode.binary_op op left right)).1 =
      (binary_op_result ops op (eval_expression ops interp left).1
        (eval_expression ops interp right).1).1 ∧
    ((binary_op_result ops op (eval_expression ops interp left).1
        (eval_expression ops interp right).1).2 = [] ∨
      (binary_op_result ops op (eval_expression ops interp left).1
        (eval_expression ops interp right).1).2 = [division_by_zero_message]) ∧
    ∀ a b, get_variable interp a = none → get_variable interp b = none →
      (eval_expression ops interp
        (ASTNode.binary_op op (ASTNode.identifier a) (ASTNode.identifier b))).2 =
        [undefined_variable_message a, undefined_variable_message b] := by
  refine ⟨by simp only [eval_expression], by simp only [eval_expression],
    binary_op_result_diagnostics ops op _ _, ?_⟩
  intro a b ha hb
  simp only [eval_expression, ha, hb]
  rw [binary_op_result_not_numbers ops op value_create_null value_create_null rfl]
  rfl

/-- C36. Other statement kinds are no-ops. For every interpreter state and every node that
is not an Assignment, a Response or a Block, `execute_statement` returns the interpreter
unchanged (same environment, nothing written to the output) and writes no diagnostic. -/
theorem other_statements_are_no_ops (ops : DoubleOps F) (interp : Interpreter F)
    (node : ASTNode F) (h1 : ∀ name value, node ≠ ASTNode.assignment name value)
    (h2 : ∀ value is_html, node ≠ ASTNode.response value is_html)
    (h3 : ∀ statements, node ≠ ASTNode.block statements) :
    execute_statement ops interp node = (interp, []) := by
  cases node with
  | assignment name value => exact absurd rfl (h1 name value)
  | response value is_html => exact absurd rfl (h2 value is_html)
  | block statements => exact absurd rfl (h3 statements)
  | _ => simp only [execute_statement]

/-- C36 on the bare identifier statement `x` with `x` unbound. -/
theorem other_statements_are_no_ops_witness :
    execute_statement wholeOps interpreter_init (ASTNode.identifier "x".toList) =
      (interpreter_init, []) :=
  other_statements_are_no_ops wholeOps interpreter_init (ASTNode.identifier "x".toList)
    (fun _ _ h => ASTNode.noConfusion h) (fun _ _ h => ASTNode.noConfusion h)
    (fun _ h => ASTNode.noConfusion h)

/-- C38. Expression evaluation is read-only and total. For every node and environment
`eval_expression` gives a value (it is a total function that only reads the environment);
executing a Response statement leaves the variables as they were and only appends the
response text to the output and writes the diagnostics of the expression; an Assignment
inside an html block adds nothing to the text of the block and binds nothing. -/
theorem evaluation_is_read_only (ops : DoubleOps F) (interp : Interpreter F) :
    (∀ node, ∃ value diagnostics, eval_expression ops interp node = (value, diagnostics)) ∧
    (∀ value is_html,
      (execute_statement ops interp (ASTNode.response value is_html)).1.vars = interp.vars ∧
      (execute_statement ops interp (ASTNode.response value is_html)).1.output =
        interp.output ++ response_text ops is_html (eval_expression ops interp value).1 ∧
      (execute_statement ops interp (ASTNode.response value is_html)).2 =
        (eval_expression ops interp value).2) ∧
    (∀ name value rest,
      eval_expression ops interp (ASTNode.block (ASTNode.assignment name value :: rest)) =
        eval_expression ops interp (ASTNode.block rest)) ∧
    ∀ name value rest m,
      get_variable (execute_statement ops interp
        (ASTNode.response (ASTNode.block (ASTNode.assignment name value :: rest)) true)).1 m =
        get_variable interp m := by
  refine ⟨fun node => ⟨_, _, rfl⟩, fun value is_html => ?_, fun name value rest => ?_,
    fun name value rest m => ?_⟩
  · simp only [execute_statement, and_self]
  · simp only [eval_expression, html_block_concat]
  · simp only [execute_statement, get_variable]

theorem find_in_routes_some (path : CStr) :
    ∀ (routes : List (ASTNode F)) (interp interp1 : Interpreter F) (route : ASTNode F),
      find_in_routes path routes interp = (some route, interp1) →
      ∃ pattern body, route = ASTNode.route pattern body ∧ route ∈ routes ∧
        ((pattern = path ∧ interp1 = interp) ∨
          (pattern ≠ path ∧ (route_matches pattern path).1 = true ∧
            interp1 = bind_params interp (route_matches pattern path).2)) := by
  intro routes
  induction routes with
  | nil =>
    intro interp interp1 route h
    simp only [find_in_routes] at h
    exact Option.noConfusion (Prod.mk.inj h).1
  | cons r rest ih =>
    intro interp interp1 route h
    have hrest : find_in_routes path rest interp = (some route, interp1) →
        ∃ pattern body, route = ASTNode.route pattern body ∧ route ∈ r :: rest ∧
          ((pattern = path ∧ interp1 = interp) ∨
            (pattern ≠ path ∧ (route_matches pattern path).1 = true ∧
              interp1 = bind_params interp (route_matches pattern path).2)) := by
      intro h1
      obtain ⟨pattern, body, h2, h3, h4⟩ := ih interp interp1 route h1
      exact ⟨pattern, body, h2, List.mem_cons_of_mem _ h3, h4⟩
    cases r with
    | route route_path body =>
      simp only [find_in_routes] at h
      by_cases he : route_path = path
      · rw [if_pos he] at h
        obtain ⟨h1, h2⟩ := Prod.mk.inj h
        obtain rfl := Option.some.inj h1
        exact ⟨route_path, body, rfl, List.mem_cons_self _ _, Or.inl ⟨he, h2.symm⟩⟩
      · rw [if_neg he] at h
        by_cases hm : (route_matches route_path path).1 = true
        · rw [if_pos hm] at h
          obtain ⟨h1, h2⟩ := Prod.mk.inj h
          obtain rfl := Option.some.inj h1
          exact ⟨route_path, body, rfl, List.mem_cons_self _ _, Or.inr ⟨he, hm, h2.symm⟩⟩
        · rw [if_neg hm] at h
          exact hrest h
    | _ =>
      simp only [find_in_routes] at h
      exact hrest h

/-- C39. A failed lookup binds nothing. For every program, request path and environment
`E`: if `find_matching_route` returns no route, the environment is still `E`; if it
returns a route, the environment is `E` itself (the pattern is the path) or `E` with the
parameters of the returned route bound, so the routes rejected before it have bound
nothing. -/
theorem failed_lookup_binds_nothing (program : ASTNode F) (path : CStr)
    (interp : Interpreter F) :
    ((find_matching_route program path interp).1 = none →
      (find_matching_route program path interp).2 = interp) ∧
    ∀ route interp1, find_matching_route program path interp = (some route, interp1) →
      ∃ pattern body, route = ASTNode.route pattern body ∧
        ((pattern = path ∧ interp1 = interp) ∨
          (pattern ≠ path ∧ (route_matches pattern path).1 = true ∧
            interp1 = bind_params interp (route_matches pattern path).2)) := by
  refine ⟨find_matching_route_none program path interp, ?_⟩
  intro route interp1 h
  cases program with
  | program routes =>
    simp only [find_matching_route] at h
    obtain ⟨pattern, body, h1, -, h2⟩ := find_in_routes_some path routes interp interp1 route h
    exact ⟨pattern, body, h1, h2⟩
  | _ =>
    simp only [find_matching_route] at h
    exact Option.noConfusion (Prod.mk.inj h).1

/-! ### Shape of the environment -/

theorem lookup_none_iff (n : CStr) (vs : List (Variable F)) :
    lookup n vs = none ↔ n ∉ vs.map (fun var => var.name) := by
  induction vs with
  | nil => simp [lookup]
  | cons var rest ih =>
    by_cases h : var.name = n
    · simp [lookup, h]
    · have h1 : ¬ n = var.name := fun e => h e.symm
      simp [lookup, h, h1, ih]

theorem update_existing_none (n : CStr) (v : Value F) (vs : List (Variable F))
    (h : lookup n vs = none) : update_existing n v vs = none := by
  induction vs with
  | nil => rfl
  | cons var rest ih =>
    by_cases hn : var.name = n
    · simp [lookup, hn] at h
    · simp only [lookup, if_neg hn] at h
      simp only [update_existing, if_neg hn, ih h, Option.map_none']

theorem update_existing_some (n : CStr) (v : Value F) (vs : List (Variable F))
    (h : lookup n vs ≠ none) :
    ∃ before var after, vs = before ++ var :: after ∧ var.name = n ∧
      (∀ b ∈ before, b.name ≠ n) ∧
      update_existing n v vs = some (before ++ { name := n, value := v } :: after) := by
  induction vs with
  | nil => exact absurd rfl h
  | cons var rest ih =>
    by_cases hn : var.name = n
    · refine ⟨[], var, rest, rfl, hn, fun b hb => absurd hb (List.not_mem_nil _), ?_⟩
      simp only [update_existing, if_pos hn, List.nil_append, hn, if_true]
    · simp only [lookup, if_neg hn] at h
      obtain ⟨before, var1, after, h1, h2, h3, h4⟩ := ih h
      refine ⟨var :: before, var1, after, by rw [h1]; rfl, h2, ?_, ?_⟩
      · intro b hb
        rcases List.mem_cons.mp hb with e | e
        · rw [e]; exact hn
        · exact h3 b e
      · simp only [update_existing, if_neg hn, h4, Option.map_some', List.cons_append]

theorem set_variable_bound (interp : Interpreter F) (n : CStr) (v : Value F)
    (h : get_variable interp n ≠ none) :
    ∃ before var after, interp.vars = before ++ var :: after ∧ var.name = n ∧
      (∀ b ∈ before, b.name ≠ n) ∧
      (set_variable interp n v).vars = before ++ { name := n, value := v } :: after := by
  obtain ⟨before, var, after, h1, h2, h3, h4⟩ := update_existing_some n v interp.vars h
  refine ⟨before, var, after, h1, h2, h3, ?_⟩
  simp only [set_variable, h4]

theorem set_variable_unbound (interp : Interpreter F) (n : CStr) (v : Value F)
    (h : get_variable interp n = none) :
    (set_variable interp n v).vars = { name := n, value := v } :: interp.vars := by
  simp only [set_variable, update_existing_none n v interp.vars h]

theorem set_variable_nodup (interp : Interpreter F) (n : CStr) (v : Value F)
    (h : (interp.vars.map (fun var => var.name)).Nodup) :
    ((set_variable interp n v).vars.map (fun var => var.name)).Nodup := by
  by_cases hb : get_variable interp n = none
  · rw [set_variable_unbound interp n v hb, List.map_cons, List.nodup_cons]
    exact ⟨(lookup_none_iff n interp.vars).mp hb, h⟩
  · obtain ⟨before, var, after, h1, h2, -, h4⟩ := set_variable_bound interp n v hb
    rw [h4]
    rw [h1] at h
    simpa [h2] using h

theorem set_variables_nodup (sets : List (CStr × Value F)) :
    ∀ interp : Interpreter F, (interp.vars.map (fun var => var.name)).Nodup →
      ((sets.foldl (fun i s => set_variable i s.1 s.2) interp).vars.map
        (fun var => var.name)).Nodup := by
  induction sets with
  | nil => exact fun _ h => h
  | cons s rest ih =>
    intro interp h
    exact ih _ (set_variable_nodup interp s.1 s.2 h)

/-- C34. Environment shape invariant. Every environment reached from the empty one by calls
of `set_variable` has pairwise distinct names; `set_variable` on a bound name keeps the
entries before and after the first entry of that name and gives that entry the new
value; on an unbound name it puts one new entry in front of the unchanged entries. -/
theorem environment_shape_invariant :
    (∀ sets : List (CStr × Value F),
      ((sets.foldl (fun i s => set_variable i s.1 s.2)
        (interpreter_init : Interpreter F)).vars.map (fun var => var.name)).Nodup) ∧
    (∀ (interp : Interpreter F) (n : CStr) (v : Value F), get_variable interp n ≠ none →
      ∃ before var after, interp.vars = before ++ var :: after ∧ var.name = n ∧
        (∀ b ∈ before, b.name ≠ n) ∧
        (set_variable interp n v).vars = before ++ { name := n, value := v } :: after) ∧
    (∀ (interp : Interpreter F) (n : CStr) (v : Value F), get_variable interp n = none →
      (set_variable interp n v).vars = { name := n, value := v } :: interp.vars) :=
  ⟨fun sets => set_variables_nodup sets interpreter_init List.nodup_nil,
    set_variable_bound, set_variable_unbound⟩

/-! ### Lookahead -/

theorem scan_loop_source (test : Char → Bool) (limit : Option (Nat × ScanError)) :
    ∀ (steps : Nat) (lexer : Lexer) (buffer : CStr) (r : Lexer × CStr),
      scan_loop test limit steps lexer buffer = Scan.ok r → r.1.source = lexer.source := by
  intro steps
  induction steps with
  | zero =>
    intro lexer buffer r h
    exact Scan.noConfusion h
  | succ steps ih =>
    intro lexer buffer r h
    by_cases hcond : lexer.current_char ≠ '\x00' ∧ test lexer.current_char = true
    · cases limit with
      | none =>
        simp only [scan_loop, if_pos hcond] at h
        exact ih lexer.advance _ r h
      | some bound =>
        simp only [scan_loop, if_pos hcond] at h
        by_cases hb : buffer.length ≥ bound.1
        · rw [if_pos hb] at h
          exact Scan.noConfusion h
        · rw [if_neg hb] at h
          exact ih lexer.advance _ r h
    · simp only [scan_loop, if_neg hcond] at h
      obtain rfl := Scan.ok.inj h
      rfl

theorem and_then_ok {α β : Type} (first : Scan α) (next : α → Scan β) (b : β)
    (h : first.and_then next = Scan.ok b) : ∃ a, first = Scan.ok a ∧ next a = Scan.ok b := by
  cases first with
  | ok a => exact ⟨a, rfl, h⟩
  | fatal e => exact Scan.noConfusion h
  | out_of_steps => exact Scan.noConfusion h

theorem operator_token_source (lexer : Lexer) :
    (operator_token lexer).2.source = lexer.source := by
  unfold operator_token
  simp only []
  split_ifs <;> rfl

theorem next_token_loop_source :
    ∀ (steps : Nat) (lexer : Lexer) (token : Token) (l1 : Lexer),
      next_token_loop steps lexer = Scan.ok (token, l1) → l1.source = lexer.source := by
  intro steps
  induction steps with
  | zero =>
    intro lexer token l1 h
    exact Scan.noConfusion h
  | succ steps ih =>
    intro lexer token l1 h
    simp only [next_token_loop] at h
    split_ifs at h with h0 h1 h2 h3 h4 h5
    · obtain ⟨-, rfl⟩ := Prod.mk.inj (Scan.ok.inj h)
      rfl
    · obtain ⟨l2, hs, hn⟩ := and_then_ok _ _ _ h
      unfold skip_whitespace at hs
      obtain ⟨r, hr, hk⟩ := and_then_ok _ _ _ hs
      obtain rfl := Scan.ok.inj hk
      rw [ih _ token l1 hn]
      exact scan_loop_source _ _ _ _ _ r hr
    · obtain ⟨l2, hs, hn⟩ := and_then_ok _ _ _ h
      unfold skip_comment at hs
      rw [if_pos h2] at hs
      obtain ⟨r, hr, hk⟩ := and_then_ok _ _ _ hs
      obtain rfl := Scan.ok.inj hk
      rw [ih _ token l1 hn]
      exact scan_loop_source _ _ _ _ _ r hr
    · unfold read_string at h
      obtain ⟨r, hr, hk⟩ := and_then_ok _ _ _ h
      split_ifs at hk
      obtain ⟨-, rfl⟩ := Prod.mk.inj (Scan.ok.inj hk)
      exact scan_loop_source _ _ _ lexer.advance _ r hr
    · unfold read_number at h
      obtain ⟨r, hr, hk⟩ := and_then_ok _ _ _ h
      obtain ⟨-, rfl⟩ := Prod.mk.inj (Scan.ok.inj hk)
      exact scan_loop_source _ _ _ _ _ r hr
    · unfold read_identifier at h
      obtain ⟨r, hr, hk⟩ := and_then_ok _ _ _ h
      obtain ⟨-, rfl⟩ := Prod.mk.inj (Scan.ok.inj hk)
      exact scan_loop_source _ _ _ _ _ r hr
    · obtain ⟨-, h2⟩ := Prod.mk.inj (Scan.ok.inj h)
      rw [← h2]
      exact operator_token_source lexer

theorem lexer_next_token_source (lexer : Lexer) (token : Token) (l1 : Lexer)
    (h : lexer_next_token lexer = Scan.ok (token, l1)) : l1.source = lexer.source :=
  next_token_loop_source _ lexer token l1 h

theorem peek_next_ok (parser : Parser) (next : Token) (l1 : Lexer)
    (h : lexer_next_token parser.lexer = Scan.ok (next, l1)) :
    peek_next parser = Parse.ok (next, parser) := by
  have hs := lexer_next_token_source parser.lexer next l1 h
  unfold peek_next
  rw [h]
  simp only [hs]

/-- C32. Lookahead restores the scanner. For every parser state: when `peek_next` returns
a token, the parser afterwards is the parser before the call (the lexer has the same
source, position, line, column and current character, the current token is the same), and
the returned token is the token that the next call of `lexer_next_token` returns; when the
scan of the next token is fatal, so is `peek_next`; on a well-formed lexer it does not run
out of steps. -/
theorem lookahead_restores_scanner (parser : Parser) :
    (∀ next p1, peek_next parser = Parse.ok (next, p1) →
      p1 = parser ∧ p1.lexer.position = parser.lexer.position ∧
      p1.lexer.line = parser.lexer.line ∧ p1.lexer.column = parser.lexer.column ∧
      p1.lexer.current_char = parser.lexer.current_char ∧
      ∃ l1, lexer_next_token p1.lexer = Scan.ok (next, l1)) ∧
    (∀ next l1, lexer_next_token parser.lexer = Scan.ok (next, l1) →
      peek_next parser = Parse.ok (next, parser)) ∧
    (∀ e, lexer_next_token parser.lexer = Scan.fatal e →
      peek_next parser = Parse.scan_error e) ∧
    (well_formed parser.lexer → peek_next parser ≠ Parse.out_of_budget) := by
  refine ⟨?_, peek_next_ok parser, ?_, ?_⟩
  · intro next p1 h
    cases hl : lexer_next_token parser.lexer with
    | ok r =>
      obtain ⟨token, l1⟩ := r
      rw [peek_next_ok parser token l1 hl] at h
      obtain ⟨h1, h2⟩ := Prod.mk.inj (Parse.ok.inj h)
      subst h1 h2
      exact ⟨rfl, rfl, rfl, rfl, rfl, l1, hl⟩
    | fatal e =>
      unfold peek_next at h
      rw [hl] at h
      exact Parse.noConfusion h
    | out_of_steps =>
      unfold peek_next at h
      rw [hl] at h
      exact Parse.noConfusion h
  · intro e h
    unfold peek_next
    rw [h]
  · intro hwf h
    have h1 := (lexer_next_token_spec parser.lexer hwf).1
    cases hl : lexer_next_token parser.lexer with
    | ok r =>
      obtain ⟨token, l1⟩ := r
      rw [peek_next_ok parser token l1 hl] at h
      exact Parse.noConfusion h
    | fatal e =>
      unfold peek_next at h
      rw [hl] at h
      exact Parse.noConfusion h
    | out_of_steps => exact h1 hl

/-! ### Capacity of the parameter arrays -/

theorem split_parts_length (delims : List Char) :
    ∀ (limit : Nat) (s : CStr), (split_parts delims limit s).length ≤ limit := by
  intro limit
  induction limit with
  | zero => intro s; simp [split_parts]
  | succ limit ih =>
    intro s
    simp only [split_parts]
    cases strtok delims s with
    | none => simp
    | some r =>
      simp only [List.length_cons]
      exact Nat.succ_le_succ (ih r.2)

theorem match_parts_length :
    ∀ (pairs acc : List (CStr × CStr)),
      (match_parts pairs acc).2.length ≤ acc.length + pairs.length := by
  intro pairs
  induction pairs with
  | nil => intro acc; simp [match_parts]
  | cons pq rest ih =>
    intro acc
    obtain ⟨p, q⟩ := pq
    simp only [match_parts]
    split_ifs
    · have := ih (acc ++ [(strncpy (p.drop 1) 255, strncpy q 255)])
      simp only [List.length_append, List.length_cons, List.length_nil] at this ⊢
      omega
    · have := ih acc
      simp only [List.length_cons]
      omega
    · simp only [List.length_cons]
      omega

theorem route_matches_length (pattern path : CStr) :
    (route_matches pattern path).2.length ≤ 32 := by
  unfold route_matches
  simp only []
  split_ifs
  · simp
  · have h1 := match_parts_length
      ((split_parts ['/'] 32 (strncpy pattern 255)).zip
        (split_parts ['/'] 32 (strncpy path 255))) []
    have h2 := split_parts_length ['/'] 32 (strncpy pattern 255)
    simp only [List.length_nil, List.length_zip, Nat.zero_add] at h1
    omega

/-- C35, the code on a pattern of nine parameter segments: `route_matches` accepts the
request path `/1/2/3/4/5/6/7/8/9`, returns the parameter count 9 and has recorded nine
(name, value) pairs, the ninth at index 8 of the eight-slot arrays of
`find_matching_route`. The only bound on the count is the 32 of the segments. -/
theorem ninth_parameter_recorded :
    route_matches pattern_of_9_params path_of_9_segments =
      (true,
        [("a".toList, "1".toList), ("b".toList, "2".toList), ("c".toList, "3".toList),
         ("d".toList, "4".toList), ("e".toList, "5".toList), ("f".toList, "6".toList),
         ("g".toList, "7".toList), ("h".toList, "8".toList), ("i".toList, "9".toList)]) ∧
    (route_matches pattern_of_9_params path_of_9_segments).2.length = 9 ∧
    (route_matches pattern_of_9_params path_of_9_segments).2[8]? =
      some ("i".toList, "9".toList) ∧
    ∀ pattern path, (route_matches pattern path).2.length ≤ 32 :=
  ⟨by decide, by decide, by decide, route_matches_length⟩

/-! ### Logical operators -/

theorem single_operator_of_atoms (atof : CStr → F) (budget : Nat)
    (expression : Parser → Parse (ASTNode F × Parser)) (q0 q1 q2 q3 : Parser)
    (a0 : is_atom q0.current_token.type = true) (h01 : q0.advance = Parse.ok q1)
    (l1 : 1 ≤ binding_level q1.current_token.type) (h12 : q1.advance = Parse.ok q2)
    (a2 : is_atom q2.current_token.type = true) (h23 : q2.advance = Parse.ok q3)
    (l3 : binding_level q3.current_token.type = 0) :
    level_parse atof (budget + 2) expression 6 q0 =
      Parse.ok (ASTNode.binary_op q1.lexeme (atom_node atof q0.current_token)
        (atom_node atof q2.current_token), q3) := by
  have A0 : level_parse atof (budget + 2) expression 0 q0 =
      Parse.ok (atom_node atof q0.current_token, q1) :=
    parse_primary_atom atof expression q0 q1 a0 h01
  have A2 : level_parse atof (budget + 2) expression 0 q2 =
      Parse.ok (atom_node atof q2.current_token, q3) :=
    parse_primary_atom atof expression q2 q3 a2 h23
  have m1 := binding_level_le q1.current_token.type
  obtain ⟨k1, hk1⟩ : ∃ k1, binding_level q1.current_token.type = k1 + 1 :=
    ⟨binding_level q1.current_token.type - 1, by omega⟩
  rw [hk1] at m1
  have T3 : ∀ j, 0 < j → binding_level q3.current_token.type ≠ j := by
    intro j hj
    rw [l3]
    omega
  have E := level_parse_pass atof (budget + 1) expression q0 q1 _ 0 A0 k1 (Nat.zero_le _)
    (fun j _ h2 => by rw [hk1]; omega)
  have B := level_parse_pass atof (budget + 1) expression q2 q3 _ 0 A2 k1 (Nat.zero_le _)
    (fun j h1 _ => T3 j h1)
  have G := level_parse_one atof budget expression k1 q0 q1 q2 q3 _ _ E hk1 h12 B
    (T3 _ (Nat.succ_pos _))
  exact level_parse_pass atof (budget + 1) expression q0 q3 _ (k1 + 1) G 6 (by omega)
    (fun j h1 _ => T3 j (by omega))

theorem logical_result_null (ops : DoubleOps F) (op : CStr)
    (hop : op = "&&".toList ∨ op = "||".toList) (l r : Value F) :
    binary_op_result ops op l r = (Value.null, []) := by
  rcases hop with h | h <;> subst h
  · unfold binary_op_result
    rw [if_neg (by decide)]
    cases hn : number_operands l r with
    | none =>
      simp only [Option.bind, equality_branch]
      rw [if_neg (by decide), if_neg (by decide)]
      rfl
    | some ab =>
      have hb : numeric_branch ops "&&".toList ab.1 ab.2 = none := by
        unfold numeric_branch
        rw [if_neg (by decide), if_neg (by decide), if_neg (by decide), if_neg (by decide),
          if_neg (by decide), if_neg (by decide), if_neg (by decide)]
      simp only [Option.bind, hb, equality_branch]
      rw [if_neg (by decide), if_neg (by decide)]
      rfl
  · unfold binary_op_result
    rw [if_neg (by decide)]
    cases hn : number_operands l r with
    | none =>
      simp only [Option.bind, equality_branch]
      rw [if_neg (by decide), if_neg (by decide)]
      rfl
    | some ab =>
      have hb : numeric_branch ops "||".toList ab.1 ab.2 = none := by
        unfold numeric_branch
        rw [if_neg (by decide), if_neg (by decide), if_neg (by decide), if_neg (by decide),
          if_neg (by decide), if_neg (by decide), if_neg (by decide)]
      simp only [Option.bind, hb, equality_branch]
      rw [if_neg (by decide), if_neg (by decide)]
      rfl

/-- C37. Logical operators have no evaluation rule. On the tokens `a op b` where `op` is the
token `&&` or `||` (operands that are single tokens, the token after `b` not an operator),
`parse_expression` returns the node `BinaryOp(op, a, b)`; and for every environment and
operand nodes, `eval_expression` on a BinaryOp with operator `&&` or `||` evaluates both
operands (their diagnostics are written, left first) and yields null. -/
theorem logical_operators_yield_null (atof : CStr → F) (ops : DoubleOps F) (budget : Nat)
    (q0 q1 q2 q3 : Parser) (op : CStr) (hb : 1 ≤ budget)
    (a0 : is_atom q0.current_token.type = true) (h01 : q0.advance = Parse.ok q1)
    (hop : (q1.current_token.type = TokenType.TOKEN_AND ∧ op = "&&".toList) ∨
      (q1.current_token.type = TokenType.TOKEN_OR ∧ op = "||".toList))
    (hlexeme : q1.current_token.value = some op) (h12 : q1.advance = Parse.ok q2)
    (a2 : is_atom q2.current_token.type = true) (h23 : q2.advance = Parse.ok q3)
    (l3 : binding_level q3.current_token.type = 0) :
    parse_expression atof (budget + 1) q0 =
      Parse.ok (ASTNode.binary_op op (atom_node atof q0.current_token)
        (atom_node atof q2.current_token), q3) ∧
    ∀ (interp : Interpreter F) (left right : ASTNode F),
      eval_expression ops interp (ASTNode.binary_op op left right) =
        (Value.null,
          (eval_expression ops interp left).2 ++ (eval_expression ops interp right).2) := by
  constructor
  · obtain ⟨n, rfl⟩ : ∃ n, budget = n + 1 := ⟨budget - 1, by omega⟩
    have hl : q1.lexeme = op := by
      unfold Parser.lexeme
      rw [hlexeme]
      rfl
    have l1 : 1 ≤ binding_level q1.current_token.type := by
      rcases hop with h | h <;> rw [h.1] <;> decide
    rw [level_parse_six, ← hl]
    exact single_operator_of_atoms atof n _ q0 q1 q2 q3 a0 h01 l1 h12 a2 h23 l3
  · intro interp left right
    have hop1 : op = "&&".toList ∨ op = "||".toList := by
      rcases hop with h | h
      · exact Or.inl h.2
      · exact Or.inr h.2
    simp only [eval_expression, logical_result_null ops op hop1, List.append_nil]

/-- C37 on the source `a && b`: the parser builds `BinaryOp(&&, a, b)`, and the node
evaluates to null with `a` bound to 1 and `b` bound to 2. -/
theorem logical_operators_yield_null_witness :
    parse_expression atof_whole 3
        (parser_at "a && b".toList 1 TokenType.TOKEN_IDENTIFIER (some "a".toList) 0) =
      Parse.ok (ASTNode.binary_op "&&".toList (ASTNode.identifier "a".toList)
          (ASTNode.identifier "b".toList),
        parser_at "a && b".toList 6 TokenType.TOKEN_EOF none 6) ∧
    eval_expression wholeOps
        (set_variable (set_variable interpreter_init "a".toList (Value.number 1)) "b".toList
          (Value.number 2))
        (ASTNode.binary_op "&&".toList (ASTNode.identifier "a".toList)
          (ASTNode.identifier "b".toList)) =
      (Value.null, []) :=
  have h := logical_operators_yield_null atof_whole wholeOps 2
    (parser_at "a && b".toList 1 TokenType.TOKEN_IDENTIFIER (some "a".toList) 0)
    (parser_at "a && b".toList 4 TokenType.TOKEN_AND (some "&&".toList) 2)
    (parser_at "a && b".toList 6 TokenType.TOKEN_IDENTIFIER (some "b".toList) 5)
    (parser_at "a && b".toList 6 TokenType.TOKEN_EOF none 6)
    "&&".toList (by decide) rfl rfl (Or.inl ⟨rfl, rfl⟩) rfl rfl rfl rfl rfl
  ⟨h.1, h.2 _ _ _⟩

/-! ### `string_split` -/

theorem string_find_empty (s : CStr) : string_find s [] = some 0 := by
  cases s with
  | nil => rfl
  | cons c cs => simp [string_find]

theorem split_loop_empty :
    ∀ (budget : Nat) (s : CStr) (tokens : List CStr), split_loop [] budget s tokens = none := by
  intro budget
  induction budget with
  | zero => intro s tokens; rfl
  | succ budget ih =>
    intro s tokens
    simp only [split_loop, string_find_empty, List.length_nil, Nat.add_zero, List.drop_zero]
    exact ih s _

theorem string_find_some :
    ∀ (s delim : CStr) (pos : Nat), string_find s delim = some pos →
      s = s.take pos ++ delim ++ s.drop (pos + delim.length) := by
  intro s
  induction s with
  | nil =>
    intro delim pos h
    simp only [string_find] at h
    split_ifs at h with hd
    subst hd
    simp
  | cons c cs ih =>
    intro delim pos h
    simp only [string_find] at h
    split_ifs at h with hd
    · obtain rfl := Option.some.inj h
      simp only [List.take_zero, List.nil_append, Nat.zero_add]
      conv_lhs => rw [← List.take_append_drop delim.length (c :: cs), hd]
    · cases hf : string_find cs delim with
      | none => rw [hf] at h; exact Option.noConfusion h
      | some p =>
        rw [hf] at h
        obtain rfl := Option.some.inj h
        have := ih delim p hf
        have e : p + 1 + delim.length = (p + delim.length) + 1 := by omega
        rw [e, List.take_succ_cons, List.drop_succ_cons, List.cons_append, List.cons_append,
          ← this]

theorem intercalate_cons (delim piece : CStr) (pieces : List CStr) (h : pieces ≠ []) :
    List.intercalate delim (piece :: pieces) =
      piece ++ delim ++ List.intercalate delim pieces := by
  cases pieces with
  | nil => exact absurd rfl h
  | cons q rest => simp [List.intercalate, List.intersperse]

theorem split_loop_pieces (delim : CStr) (hd : delim ≠ []) :
    ∀ (budget : Nat) (s : CStr) (tokens : List CStr), s.length < budget →
      ∃ pieces, split_loop delim budget s tokens = some (tokens ++ pieces) ∧ pieces ≠ [] ∧
        List.intercalate delim pieces = s ∧
        pieces.length = count_occurrences delim budget s + 1 := by
  intro budget
  induction budget with
  | zero =>
    intro s tokens h
    exact absurd h (Nat.not_lt_zero _)
  | succ budget ih =>
    intro s tokens hlen
    cases hf : string_find s delim with
    | none =>
      refine ⟨[s], ?_, List.cons_ne_nil _ _, ?_, ?_⟩
      · simp only [split_loop, hf]
      · simp [List.intercalate]
      · simp only [count_occurrences, hf, List.length_singleton]
    | some pos =>
      have hs := string_find_some s delim pos hf
      have hdl : 0 < delim.length := List.length_pos.mpr hd
      have hshort : (s.drop (pos + delim.length)).length < budget := by
        have h1 := congrArg List.length hs
        simp only [List.length_append] at h1
        omega
      obtain ⟨pieces, h1, h2, h3, h4⟩ :=
        ih (s.drop (pos + delim.length)) (tokens ++ [s.take pos]) hshort
      refine ⟨s.take pos :: pieces, ?_, List.cons_ne_nil _ _, ?_, ?_⟩
      · simp only [split_loop, hf, h1, List.append_assoc, List.singleton_append]
      · rw [intercalate_cons delim _ pieces h2, h3]
        exact hs.symm
      · simp only [count_occurrences, hf, List.length_cons, h4]

/-- C40, the code on the empty delimiter: `find` of the empty string is 0 for every
string, nothing is erased, and the loop of `string_split` is still running after any
number of tests; it pushes an empty piece each time round. For a delimiter that is not
empty the loop ends within `len(str) + 1` tests, the pieces joined by the delimiter are
the string, and their number is one more than the number of successive occurrences of
the delimiter (`apple,banana,cherry` gives the three parts). -/
theorem string_split_empty_delimiter :
    (∀ str budget, string_split str [] budget = none) ∧
    (∀ str delimiter, delimiter ≠ [] →
      ∃ pieces, string_split str delimiter (str.length + 1) = some pieces ∧
        List.intercalate delimiter pieces = str ∧
        pieces.length = count_occurrences delimiter (str.length + 1) str + 1) ∧
    string_split "apple,banana,cherry".toList ",".toList 20 =
      some ["apple".toList, "banana".toList, "cherry".toList] := by
  refine ⟨fun str budget => split_loop_empty budget str [], ?_, by decide⟩
  intro str delimiter hd
  obtain ⟨pieces, h1, -, h3, h4⟩ :=
    split_loop_pieces delimiter hd (str.length + 1) str [] (Nat.lt_succ_self _)
  exact ⟨pieces, h1, h3, h4⟩

/-! ### Numeric formatting -/

/-- The text `fmt_g_decimal` gives on sample values, as `printf("%g")` prints them: style
`f` and style `e`, six significant digits with ties to even, and a carry into the next
power of ten. On whole numbers it agrees with `fmt_g_whole`. -/
theorem fmt_g_decimal_examples :
    fmt_g_decimal { mant := 0, exp := 0 } = "0".toList ∧
    fmt_g_decimal { mant := 25, exp := 0 } = "25".toList ∧
    fmt_g_decimal { mant := 15, exp := -1 } = "1.5".toList ∧
    fmt_g_decimal { mant := 150, exp := -2 } = "1.5".toList ∧
    fmt_g_decimal { mant := -125, exp := -2 } = "-1.25".toList ∧
    fmt_g_decimal { mant := 1, exp := 5 } = "100000".toList ∧
    fmt_g_decimal { mant := 1, exp := 6 } = "1e+06".toList ∧
    fmt_g_decimal { mant := 1500000, exp := 0 } = "1.5e+06".toList ∧
    fmt_g_decimal { mant := 1, exp := -4 } = "0.0001".toList ∧
    fmt_g_decimal { mant := 1, exp := -5 } = "1e-05".toList ∧
    fmt_g_decimal { mant := 123456, exp := -9 } = "0.000123456".toList ∧
    fmt_g_decimal { mant := 1234567, exp := 0 } = "1.23457e+06".toList ∧
    fmt_g_decimal { mant := 1234565, exp := -1 } = "123456".toList ∧
    fmt_g_decimal { mant := 1234575, exp := -1 } = "123458".toList ∧
    fmt_g_decimal { mant := 9999995, exp := -1 } = "1e+06".toList ∧
    fmt_g_decimal { mant := 3333333333, exp := -10 } = "0.333333".toList ∧
    fmt_g_decimal { mant := 1, exp := 100 } = "1e+100".toList ∧
    fmt_g_decimal { mant := 1234567, exp := 0 } = fmt_g_whole 1234567 ∧
    fmt_g_decimal { mant := -1500000, exp := 0 } = fmt_g_whole (-1500000) ∧
    fmt_g_decimal { mant := 999999, exp := 0 } = fmt_g_whole 999999 := by
  refine ⟨?_, ?_, ?_, ?_, ?_, ?_, ?_, ?_, ?_, ?_, ?_, ?_, ?_, ?_, ?_, ?_, ?_, ?_, ?_, ?_⟩ <;>
    decide

/-- The reader `read_decimal` on sample texts. -/
theorem read_decimal_examples :
    read_decimal "-0.5".toList =
      some { negative := true, whole := "0".toList, frac := "5".toList, expo := 0 } ∧
    read_decimal "1e5".toList =
      some { negative := false, whole := "1".toList, frac := [], expo := 5 } ∧
    read_decimal "+25E-2".toList =
      some { negative := false, whole := "25".toList, frac := [], expo := -2 } ∧
    read_decimal ".5".toList =
      some { negative := false, whole := [], frac := "5".toList, expo := 0 } ∧
    read_decimal ".".toList = none ∧ read_decimal "1e".toList = none ∧
    read_decimal "1.5x".toList = none ∧ read_decimal "".toList = none := by
  refine ⟨?_, ?_, ?_, ?_, ?_, ?_, ?_, ?_⟩ <;> decide

end WebBubble
